import Mathlib

/-!
# Replication agent (integrador): queue store, dispatcher, sender, receiver

A shallow embedding of the Go agent.  The Firebird database is an explicit
state `DB`; every database call of the Go code is a function on that state.
A call can fail for reasons outside the code (connection lost, lock conflict,
constraint of a user table): each call site takes a flag from an environment
record that says whether the call returns an error.  Calls that the database
rejects because of the schema created by `InstallTriggers` (column widths of
the queue tables) fail without a flag.
-/

namespace Integrador

/-! ## Data model -/

/-- A JSON scalar as it is decoded into a Go `interface{}`: `null`, a string, or
a number / boolean kept by its literal text. -/
inductive Value where
  | null
  | str (s : String)
  | lit (s : String)
  deriving DecidableEq, Repr

/-- A Go `map[string]interface{}`: the entries in the order in which one `range`
loop visits them (Go leaves that order unspecified). -/
abbrev GoMap := List (String × Value)

/-- The envelope `models.SyncPayload`. -/
structure SyncPayload where
  EventID : String
  Table : String
  Operation : String
  PKJSON : GoMap
  PayloadJSON : GoMap
  Origem : String
  Timestamp : Nat
  RemoteAddr : String
  deriving DecidableEq, Repr

/-- A row of `FILA_INTEGRACAO` (the events outbox).  The first ten fields are the
fields of the Go struct `db.FilaItem`; `DTUltEnvio` and `ERROMsg` are the two
remaining columns of the table.  `PayloadJSON` is nullable: the capture trigger
stores NULL for a delete. -/
structure FilaItem where
  ID : Int
  EventID : String
  Tabela : String
  Operacao : String
  PKJSON : String
  PayloadJSON : Option String
  Origem : String
  Status : String
  Tentativas : Int
  DTEvento : Nat
  DTUltEnvio : Option Nat
  ERROMsg : Option String
  deriving DecidableEq, Repr

/-- A peer as read by `GetActiveNodes` (`db.Node`). -/
structure Node where
  NodeID : String
  RemoteURL : String
  deriving DecidableEq, Repr

/-- A row of `SYNC_NODES`. -/
structure NodeRow where
  NodeID : String
  RemoteURL : String
  LastSeen : Option Nat
  Active : String
  deriving DecidableEq, Repr

/-- A row of `FILA_DESTINOS` (`db.FilaDestino` without the joined item). -/
structure FilaDestino where
  ID : Int
  FilaID : Int
  NodeID : String
  Status : String
  Tentativas : Int
  ERROMsg : Option String
  DTUltTentativa : Option Nat
  deriving DecidableEq, Repr

/-- A row of a replicated user table: column name and cell value. -/
abbrev Row := List (String × Value)

/-- The capture trigger that `InstallTriggers` generates for one table: the
columns compared by the UPDATE guard, the payload columns and the key columns. -/
structure Trigger where
  tableName : String
  changeChecks : List String
  cols : List String
  pkCols : List String
  deriving DecidableEq, Repr

/-- A replicated user table with the metadata `InstallTriggers` reads:
columns in field position order, primary-key columns, the first column of the
first UNIQUE constraint, and the capture trigger when one is installed. -/
structure Table where
  name : String
  cols : List String
  pkCols : List String
  uniqueCol : Option String
  trigger : Option Trigger
  rows : List Row
  deriving DecidableEq, Repr

/-- A row of `TABELAS_INTEGRADAS`, the registry of integrated tables:
`NOME_TABELA` and the flag `ATIVO` (`S` or `N`). -/
structure TabelaIntegrada where
  NomeTabela : String
  Ativo : String
  deriving DecidableEq, Repr

/-- The database.  `fila` is `FILA_INTEGRACAO`, `destinos` is `FILA_DESTINOS`,
`nodes` is `SYNC_NODES`, `tables` are the replicated user tables; `genFila` and
`genDest` are the two ID generators; `integradas` is `TABELAS_INTEGRADAS`.  The
queue tables are kept apart from the user tables; what a statement built from
an envelope does when it names one of them is said by `execStmt`. -/
structure DB where
  fila : List FilaItem
  destinos : List FilaDestino
  nodes : List NodeRow
  tables : List Table
  genFila : Int
  genDest : Int
  integradas : List TabelaIntegrada := []
  deriving DecidableEq, Repr

/-- The part of `config.Config` under `webhook`. -/
structure WebhookCfg where
  ListenAddr : String
  RemoteURL : String
  Token : String
  deriving DecidableEq, Repr

/-- The part of `config.Config` under `relay`. -/
structure RelayCfg where
  Enabled : Bool
  HubURL : String
  Token : String
  deriving DecidableEq, Repr

/-- The part of `config.Config` under `integracao`. -/
structure IntegracaoCfg where
  BatchSize : Int
  RetryMax : Int
  RetryIntervalSeconds : Int
  TimeoutSeconds : Int
  deriving DecidableEq, Repr

/-- The agent configuration `config.Config` (fields the engine reads). -/
structure Config where
  NodeID : String
  Webhook : WebhookCfg
  Relay : RelayCfg
  Integracao : IntegracaoCfg
  deriving DecidableEq, Repr

deriving instance DecidableEq for Except

/-! ## The database engine: queue tables -/

/-- Column widths of `FILA_INTEGRACAO` as created by `InstallTriggers`:
`EVENT_ID CHAR(36)`, `TABELA VARCHAR(31)`, `OPERACAO CHAR(1)`,
`ORIGEM VARCHAR(20)`, `STATUS CHAR(1)`.  Firebird rejects a longer string. -/
def filaAccepts (r : FilaItem) : Bool :=
  decide (r.EventID.length ≤ 36) && decide (r.Tabela.length ≤ 31) &&
  decide (r.Operacao.length ≤ 1) && decide (r.Origem.length ≤ 20) &&
  decide (r.Status.length ≤ 1)

/-- An `INSERT INTO FILA_INTEGRACAO` without an ID: the BEFORE INSERT trigger
`TRG_FILA_INTEGRACAO_BI` takes the ID from the generator. -/
def insertFila (r : FilaItem) (s : DB) : Option DB :=
  if filaAccepts r then
    some { s with genFila := s.genFila + 1,
                  fila := s.fila ++ [{ r with ID := s.genFila + 1 }] }
  else none

/-- Several outbox inserts in sequence; the first rejected one fails them all. -/
def insertFilaAll : List FilaItem → DB → Option DB
  | [], s => some s
  | r :: rs, s =>
    match insertFila r s with
    | some s1 => insertFilaAll rs s1
    | none => none

/-- An `INSERT INTO FILA_DESTINOS (FILA_ID, NODE_ID, STATUS) VALUES (?, ?, 'P')`:
`NODE_ID` is `VARCHAR(20)`, the ID comes from the generator, the other columns
take their defaults. -/
def insertDestino (filaID : Int) (nodeID : String) (s : DB) : Option DB :=
  if nodeID.length ≤ 20 then
    some { s with genDest := s.genDest + 1,
                  destinos := s.destinos ++
                    [{ ID := s.genDest + 1, FilaID := filaID, NodeID := nodeID, Status := "P",
                       Tentativas := 0, ERROMsg := none, DTUltTentativa := none }] }
  else none

/-- The statement `UPDATE OR INSERT INTO SYNC_NODES (NODE_ID, REMOTE_URL, LAST_SEEN,
ACTIVE) VALUES (?, ?, CURRENT_TIMESTAMP, 'S') MATCHING (NODE_ID)`; `NODE_ID` is
`VARCHAR(20)` and `REMOTE_URL` is `VARCHAR(255)`. -/
def upsertNode (now : Nat) (nodeID remoteURL : String) (s : DB) : Option DB :=
  if nodeID.length ≤ 20 ∧ remoteURL.length ≤ 255 then
    let fresh : NodeRow :=
      { NodeID := nodeID, RemoteURL := remoteURL, LastSeen := some now, Active := "S" }
    if s.nodes.any (fun n => decide (n.NodeID = nodeID)) then
      some { s with nodes := s.nodes.map (fun n => if n.NodeID = nodeID then fresh else n) }
    else
      some { s with nodes := s.nodes ++ [fresh] }
  else none

/-! ## The database engine: user tables and the capture trigger -/

/-- The cell of column `c` in a row (NULL when the row has no such cell). -/
def cell (r : Row) (c : String) : Value :=
  match r.find? (fun kv => decide (kv.1 = c)) with
  | some kv => kv.2
  | none => Value.null

/-- The value bound to column `c` by a column list and its value list. -/
def assigned (cols : List String) (vals : List Value) (c : String) : Option Value :=
  match (cols.zip vals).find? (fun kv => decide (kv.1 = c)) with
  | some kv => some kv.2
  | none => none

/-- A row-level change made by a statement, as seen by an AFTER trigger. -/
inductive Change where
  | ins (new : Row)
  | upd (old new : Row)
  | del (old : Row)
  deriving DecidableEq, Repr

/-- The text of `CAST(x AS VARCHAR(n))` wrapped in `COALESCE(..., '')`. -/
def castVarchar : Value → String
  | Value.null => ""
  | Value.str s => s
  | Value.lit s => s

/-- One part of the JSON text concatenated by the trigger: `"COL": "value"`. -/
def jsonPart (r : Row) (c : String) : String :=
  "\"" ++ c ++ "\": \"" ++ castVarchar (cell r c) ++ "\""

/-- The JSON object text the trigger builds from a column list and a row image. -/
def jsonObject (cols : List String) (r : Row) : String :=
  "\x7b" ++ ",".intercalate (cols.map (jsonPart r)) ++ "\x7d"

/-- The guard `changeCondition` of the trigger: the OR of
`OLD.c IS DISTINCT FROM NEW.c` over the compared columns, and `1=1` when there is
no compared column. -/
def changeCondition (changeChecks : List String) (old new : Row) : Bool :=
  if changeChecks.isEmpty then true
  else changeChecks.any (fun c => decide (cell old c ≠ cell new c))

/-- The body of the generated trigger for one row change: the outbox row it
inserts (`none` when the UPDATE guard exits).  `eventID` is the result of
`UUID_TO_CHAR(GEN_UUID())`; status, counter and timestamp are column defaults. -/
def Trigger.capture (tr : Trigger) (eventID : String) (now : Nat) : Change → Option FilaItem
  | Change.upd old new =>
    if !(changeCondition tr.changeChecks old new) then none
    else some { ID := 0, EventID := eventID, Tabela := tr.tableName, Operacao := "U",
                PKJSON := jsonObject tr.pkCols new,
                PayloadJSON := some (jsonObject tr.cols new),
                Origem := "TRIGGER", Status := "P", Tentativas := 0, DTEvento := now,
                DTUltEnvio := none, ERROMsg := none }
  | Change.ins new =>
    some { ID := 0, EventID := eventID, Tabela := tr.tableName, Operacao := "I",
           PKJSON := jsonObject tr.pkCols new,
           PayloadJSON := some (jsonObject tr.cols new),
           Origem := "TRIGGER", Status := "P", Tentativas := 0, DTEvento := now,
           DTUltEnvio := none, ERROMsg := none }
  | Change.del old =>
    some { ID := 0, EventID := eventID, Tabela := tr.tableName, Operacao := "D",
           PKJSON := jsonObject tr.pkCols old,
           PayloadJSON := none,
           Origem := "TRIGGER", Status := "P", Tentativas := 0, DTEvento := now,
           DTUltEnvio := none, ERROMsg := none }

/-- The outbox rows the trigger inserts for the changes of one statement, in
order; the `k`-th change draws the UUID `uuid k`. -/
def captureAll (tr : Trigger) (uuid : Nat → String) (now : Nat) : List Change → List FilaItem
  | [] => []
  | ch :: rest =>
    match tr.capture (uuid 0) now ch with
    | some r => r :: captureAll tr (fun k => uuid (k + 1)) now rest
    | none => captureAll tr (fun k => uuid (k + 1)) now rest

/-- Upper-casing of ASCII letters (`strings.ToUpper` on column names). -/
def upperChar (c : Char) : Char :=
  if 97 ≤ c.toNat ∧ c.toNat ≤ 122 then Char.ofNat (c.toNat - 32) else c

/-- Upper-casing of a string, character by character. -/
def toUpper (s : String) : String := String.mk (s.data.map upperChar)

/-- The technical columns listed in `ignoreFields`. -/
def ignoreFields : List String :=
  ["FLAGINTEGRACAO", "SINCRONIZADO", "SYNC_TS", "DATA_ULT_ALTERACAO", "HORA_ULT_ALTERACAO",
   "DATA_ULT_SINCRONIZA", "HORA_ULT_SINCRONIZA", "VERSION", "USUARIO_ALT"]

/-- The columns that get a change check: those not in the ignore set. -/
def changeChecksOf (cols : List String) : List String :=
  cols.filter (fun c => !(ignoreFields.contains (toUpper c)))

/-- The key columns the trigger uses: the primary key, else the first column of
the first UNIQUE constraint, else the first column of the table. -/
def triggerPkCols (t : Table) : List String :=
  if t.pkCols ≠ [] then t.pkCols
  else match t.uniqueCol with
    | some c => [c]
    | none => t.cols.take 1

/-- The trigger `InstallTriggers` creates for a table. -/
def triggerFor (t : Table) : Trigger :=
  { tableName := t.name, changeChecks := changeChecksOf t.cols, cols := t.cols,
    pkCols := triggerPkCols t }

/-- The loop of `InstallTriggers` over the selected table names, in a run where no
database call returns an error: a table without columns (or unknown) is skipped,
every other one gets `CREATE OR ALTER TRIGGER`.  The queue tables the function
creates first are part of every `DB`. -/
def InstallTriggers (tables : List String) (s : DB) : DB :=
  { s with tables := s.tables.map (fun t =>
      if tables.contains t.name ∧ t.cols ≠ [] then { t with trigger := some (triggerFor t) }
      else t) }

/-- The SQL statement `applyToDBTx` builds, with its bound parameters:
`DELETE FROM table WHERE c1 = ? AND ...` or
`UPDATE OR INSERT INTO table (cols) VALUES (?, ...) MATCHING (pkCols)`. -/
inductive Stmt where
  | delete (table : String) (clauses : List String) (params : List Value)
  | upsert (table : String) (cols : List String) (vals : List Value) (pkCols : List String)
  deriving DecidableEq, Repr

/-- Whether a row satisfies `c1 = ? AND c2 = ? ...`: SQL equality, which a NULL on
either side never satisfies. -/
def whereMatches (clauses : List String) (params : List Value) (r : Row) : Bool :=
  (clauses.zip params).all (fun kv => decide (kv.2 ≠ Value.null) && decide (cell r kv.1 = kv.2))

/-- Whether a row matches the `MATCHING` columns of an upsert: the comparison is
`IS NOT DISTINCT FROM`, so NULL matches NULL. -/
def matchingRow (cols : List String) (vals : List Value) (pkCols : List String) (r : Row) : Bool :=
  pkCols.all (fun k => decide (some (cell r k) = assigned cols vals k))

/-- The row image after `SET cols = vals`. -/
def setCells (cols : List String) (vals : List Value) (r : Row) : Row :=
  r.map (fun kv => match assigned cols vals kv.1 with
    | some v => (kv.1, v)
    | none => kv)

/-- The row inserted by an upsert that matches nothing: listed columns take the
bound values, the other columns are NULL. -/
def newRow (tcols : List String) (cols : List String) (vals : List Value) : Row :=
  tcols.map (fun c => match assigned cols vals c with
    | some v => (c, v)
    | none => (c, Value.null))

/-- The rows of a table after a statement and the row changes it made, or `none`
when the engine rejects the statement: an empty WHERE or MATCHING list (syntax
error) or a column the table does not have. -/
def execRows (t : Table) : Stmt → Option (List Row × List Change)
  | Stmt.delete _ clauses params =>
    if clauses = [] ∨ ¬ (clauses.all (fun c => t.cols.contains c)) then none
    else some (t.rows.filter (fun r => !(whereMatches clauses params r)),
               (t.rows.filter (whereMatches clauses params)).map Change.del)
  | Stmt.upsert _ cols vals pkCols =>
    if pkCols = [] ∨ ¬ (cols.all (fun c => t.cols.contains c)) then none
    else if t.rows.any (matchingRow cols vals pkCols) then
      some (t.rows.map (fun r => if matchingRow cols vals pkCols r then setCells cols vals r else r),
            (t.rows.filter (matchingRow cols vals pkCols)).map
              (fun r => Change.upd r (setCells cols vals r)))
    else
      some (t.rows ++ [newRow t.cols cols vals], [Change.ins (newRow t.cols cols vals)])

/-- The table a statement names. -/
def Stmt.table : Stmt → String
  | Stmt.delete t _ _ => t
  | Stmt.upsert t _ _ _ => t

/-- Replaces the rows of the first table with the given name. -/
def setRows (name : String) (rows : List Row) : List Table → List Table
  | [] => []
  | t :: ts => if t.name = name then { t with rows := rows } :: ts else t :: setRows name rows ts

/-- Execution of a statement on a replicated user table, named by its metadata
name: the table must exist, the rows change as `execRows` says, and the capture
trigger of the table (when installed) inserts its outbox rows in the same
statement; anything rejected fails the whole statement and leaves the state
untouched. -/
def execUser (uuid : Nat → String) (now : Nat) (st : Stmt) (s : DB) : Option DB :=
  match s.tables.find? (fun t => decide (t.name = st.table)) with
  | none => none
  | some t =>
    match execRows t st with
    | none => none
    | some (rows, changes) =>
      match t.trigger with
      | none => some { s with tables := setRows st.table rows s.tables }
      | some tr =>
        insertFilaAll (captureAll tr uuid now changes)
          { s with tables := setRows st.table rows s.tables }

/-- The tables the agent creates for itself (`InstallTriggers`, `handleSave`). -/
def agentTables : List String :=
  ["FILA_INTEGRACAO", "FILA_DESTINOS", "SYNC_NODES", "TABELAS_INTEGRADAS"]

/-- An ASCII letter. -/
def isLetter (c : Char) : Bool :=
  (decide (65 ≤ c.toNat) && decide (c.toNat ≤ 90)) ||
  (decide (97 ≤ c.toNat) && decide (c.toNat ≤ 122))

/-- An ASCII digit. -/
def isDigit (c : Char) : Bool := decide (48 ≤ c.toNat) && decide (c.toNat ≤ 57)

/-- Whether a name that `fmt.Sprintf` writes into the SQL text without quotes is
a regular identifier: a letter followed by letters, digits, `_` or `$`. -/
def regularIdent (name : String) : Bool :=
  match name.data with
  | [] => false
  | c :: cs => isLetter c && cs.all (fun d => isLetter d || isDigit d || d = '_' || d = '$')

/-- The names a statement writes into its SQL text. -/
def Stmt.idents : Stmt → List String
  | Stmt.delete t clauses _ => t :: clauses
  | Stmt.upsert t cols _ pkCols => t :: (cols ++ pkCols)

/-- The statement as the engine reads it: names written without quotes are folded
to upper case. -/
def Stmt.fold : Stmt → Stmt
  | Stmt.delete t clauses params => Stmt.delete (toUpper t) (clauses.map toUpper) params
  | Stmt.upsert t cols vals pkCols =>
    Stmt.upsert (toUpper t) (cols.map toUpper) vals (pkCols.map toUpper)

/-- Whether a statement addresses a replicated user table of the model: all its
names are regular identifiers, the columns of an upsert are distinct once
folded, and the folded table name is not one of the agent's own tables and is
the metadata name of a user table.  (A reserved word used as a name is not
told apart: the user tables of the model are taken to have names and columns
that can be written without quotes.) -/
def onUserTable (st : Stmt) (s : DB) : Bool :=
  st.idents.all regularIdent &&
  (match st with
    | Stmt.delete _ _ _ => true
    | Stmt.upsert _ cols _ _ => decide ((cols.map toUpper).Nodup)) &&
  !(agentTables.contains (toUpper st.table)) &&
  s.tables.any (fun t => decide (t.name = toUpper st.table))

/-- Execution of a statement inside a transaction.  A statement that addresses a
replicated user table is run by `execUser` with its names folded to upper case.
What the engine does with any other statement (one that names
`FILA_INTEGRACAO` or another table of the agent, a system table, a table the
model does not hold, or is not plain) is not decided here: it is the function
`other` of the environment. -/
def execStmt (other : Stmt → DB → Option DB) (uuid : Nat → String) (now : Nat) (st : Stmt)
    (s : DB) : Option DB :=
  if onUserTable st s then execUser uuid now st.fold s else other st s

/-! ## Receiver (`internal/webhook/server.go`) -/

/-- The environment of one `ProcessPayload` call: the clock, the UUIDs drawn by
the capture trigger, for each database call whether it returns an error for
a reason outside the code, and what the engine does with a statement that does
not address a replicated user table (`none` is an error of `tx.Exec`). -/
structure RecvEnv where
  now : Nat
  uuid : Nat → String
  other : Stmt → DB → Option DB
  registerFails : Bool
  isDuplicateFails : Bool
  beginFails : Bool
  applyFails : Bool
  historyFails : Bool
  commitFails : Bool

/-- Assignment `m[k] = v` on a Go map: overwrites an existing key, else adds one. -/
def mapSet (m : GoMap) (k : String) (v : Value) : GoMap :=
  if m.any (fun kv => decide (kv.1 = k)) then
    m.map (fun kv => if kv.1 = k then (k, v) else kv)
  else m ++ [(k, v)]

/-- The merged map `allData`: the pk entries, then the data entries over them. -/
def allData (p : SyncPayload) : GoMap :=
  p.PayloadJSON.foldl (fun m kv => mapSet m kv.1 kv.2) (p.PKJSON.foldl (fun m kv => mapSet m kv.1 kv.2) [])

/-- The bound value of an upsert column: the empty string becomes NULL. -/
def coerce : Value → Value
  | Value.str s => if s = "" then Value.null else Value.str s
  | v => v

/-- The statement `applyToDBTx` builds for an envelope, or the error
`payload vazio para update/insert`. -/
def buildStmt (p : SyncPayload) : Except String Stmt :=
  if p.Operation = "D" then
    Except.ok (Stmt.delete p.Table (p.PKJSON.map (fun kv => kv.1)) (p.PKJSON.map (fun kv => kv.2)))
  else if (allData p).length = 0 then
    Except.error "payload vazio para update/insert"
  else
    Except.ok (Stmt.upsert p.Table ((allData p).map (fun kv => kv.1))
      ((allData p).map (fun kv => coerce kv.2)) (p.PKJSON.map (fun kv => kv.1)))

/-- The function `applyToDBTx`: builds the statement and executes it on the
transaction; `tx.Exec` fails when the environment says so or the engine rejects
the statement. -/
def applyToDBTx (env : RecvEnv) (p : SyncPayload) (tx : DB) : Except String DB :=
  match buildStmt p with
  | Except.error e => Except.error e
  | Except.ok st =>
    if env.applyFails then Except.error "exec"
    else match execStmt env.other env.uuid env.now st tx with
      | some tx1 => Except.ok tx1
      | none => Except.error "exec"

/-- The prefix of a character list before the last occurrence of `sep`
(`s[:strings.LastIndex(s, sep)]`), `none` when `sep` does not occur. -/
def cutLast (sep : Char) : List Char → Option (List Char)
  | [] => none
  | c :: cs =>
    match cutLast sep cs with
    | some pre => some (c :: pre)
    | none => if c = sep then some [] else none

/-- The URL `registerNode` infers from the TCP peer address. -/
def inferURL (remoteAddr : String) : String :=
  let remoteIP := match cutLast ':' remoteAddr.data with
    | some pre => String.mk pre
    | none => remoteAddr
  "http://" ++ remoteIP ++ ":8080/sync"

/-- The function `registerNode`: no-op for an empty or `TRIGGER` origin, else the
upsert of the peer; an error of the upsert is only logged. -/
def registerNode (env : RecvEnv) (p : SyncPayload) (s : DB) : DB :=
  if p.Origem = "" ∨ p.Origem = "TRIGGER" then s
  else if env.registerFails then s
  else match upsertNode env.now p.Origem (inferURL p.RemoteAddr) s with
    | some s1 => s1
    | none => s

/-- The function `QueueManager.IsDuplicate`: `SELECT 1 FROM FILA_INTEGRACAO WHERE
EVENT_ID = ?`; no row gives `false`, a row gives `true`. -/
def IsDuplicate (fails : Bool) (eventID : String) (s : DB) : Except String Bool :=
  if fails then Except.error "query"
  else Except.ok (s.fila.any (fun r => decide (r.EventID = eventID)))

/-- The JSON text of a scalar. -/
def jsonValue : Value → String
  | Value.null => "null"
  | Value.str s => "\"" ++ s ++ "\""
  | Value.lit s => s

/-- A stand-in for `json.Marshal` on a map: the entries in map order, without
escaping (the library sorts the keys and escapes; no property below reads the
text). -/
def jsonMarshal (m : GoMap) : String :=
  "\x7b" ++ ",".intercalate (m.map (fun kv => "\"" ++ kv.1 ++ "\":" ++ jsonValue kv.2)) ++ "\x7d"

/-- The history row `ProcessPayload` inserts: status `A`, zero attempts,
`CURRENT_TIMESTAMP`; pk and data are stored as JSON text. -/
def historyRow (now : Nat) (p : SyncPayload) : FilaItem :=
  { ID := 0, EventID := p.EventID, Tabela := p.Table, Operacao := p.Operation,
    PKJSON := jsonMarshal p.PKJSON,
    PayloadJSON := some (jsonMarshal p.PayloadJSON),
    Origem := p.Origem, Status := "A", Tentativas := 0, DTEvento := now,
    DTUltEnvio := none, ERROMsg := none }

/-- The history INSERT inside the transaction: an error is only logged, so the
transaction goes on unchanged. -/
def writeHistory (env : RecvEnv) (p : SyncPayload) (tx : DB) : DB :=
  if env.historyFails then tx
  else match insertFila (historyRow env.now p) tx with
    | some tx1 => tx1
    | none => tx

/-- The function `Server.ProcessPayload`: the database after the call and the
returned error (`Except.ok ()` is `nil`).  A return before `tx.Commit` runs the
deferred `tx.Rollback`, which leaves the state as it was before `Begin`. -/
def ProcessPayload (env : RecvEnv) (p : SyncPayload) (s : DB) : DB × Except String Unit :=
  let s1 := registerNode env p s
  match IsDuplicate env.isDuplicateFails p.EventID s1 with
  | Except.error _ => (s1, Except.error "erro interno de banco")
  | Except.ok true => (s1, Except.ok ())
  | Except.ok false =>
    if env.beginFails then (s1, Except.error "erro ao iniciar transação")
    else match applyToDBTx env p s1 with
      | Except.error _ => (s1, Except.error "erro ao aplicar no banco remoto")
      | Except.ok tx1 =>
        let tx2 := writeHistory env p tx1
        if env.commitFails then (s1, Except.error "erro ao comitar alteração")
        else (tx2, Except.ok ())

/-- A sequence of deliveries to `ProcessPayload`, each with its own environment;
the state after the last one. -/
def deliverAll : List (RecvEnv × SyncPayload) → DB → DB
  | [], s => s
  | d :: ds, s => deliverAll ds (ProcessPayload d.1 d.2 s).1

/-! ## Queue store (`internal/db/queue.go`) -/

/-- The filter `STATUS IN ('P', 'R')`. -/
def pendingStatus (st : String) : Bool := decide (st = "P") || decide (st = "R")

/-- The function `QueueManager.GetPending`: `SELECT FIRST limit ... WHERE STATUS IN
('P', 'R') ORDER BY ID ASC`.  The query fails when the environment says so or
the limit is negative; scanning a row whose `PAYLOAD_JSON` is NULL into the Go
string field fails and the function returns that error. -/
def GetPending (fails : Bool) (limit : Int) (s : DB) : Except String (List FilaItem) :=
  if fails ∨ limit < 0 then Except.error "query"
  else
    let rows := ((s.fila.filter (fun r => pendingStatus r.Status)).insertionSort
      (fun a b => a.ID ≤ b.ID)).take limit.toNat
    if rows.all (fun r => r.PayloadJSON.isSome) then Except.ok rows
    else Except.error "scan"

/-- The function `QueueManager.UpdateStatus`: sets status, error message and last
send time and adds one to the attempt counter of the row with the given ID. -/
def UpdateStatus (fails : Bool) (now : Nat) (id : Int) (status erroMsg : String) (s : DB) :
    Except String DB :=
  if fails then Except.error "exec"
  else Except.ok { s with fila := s.fila.map (fun r =>
    if r.ID = id then
      { r with Status := status, ERROMsg := some erroMsg, DTUltEnvio := some now,
               Tentativas := r.Tentativas + 1 }
    else r) }

/-- The function `QueueManager.GetActiveNodes`: the peers with `ACTIVE = 'S'`. -/
def GetActiveNodes (fails : Bool) (s : DB) : Except String (List Node) :=
  if fails then Except.error "query"
  else Except.ok ((s.nodes.filter (fun n => decide (n.Active = "S"))).map
    (fun n => { NodeID := n.NodeID, RemoteURL := n.RemoteURL }))

/-- The faults of one transaction: `Begin`, the `k`-th `tx.Exec`, `Commit`. -/
structure TxFaults where
  beginFails : Bool
  execFails : Nat → Bool
  commitFails : Bool

/-- The loop of `CreateDestinations` inside the transaction: a peer equal to
`ignoreNode` is skipped, every other one gets an INSERT; the first failing
INSERT ends the loop with an error (`none`). -/
def createLoop (filaID : Int) (ignoreNode : String) (execFails : Nat → Bool) :
    List Node → DB → Option DB
  | [], tx => some tx
  | n :: ns, tx =>
    if n.NodeID = ignoreNode then createLoop filaID ignoreNode execFails ns tx
    else if execFails 0 then none
    else match insertDestino filaID n.NodeID tx with
      | none => none
      | some tx1 => createLoop filaID ignoreNode (fun k => execFails (k + 1)) ns tx1

/-- The function `QueueManager.CreateDestinations`: one transaction around the
loop; an error before the commit rolls everything back. -/
def CreateDestinations (f : TxFaults) (filaID : Int) (nodes : List Node) (ignoreNode : String)
    (s : DB) : Except String DB :=
  if f.beginFails then Except.error "begin"
  else match createLoop filaID ignoreNode f.execFails nodes s with
    | none => Except.error "exec"
    | some tx => if f.commitFails then Except.error "commit" else Except.ok tx

/-- The function `QueueManager.UpdateDestinoStatus`: sets status, error message
and last attempt time and adds one to the attempt counter of the destination
with the given ID. -/
def UpdateDestinoStatus (fails : Bool) (now : Nat) (id : Int) (status erroMsg : String)
    (s : DB) : Except String DB :=
  if fails then Except.error "exec"
  else Except.ok { s with destinos := s.destinos.map (fun d =>
    if d.ID = id then
      { d with Status := status, ERROMsg := some erroMsg, DTUltTentativa := some now,
               Tentativas := d.Tentativas + 1 }
    else d) }

/-- A destination with its joined event, as `GetPendingDestinations` returns it
(the Go `FilaDestino` with its `Item`). -/
structure DestinoTask where
  dest : FilaDestino
  Item : FilaItem
  deriving DecidableEq, Repr

/-- The event fields `GetPendingDestinations` scans into `Item`; the ID is copied
from `FILA_ID`, status and counter are not selected and keep their zero value. -/
def scanItem (d : FilaDestino) (f : FilaItem) : FilaItem :=
  { ID := d.FilaID, EventID := f.EventID, Tabela := f.Tabela, Operacao := f.Operacao,
    PKJSON := f.PKJSON, PayloadJSON := f.PayloadJSON, Origem := f.Origem, Status := "",
    Tentativas := 0, DTEvento := f.DTEvento, DTUltEnvio := none, ERROMsg := none }

/-- The function `QueueManager.GetPendingDestinations`: destinations in status `P`
or `R` joined with their event, `ORDER BY d.ID ASC`, the first `limit` rows.
Fails like `GetPending` (environment, negative limit, NULL payload). -/
def GetPendingDestinations (fails : Bool) (limit : Int) (s : DB) :
    Except String (List DestinoTask) :=
  if fails ∨ limit < 0 then Except.error "query"
  else
    let ds := (s.destinos.filter (fun d => pendingStatus d.Status)).insertionSort
      (fun a b => a.ID ≤ b.ID)
    let rows := (ds.flatMap (fun d =>
      (s.fila.filter (fun f => decide (f.ID = d.FilaID))).map
        (fun f => { dest := d, Item := scanItem d f }))).take limit.toNat
    if rows.all (fun t => t.Item.PayloadJSON.isSome) then Except.ok rows
    else Except.error "scan"

/-! ## Dispatcher (`Poller.dispatchEvents`) -/

/-- The faults met while one event of the batch is handled. -/
structure ItemFaults where
  create : TxFaults
  updateStatusFails : Bool

/-- The environment of one dispatcher tick; `item k` are the faults met by the
`k`-th event of the batch. -/
structure DispatchEnv where
  now : Nat
  getPendingFails : Bool
  getActiveNodesFails : Bool
  item : Nat → ItemFaults

/-- The body of the loop of `dispatchEvents` for one event: `CreateDestinations`
and, when it returned no error, `UpdateStatus` to `D`, whose error is dropped. -/
def dispatchItem (now : Nat) (f : ItemFaults) (nodes : List Node) (item : FilaItem) (s : DB) : DB :=
  match CreateDestinations f.create item.ID nodes item.Origem s with
  | Except.error _ => s
  | Except.ok s1 =>
    match UpdateStatus f.updateStatusFails now item.ID "D" "Evento despachado para nós ativos" s1 with
    | Except.ok s2 => s2
    | Except.error _ => s1

/-- The loop of `dispatchEvents` over the fetched events. -/
def dispatchLoop (now : Nat) (faults : Nat → ItemFaults) (nodes : List Node) :
    List FilaItem → DB → DB
  | [], s => s
  | it :: rest, s =>
    dispatchLoop now (fun k => faults (k + 1)) nodes rest (dispatchItem now (faults 0) nodes it s)

/-- The function `Poller.dispatchEvents`: one dispatcher tick. -/
def dispatchEvents (env : DispatchEnv) (cfg : Config) (s : DB) : DB :=
  match GetPending env.getPendingFails cfg.Integracao.BatchSize s with
  | Except.error _ => s
  | Except.ok items =>
    if items.length = 0 then s
    else match GetActiveNodes env.getActiveNodesFails s with
      | Except.error _ => s
      | Except.ok nodes => dispatchLoop env.now env.item nodes items s

/-! ## Sender (`Poller.sendEvents`) -/

/-- The poller: its configuration and whether it holds a relay client
(`p.relay != nil`). -/
structure Poller where
  cfg : Config
  relay : Bool

/-- The environment of one sender tick: the clock, the faults of the two
queries, the outcome of the HTTP POST issued for a destination ID (`none` is a
200 answer, `some e` the error text), whether `UpdateDestinoStatus` fails for a
destination ID, and `json.Unmarshal` into a map. -/
structure SendEnv where
  now : Nat
  getPendingDestinationsFails : Bool
  getActiveNodesFails : Bool
  post : Int → Option String
  updateFails : Int → Bool
  unmarshal : String → GoMap

/-- What a sender tick hands to a transport. -/
inductive Emission where
  | direct (url : String) (payload : SyncPayload)
  | relay (target : String) (payload : SyncPayload)
  deriving DecidableEq, Repr

/-- The envelope `sendEvents` builds for a task: the origin is the sender's own
node id; the data map is decoded only from a non-empty text. -/
def webhookPayload (env : SendEnv) (p : Poller) (item : FilaItem) : SyncPayload :=
  { EventID := item.EventID, Table := item.Tabela, Operation := item.Operacao,
    PKJSON := env.unmarshal item.PKJSON,
    PayloadJSON := match item.PayloadJSON with
      | some t => if t.length > 0 then env.unmarshal t else []
      | none => [],
    Origem := p.cfg.NodeID, Timestamp := item.DTEvento, RemoteAddr := "" }

/-- The call `UpdateDestinoStatus` with its error dropped, as `sendEvents` does. -/
def markDestino (env : SendEnv) (id : Int) (status erroMsg : String) (s : DB) : DB :=
  match UpdateDestinoStatus (env.updateFails id) env.now id status erroMsg s with
  | Except.ok s1 => s1
  | Except.error _ => s

/-- The inner loop of `sendEvents` over the tasks of one node.  With the relay
enabled and present every task is handed to the relay and marked `E`; without a
URL the task is skipped; else the task is posted: success marks `E`, failure
marks `R` with the error text and leaves the loop. -/
def sendTasks (env : SendEnv) (p : Poller) (nodeID remoteURL : String) :
    List DestinoTask → DB → DB × List Emission
  | [], s => (s, [])
  | task :: rest, s =>
    if p.cfg.Relay.Enabled && p.relay then
      let r := sendTasks env p nodeID remoteURL rest (markDestino env task.dest.ID "E" "" s)
      (r.1, Emission.relay nodeID (webhookPayload env p task.Item) :: r.2)
    else if remoteURL = "" then sendTasks env p nodeID remoteURL rest s
    else match env.post task.dest.ID with
      | some e =>
        (markDestino env task.dest.ID "R" e s,
         [Emission.direct remoteURL (webhookPayload env p task.Item)])
      | none =>
        let r := sendTasks env p nodeID remoteURL rest (markDestino env task.dest.ID "E" "" s)
        (r.1, Emission.direct remoteURL (webhookPayload env p task.Item) :: r.2)

/-- The lookup `nodeURLs[nodeID]`: the URL of the last listed node with that id,
the empty string when there is none. -/
def nodeURL (nodes : List Node) (nodeID : String) : String :=
  match nodes.reverse.find? (fun n => decide (n.NodeID = nodeID)) with
  | some n => n.RemoteURL
  | none => ""

/-- The keys of `nodeTasks`, each once, in order of first appearance (Go visits
them in an unspecified order; the tasks of different nodes touch different
destination rows). -/
def nodeKeys : List String → List String
  | [] => []
  | a :: rest => a :: (nodeKeys rest).filter (fun b => decide (b ≠ a))

/-- The outer loop of `sendEvents` over the nodes that have tasks. -/
def sendGroups (env : SendEnv) (p : Poller) (nodes : List Node) (dests : List DestinoTask) :
    List String → DB → DB × List Emission
  | [], s => (s, [])
  | nodeID :: rest, s =>
    if nodeURL nodes nodeID = "" ∧ p.cfg.Relay.Enabled = false then
      sendGroups env p nodes dests rest s
    else
      let r1 := sendTasks env p nodeID (nodeURL nodes nodeID)
        (dests.filter (fun t => decide (t.dest.NodeID = nodeID))) s
      let r2 := sendGroups env p nodes dests rest r1.1
      (r2.1, r1.2 ++ r2.2)

/-- The function `Poller.sendEvents`: one sender tick; the database after it and
what was handed to the transports.  An error of `GetActiveNodes` is dropped and
leaves the URL map empty. -/
def sendEvents (env : SendEnv) (p : Poller) (s : DB) : DB × List Emission :=
  match GetPendingDestinations env.getPendingDestinationsFails p.cfg.Integracao.BatchSize s with
  | Except.error _ => (s, [])
  | Except.ok dests =>
    if dests.length = 0 then (s, [])
    else
      let nodes := match GetActiveNodes env.getActiveNodesFails s with
        | Except.ok ns => ns
        | Except.error _ => []
      sendGroups env p nodes dests (nodeKeys (dests.map (fun t => t.dest.NodeID))) s

/-- Several sender ticks in sequence, each with its own environment. -/
def sendTicks (p : Poller) : List SendEnv → DB → DB
  | [], s => s
  | env :: rest, s => sendTicks p rest (sendEvents env p s).1

/-! ## Notions used to state the properties -/

/-- The rows as the outbox stores them when the generator stands at `g`: the
`k`-th inserted row gets the ID `g + k`. -/
def withIDs (g : Int) : List FilaItem → List FilaItem
  | [] => []
  | r :: rs => { r with ID := g + 1 } :: withIDs (g + 1) rs

/-- The number of outbox rows with the given event-id and status `A` (Applied). -/
def appliedCount (eventID : String) (fila : List FilaItem) : Nat :=
  (fila.filter (fun r => decide (r.EventID = eventID) && decide (r.Status = "A"))).length

/-- The outbox rows the capture trigger inserts when the statement runs on the
state (none when the statement is rejected or the table has no trigger). -/
def capturedBy (uuid : Nat → String) (now : Nat) (st : Stmt) (s : DB) : List FilaItem :=
  match s.tables.find? (fun t => decide (t.name = st.table)) with
  | none => []
  | some t =>
    match execRows t st with
    | none => []
    | some (_, changes) =>
      match t.trigger with
      | none => []
      | some tr => captureAll tr uuid now changes

/-- The destination rows inserted for event `filaID` and the given peers when the
generator stands at `g`: status `P`, zero attempts, consecutive IDs. -/
def destRows (g : Int) (filaID : Int) : List Node → List FilaDestino
  | [] => []
  | n :: ns =>
    { ID := g + 1, FilaID := filaID, NodeID := n.NodeID, Status := "P", Tentativas := 0,
      ERROMsg := none, DTUltTentativa := none } :: destRows (g + 1) filaID ns

/-- The peers that get a destination: those whose id differs from the origin. -/
def targets (nodes : List Node) (origin : String) : List Node :=
  nodes.filter (fun n => decide (n.NodeID ≠ origin))

/-- The rows a tick added to `FILA_DESTINOS`: those beyond the rows of the state
the tick started from. -/
def addedDestinos (before after : DB) : List FilaDestino :=
  after.destinos.drop before.destinos.length

/-- The peers `GetActiveNodes` returns when its query does not fail. -/
def activeNodes (s : DB) : List Node :=
  (s.nodes.filter (fun n => decide (n.Active = "S"))).map
    (fun n => { NodeID := n.NodeID, RemoteURL := n.RemoteURL })

/-- The outbox row after a successful `UpdateStatus(id, "D", ...)` of the
dispatcher. -/
def markDispatched (now : Nat) (r : FilaItem) : FilaItem :=
  { r with Status := "D", ERROMsg := some "Evento despachado para nós ativos",
           DTUltEnvio := some now, Tentativas := r.Tentativas + 1 }

/-- What can happen to a destination row: identity, event and target are kept,
and the row is unchanged, or its status is now `R` (Retry), or, when
`allowSent` holds, its status is now `E` (Sent). -/
def sendStep (allowSent : Bool) (d d' : FilaDestino) : Prop :=
  d'.ID = d.ID ∧ d'.FilaID = d.FilaID ∧ d'.NodeID = d.NodeID ∧
  (d' = d ∨ (allowSent = true ∧ d'.Status = "E") ∨ d'.Status = "R")

/-- The destination table `after` is the table `before` with each row rewritten
by a `sendStep`, position by position. -/
def sendSteps (allowSent : Bool) (before after : DB) : Prop :=
  ∃ G : FilaDestino → FilaDestino,
    after.destinos = before.destinos.map G ∧ ∀ d, sendStep allowSent d (G d)

/-- Whether the sender uses the relay: `p.cfg.Relay.Enabled && p.relay != nil`. -/
def relayMode (p : Poller) : Bool := p.cfg.Relay.Enabled && p.relay

/-- The tasks of a list up to and including the first one whose POST fails. -/
def untilFailure (post : Int → Option String) : List DestinoTask → List DestinoTask
  | [] => []
  | t :: ts =>
    match post t.dest.ID with
    | some _ => [t]
    | none => t :: untilFailure post ts

/-- The tasks of one node that a tick hands to a transport: all of them in relay
mode; none without a URL; else those up to the first failing POST. -/
def handled (env : SendEnv) (p : Poller) (remoteURL : String) (tasks : List DestinoTask) :
    List DestinoTask :=
  if relayMode p then tasks
  else if remoteURL = "" then []
  else untilFailure env.post tasks

/-- The status update that follows the hand-over of one task: `E` in relay mode
and after a successful POST, `R` with the error text after a failed POST. -/
def outcome (env : SendEnv) (p : Poller) (s : DB) (t : DestinoTask) : DB :=
  if relayMode p then markDestino env t.dest.ID "E" "" s
  else match env.post t.dest.ID with
    | some e => markDestino env t.dest.ID "R" e s
    | none => markDestino env t.dest.ID "E" "" s

/-- What is handed to the transport for one task of node `nodeID`. -/
def emissionOf (env : SendEnv) (p : Poller) (nodeID remoteURL : String) (t : DestinoTask) :
    Emission :=
  if relayMode p then Emission.relay nodeID (webhookPayload env p t.Item)
  else Emission.direct remoteURL (webhookPayload env p t.Item)

/-- The per-node task list `nodeTasks[nodeID]` built by `sendEvents`. -/
def tasksOf (dests : List DestinoTask) (nodeID : String) : List DestinoTask :=
  dests.filter (fun t => decide (t.dest.NodeID = nodeID))

/-- The peer list a sender tick works with: the result of `GetActiveNodes`, or no
peer at all when that query fails. -/
def nodesSeen (env : SendEnv) (s : DB) : List Node :=
  match GetActiveNodes env.getActiveNodesFails s with
  | Except.ok ns => ns
  | Except.error _ => []

/-- All tasks a tick hands to a transport, node by node. -/
def handledAll (env : SendEnv) (p : Poller) (nodes : List Node) (dests : List DestinoTask) :
    List DestinoTask :=
  (nodeKeys (dests.map (fun t => t.dest.NodeID))).flatMap
    (fun k => handled env p (nodeURL nodes k) (tasksOf dests k))

/-- The destination row after `UpdateDestinoStatus(id, "E", "")`. -/
def sentRow (now : Nat) (d : FilaDestino) : FilaDestino :=
  { d with Status := "E", ERROMsg := some "", DTUltTentativa := some now,
           Tentativas := d.Tentativas + 1 }

/-- The destination row after `UpdateDestinoStatus(id, "R", e)`. -/
def retryRow (now : Nat) (e : String) (d : FilaDestino) : FilaDestino :=
  { d with Status := "R", ERROMsg := some e, DTUltTentativa := some now,
           Tentativas := d.Tentativas + 1 }

/-- The destination row of a handled task after its status update succeeded. -/
def rowAfter (env : SendEnv) (p : Poller) (d : FilaDestino) : FilaDestino :=
  if relayMode p then sentRow env.now d
  else match env.post d.ID with
    | some e => retryRow env.now e d
    | none => sentRow env.now d

/-- The envelope carried by an emission. -/
def Emission.payload : Emission → SyncPayload
  | Emission.direct _ pl => pl
  | Emission.relay _ pl => pl

/-- One tick of the agent: a dispatcher tick or a sender tick, with its
environment. -/
inductive Tick where
  | dispatch (env : DispatchEnv)
  | send (env : SendEnv)

/-- The database after one tick. -/
def runTick (p : Poller) : Tick → DB → DB
  | Tick.dispatch env, s => dispatchEvents env p.cfg s
  | Tick.send env, s => (sendEvents env p s).1

/-- The database after a sequence of ticks, in any interleaving. -/
def runTicks (p : Poller) : List Tick → DB → DB
  | [], s => s
  | t :: rest, s => runTicks p rest (runTick p t s)

/-- The key constraints of the queue tables: the IDs of `FILA_DESTINOS` and of
`FILA_INTEGRACAO` are pairwise distinct (primary keys) and no destination ID is
ahead of its generator. -/
def keysOK (s : DB) : Prop :=
  (s.destinos.map (fun d => d.ID)).Nodup ∧ (∀ d ∈ s.destinos, d.ID ≤ s.genDest) ∧
  (s.fila.map (fun r => r.ID)).Nodup

/-- The lookup `m[k]` on a Go map (the last entry of the key, should the list
repeat one). -/
def mapGet (m : GoMap) (k : String) : Option Value :=
  match m.reverse.find? (fun kv => decide (kv.1 = k)) with
  | some kv => some kv.2
  | none => none

/-- The value of a column in the merged pk and data set, in the words of the
specification: the value of data when data has the column, else the value of pk. -/
def mergedValue (p : SyncPayload) (c : String) : Option Value :=
  match mapGet p.PayloadJSON c with
  | some v => some v
  | none => mapGet p.PKJSON c

/-- The coercion in the words of the specification: the empty string becomes
NULL, every other value is unchanged. -/
def emptyToNull (v : Value) : Value :=
  if v = Value.str "" then Value.null else v

/-- The upsert statement built when the range loop over `allData` visits the
entries in the order `visited` and the loop over the pk map visits the keys in
the order `pkVisited`. -/
def upsertStmt (table : String) (visited : GoMap) (pkVisited : List String) : Stmt :=
  Stmt.upsert table (visited.map (fun kv => kv.1)) (visited.map (fun kv => coerce kv.2)) pkVisited

/-- The delete statement built when the range loop over the pk map visits the
entries in the order `pkVisited`. -/
def deleteStmt (table : String) (pkVisited : GoMap) : Stmt :=
  Stmt.delete table (pkVisited.map (fun kv => kv.1)) (pkVisited.map (fun kv => kv.2))

/-- The query text of a statement, as the two `fmt.Sprintf` calls of
`applyToDBTx` compose it. -/
def Stmt.query : Stmt → String
  | Stmt.delete table clauses _ =>
    "DELETE FROM " ++ table ++ " WHERE " ++ " AND ".intercalate (clauses.map (fun k => k ++ " = ?"))
  | Stmt.upsert table cols _ pkCols =>
    "UPDATE OR INSERT INTO " ++ table ++ " (" ++ ", ".intercalate cols ++ ") VALUES (" ++
      ", ".intercalate (cols.map (fun _ => "?")) ++ ") MATCHING (" ++ ", ".intercalate pkCols ++ ")"

/-- The bound parameters of a statement, in order. -/
def Stmt.args : Stmt → List Value
  | Stmt.delete _ _ params => params
  | Stmt.upsert _ _ vals _ => vals

/-! ## HTTP surface (`handleSync`, the two senders) -/

/-- The receiver `webhook.Server`: the token it was created with. -/
structure Server where
  token : String
  deriving DecidableEq, Repr

/-- The constructor `webhook.NewServer` (database handles left out). -/
def NewServer (token : String) : Server := { token := token }

/-- The server `StartAgent` creates: `webhook.NewServer(dbConn, queue,
cfg.Webhook.Token)`. -/
def StartAgent.webhookServer (cfg : Config) : Server := NewServer cfg.Webhook.Token

/-- An HTTP request as `handleSync` reads it: the method, the value of
`r.Header.Get("X-Sync-Token")` (the empty string when the header is absent), the
body and the TCP peer address. -/
structure Request where
  method : String
  syncToken : String
  body : String
  remoteAddr : String
  deriving DecidableEq, Repr

/-- The function `Server.handleSync`: the database after the request and the
status code of the response.  `decode` is `json.NewDecoder(r.Body).Decode` into
a `SyncPayload` (`none` when it returns an error). -/
def handleSync (decode : String → Option SyncPayload) (env : RecvEnv) (srv : Server)
    (r : Request) (s : DB) : DB × Nat :=
  if r.method ≠ "POST" then (s, 405)
  else if r.syncToken ≠ srv.token then (s, 401)
  else match decode r.body with
    | none => (s, 400)
    | some payload =>
      match ProcessPayload env { payload with RemoteAddr := r.remoteAddr } s with
      | (s1, Except.error _) => (s1, 500)
      | (s1, Except.ok _) => (s1, 200)

/-- What a sender puts on the wire: the URL, the `X-Sync-Token` header, the
timeout of the `http.Client` in seconds and the envelope in the body. -/
structure PostRequest where
  url : String
  syncToken : String
  timeoutSeconds : Int
  body : SyncPayload
  deriving DecidableEq, Repr

/-- The request built by `webhookSenderWithURL.Send`, the sender `sendEvents`
uses: the token of the configuration or `ATS_SYNC_DEFAULT` when that is empty,
and `http.Client{Timeout: 30 * time.Second}`. -/
def webhookSenderWithURL.Send (cfg : Config) (url : String) (payload : SyncPayload) :
    PostRequest :=
  { url := url,
    syncToken := if cfg.Webhook.Token = "" then "ATS_SYNC_DEFAULT" else cfg.Webhook.Token,
    timeoutSeconds := 30,
    body := payload }

/-- The request built by `Client.Send` of `webhook/client.go`: the configured
remote URL, the same token rule, and the configured timeout when positive,
else 30 seconds. -/
def Client.Send (cfg : Config) (payload : SyncPayload) : PostRequest :=
  { url := cfg.Webhook.RemoteURL,
    syncToken := if cfg.Webhook.Token ≠ "" then cfg.Webhook.Token else "ATS_SYNC_DEFAULT",
    timeoutSeconds :=
      if cfg.Integracao.TimeoutSeconds ≤ 0 then 30 else cfg.Integracao.TimeoutSeconds,
    body := payload }

/-- The HTTP request a direct emission of `sendEvents` stands for (a relay
emission issues none). -/
def Emission.request (cfg : Config) : Emission → Option PostRequest
  | Emission.direct url payload => some (webhookSenderWithURL.Send cfg url payload)
  | Emission.relay _ _ => none

/-- The request as it reaches the receiver: method POST, the header as set, the
body encoded by `json.Marshal`, and the TCP peer address. -/
def PostRequest.arrive (encode : SyncPayload → String) (addr : String) (pr : PostRequest) :
    Request :=
  { method := "POST", syncToken := pr.syncToken, body := encode pr.body, remoteAddr := addr }

/-! ## Relay hub (`cmd/relay-hub/main.go`) -/

/-- The frame `RelayMessage`; the payload is kept as its JSON text and `MsgType`
is the Go field `Type`. -/
structure RelayMessage where
  TargetNode : String
  SourceNode : String
  Payload : String
  MsgType : String
  deriving DecidableEq, Repr

/-- The hub.  `nodes` is the `sync.Map` from node id to connection (connections
are numbered); `serving` lists the handlers of `ServeHTTP` that are past the
handshake, each with its connection and the `nodeID` it read; `written` lists
the calls of `WriteMessage`, connection and frame, in order. -/
structure Hub where
  nodes : List (String × Nat)
  serving : List (Nat × String)
  written : List (Nat × RelayMessage)
  deriving DecidableEq, Repr

/-- The call `h.nodes.Load(k)`. -/
def Hub.Load (h : Hub) (k : String) : Option Nat :=
  match h.nodes.find? (fun e => decide (e.1 = k)) with
  | some e => some e.2
  | none => none

/-- The call `h.nodes.Store(k, conn)`: replaces the entry of `k` or adds one. -/
def Hub.Store (h : Hub) (k : String) (conn : Nat) : Hub :=
  { h with nodes :=
      if h.nodes.any (fun e => decide (e.1 = k)) then
        h.nodes.map (fun e => if e.1 = k then (k, conn) else e)
      else h.nodes ++ [(k, conn)] }

/-- The call `h.nodes.Delete(k)`: removes the entry of `k`, whatever it holds. -/
def Hub.Delete (h : Hub) (k : String) : Hub :=
  { h with nodes := h.nodes.filter (fun e => decide (e.1 ≠ k)) }

/-- The `nodeID` of the handler that serves a connection. -/
def Hub.nodeOf (h : Hub) (conn : Nat) : Option String :=
  match h.serving.find? (fun e => decide (e.1 = conn)) with
  | some e => some e.2
  | none => none

/-- What happens at the hub: a handshake completes (token accepted, upgrade
done) for a node id on a new connection; `ReadMessage` returns a message on a
connection (`none` when `json.Unmarshal` into `RelayMessage` fails); or
`ReadMessage` returns an error on a connection, which ends its handler. -/
inductive HubEvent where
  | connect (nodeID : String) (conn : Nat)
  | message (conn : Nat) (frame : Option RelayMessage)
  | closed (conn : Nat)
  deriving DecidableEq, Repr

/-- One event of `Hub.ServeHTTP`.  A handshake with an empty node id is answered
400; else the connection is stored under the node id.  A parsed frame gets its
source filled when empty and is written to the connection registered for its
target, or dropped.  A read error leaves the loop and runs the deferred
`h.nodes.Delete(nodeID)`. -/
def Hub.step (h : Hub) : HubEvent → Hub
  | HubEvent.connect nodeID conn =>
    if nodeID = "" then h
    else { (h.Store nodeID conn) with serving := h.serving ++ [(conn, nodeID)] }
  | HubEvent.message conn frame =>
    match h.nodeOf conn with
    | none => h
    | some nodeID =>
      match frame with
      | none => h
      | some m =>
        let relayMsg := if m.SourceNode = "" then { m with SourceNode := nodeID } else m
        match h.Load relayMsg.TargetNode with
        | some target => { h with written := h.written ++ [(target, relayMsg)] }
        | none => h
  | HubEvent.closed conn =>
    match h.nodeOf conn with
    | none => h
    | some nodeID =>
      { (h.Delete nodeID) with serving := h.serving.filter (fun e => decide (e.1 ≠ conn)) }

/-- A sequence of hub events, in order. -/
def Hub.run (h : Hub) : List HubEvent → Hub
  | [] => h
  | e :: rest => Hub.run (h.step e) rest

/-! ## Notions for the queue invariants -/

/-- One action on the database of a node: a dispatcher tick, a sender tick, or
the delivery of an envelope to the receiver. -/
inductive Act where
  | dispatch (env : DispatchEnv)
  | send (env : SendEnv)
  | deliver (env : RecvEnv) (payload : SyncPayload)

/-- The database after one action. -/
def runAct (p : Poller) : Act → DB → DB
  | Act.dispatch env, s => dispatchEvents env p.cfg s
  | Act.send env, s => (sendEvents env p s).1
  | Act.deliver env payload, s => (ProcessPayload env payload s).1

/-- The database after a sequence of actions, in any interleaving. -/
def runActs (p : Poller) : List Act → DB → DB
  | [], s => s
  | a :: rest, s => runActs p rest (runAct p a s)

/-- Whether the statement `applyToDBTx` builds for an envelope addresses a
replicated user table of the database (an envelope for which no statement is
built addresses nothing). -/
def targetsUserTable (p : SyncPayload) (s : DB) : Bool :=
  match buildStmt p with
  | Except.ok st => onUserTable st s
  | Except.error _ => true

/-- Every envelope of a sequence of deliveries addresses a replicated user table
of the database as it is when that envelope is delivered. -/
def deliveriesOnUserTables : List (RecvEnv × SyncPayload) → DB → Prop
  | [], _ => True
  | d :: ds, s =>
    targetsUserTable d.2 s = true ∧ deliveriesOnUserTables ds (ProcessPayload d.1 d.2 s).1

/-- Whether an action, when it is a delivery, addresses a replicated user table. -/
def Act.onUserTable : Act → DB → Bool
  | Act.deliver _ payload, s => targetsUserTable payload s
  | _, _ => true

/-- Every delivery of a sequence of actions addresses a replicated user table of
the database as it is when that envelope is delivered. -/
def actsOnUserTables (p : Poller) : List Act → DB → Prop
  | [], _ => True
  | a :: rest, s => a.onUserTable s = true ∧ actsOnUserTables p rest (runAct p a s)

/-- The key constraint of the outbox: the IDs are pairwise distinct (primary
key) and none is ahead of the generator. -/
def filaKeysOK (s : DB) : Prop :=
  (s.fila.map (fun r => r.ID)).Nodup ∧ ∀ r ∈ s.fila, r.ID ≤ s.genFila

/-- The pairs (event local id, target node id) of the destination rows. -/
def destPairs (s : DB) : List (Int × String) :=
  s.destinos.map (fun d => (d.FilaID, d.NodeID))

/-- Several dispatcher ticks in sequence, each with its own environment. -/
def dispatchTicks (cfg : Config) : List DispatchEnv → DB → DB
  | [], s => s
  | env :: rest, s => dispatchTicks cfg rest (dispatchEvents env cfg s)

/-- The state in which the fan-out is consistent: the pairs of the destination
rows are pairwise distinct, the outbox IDs and the peer ids are pairwise
distinct (primary keys), and no event that is still Pending or Retry has a
destination row. -/
def fanoutOK (s : DB) : Prop :=
  (destPairs s).Nodup ∧ (s.fila.map (fun r => r.ID)).Nodup ∧
  (s.nodes.map (fun n => n.NodeID)).Nodup ∧
  ∀ d ∈ s.destinos, ∀ r ∈ s.fila, r.ID = d.FilaID → pendingStatus r.Status = false

/-! ## Concrete states and inputs -/

/-- A receiver environment in which no database call fails for an outside reason;
a statement that addresses no replicated user table is answered with an error. -/
def quietRecv : RecvEnv :=
  { now := 7,
    uuid := fun k => if k = 0 then "0b7e3c1a-5d2f-4e8a-9c41-6f0d2b9a7e13"
                     else "0b7e3c1a-5d2f-4e8a-9c41-6f0d2b9a7e14",
    other := fun _ _ => none,
    registerFails := false, isDuplicateFails := false, beginFails := false,
    applyFails := false, historyFails := false, commitFails := false }

/-- A receiver environment in which only the history INSERT fails (for instance on
a lock conflict). -/
def historyFault : RecvEnv := { quietRecv with historyFails := true }

/-- The user table `CLIENTE` with key `ID`, still without trigger and rows. -/
def clienteTable : Table :=
  { name := "CLIENTE", cols := ["ID", "NOME"], pkCols := ["ID"], uniqueCol := none,
    trigger := none, rows := [] }

/-- A user table all of whose columns are in the ignore set. -/
def carimboTable : Table :=
  { name := "CARIMBO", cols := ["VERSION", "SYNC_TS"], pkCols := ["VERSION"], uniqueCol := none,
    trigger := none, rows := [] }

/-- A node database after `InstallTriggers` ran for both tables: empty queues,
no peers, triggers in place. -/
def lojaDB : DB :=
  InstallTriggers ["CLIENTE", "CARIMBO"]
    { fila := [], destinos := [], nodes := [], tables := [clienteTable, carimboTable],
      genFila := 0, genDest := 0 }

/-- An insert envelope for `CLIENTE` sent by node `CENTRAL`. -/
def insertCliente : SyncPayload :=
  { EventID := "4f9c2d1e-8a3b-4c5d-9e6f-0a1b2c3d4e5f", Table := "CLIENTE", Operation := "I",
    PKJSON := [("ID", Value.str "100")], PayloadJSON := [("NOME", Value.str "X")],
    Origem := "CENTRAL", Timestamp := 3, RemoteAddr := "10.0.0.2:51234" }

/-- The same insert sent by a node whose id has 23 characters, more than the 20
of `ORIGEM VARCHAR(20)`. -/
def insertClienteLongOrigin : SyncPayload :=
  { insertCliente with Origem := "LOJA_FILIAL_CENTRO_0001" }

/-- An upsert envelope for `CARIMBO` sent by the node with the 23-character id. -/
def upsertCarimbo : SyncPayload :=
  { EventID := "9a8b7c6d-5e4f-4a3b-8c2d-1e0f9a8b7c6d", Table := "CARIMBO", Operation := "U",
    PKJSON := [("VERSION", Value.str "1")], PayloadJSON := [("SYNC_TS", Value.str "2024-01-01")],
    Origem := "LOJA_FILIAL_CENTRO_0001", Timestamp := 3, RemoteAddr := "10.0.0.2:51234" }

/-- A fault record for one event in which nothing fails. -/
def noItemFaults : ItemFaults :=
  { create := { beginFails := false, execFails := fun _ => false, commitFails := false },
    updateStatusFails := false }

/-- A dispatcher environment in which no database call fails. -/
def quietDispatch : DispatchEnv :=
  { now := 9, getPendingFails := false, getActiveNodesFails := false, item := fun _ => noItemFaults }

/-- A dispatcher environment in which only the status update of the first event
of the batch fails. -/
def statusUpdateFails : DispatchEnv :=
  { now := 9, getPendingFails := false, getActiveNodesFails := false,
    item := fun k => if k = 0 then { noItemFaults with updateStatusFails := true }
                     else noItemFaults }

/-- A configuration of node `A`: batch size 10, retry-max 3, relay off. -/
def cfgA : Config :=
  { NodeID := "A",
    Webhook := { ListenAddr := ":8080", RemoteURL := "", Token := "segredo" },
    Relay := { Enabled := false, HubURL := "", Token := "" },
    Integracao := { BatchSize := 10, RetryMax := 3, RetryIntervalSeconds := 5,
                    TimeoutSeconds := 30 } }

/-- An event recorded at node `A` by `QueueManager.Insert` (origin = the node's
own id), still Pending. -/
def eventoLocal : FilaItem :=
  { ID := 1, EventID := "4f9c2d1e-8a3b-4c5d-9e6f-0a1b2c3d4e5f", Tabela := "CLIENTE",
    Operacao := "I", PKJSON := "\x7b\"ID\": \"100\"\x7d",
    PayloadJSON := some "\x7b\"ID\": \"100\",\"NOME\": \"X\"\x7d", Origem := "A",
    Status := "P", Tentativas := 0, DTEvento := 3, DTUltEnvio := none, ERROMsg := none }

/-- Three active peers `A`, `B`, `C`. -/
def peersABC : List NodeRow :=
  [{ NodeID := "A", RemoteURL := "http://10.0.0.1:8080/sync", LastSeen := none, Active := "S" },
   { NodeID := "B", RemoteURL := "http://10.0.0.2:8080/sync", LastSeen := none, Active := "S" },
   { NodeID := "C", RemoteURL := "http://10.0.0.3:8080/sync", LastSeen := none, Active := "S" }]

/-- A database with the Pending event of origin `A` and the three peers. -/
def fanoutDB : DB :=
  { fila := [eventoLocal], destinos := [], nodes := peersABC, tables := [clienteTable],
    genFila := 1, genDest := 0 }

/-- The same database without any peer. -/
def lonelyDB : DB := { fanoutDB with nodes := [] }

/-- The database after `CreateDestinations` ran for the event of `fanoutDB`. -/
def fanoutCreated : DB :=
  { fanoutDB with
    genDest := 2,
    destinos :=
      [{ ID := 1, FilaID := 1, NodeID := "B", Status := "P", Tentativas := 0, ERROMsg := none,
         DTUltTentativa := none },
       { ID := 2, FilaID := 1, NodeID := "C", Status := "P", Tentativas := 0, ERROMsg := none,
         DTUltTentativa := none }] }

/-- The poller of node `A`: direct HTTP only. -/
def pollerA : Poller := { cfg := cfgA, relay := false }

/-- A sender environment in which every POST fails and the database works. -/
def failingSend : SendEnv :=
  { now := 11, getPendingDestinationsFails := false, getActiveNodesFails := false,
    post := fun _ => some "dial tcp: connect: connection refused",
    updateFails := fun _ => false, unmarshal := fun _ => [] }

/-- A sender environment in which every POST is answered 200 and the database
works. -/
def quietSend : SendEnv :=
  { now := 11, getPendingDestinationsFails := false, getActiveNodesFails := false,
    post := fun _ => none, updateFails := fun _ => false, unmarshal := fun _ => [] }

/-- The poller of node `A` with the relay enabled and a relay client. -/
def pollerRelay : Poller :=
  { cfg := { cfgA with Relay := { Enabled := true, HubURL := "ws://hub:9090/ws", Token := "t" } },
    relay := true }

/-- A second event recorded at node `A`, still Pending. -/
def eventoLocal2 : FilaItem :=
  { eventoLocal with ID := 2, EventID := "7d1e2f3a-4b5c-4d6e-8f70-112233445566",
                     PKJSON := "\x7b\"ID\": \"101\"\x7d",
                     PayloadJSON := some "\x7b\"ID\": \"101\",\"NOME\": \"Y\"\x7d" }

/-- A database of node `A` with two Pending events and the single peer `B`. -/
def twoEventsDB : DB :=
  { fila := [eventoLocal, eventoLocal2], destinos := [],
    nodes := [{ NodeID := "B", RemoteURL := "http://10.0.0.2:8080/sync", LastSeen := none,
                Active := "S" }],
    tables := [clienteTable], genFila := 2, genDest := 0 }

/-- A dispatcher environment in which `CreateDestinations` of the first event of
the batch fails at `Begin` and nothing else fails. -/
def firstCreateFails : DispatchEnv :=
  { now := 9, getPendingFails := false, getActiveNodesFails := false,
    item := fun k =>
      if k = 0 then
        { noItemFaults with
          create := { beginFails := true, execFails := fun _ => false, commitFails := false } }
      else noItemFaults }

/-- The node database of `lojaDB` whose registry lists only `CLIENTE`. -/
def lojaRegistrada : DB :=
  { lojaDB with integradas := [{ NomeTabela := "CLIENTE", Ativo := "S" }] }

/-- An upsert envelope for `CARIMBO`, a table that is not in the registry, sent by
node `CENTRAL`. -/
def upsertCarimboCentral : SyncPayload := { upsertCarimbo with Origem := "CENTRAL" }

/-- An insert envelope for `CLIENTE` whose `NOME` is the empty string. -/
def insertClienteVazio : SyncPayload :=
  { insertCliente with PayloadJSON := [("NOME", Value.str "")] }

/-- A delete envelope for `CLIENTE` with a two-column key and a data map. -/
def deleteCliente : SyncPayload :=
  { EventID := "c0ffee00-1111-4222-8333-444455556666", Table := "CLIENTE", Operation := "D",
    PKJSON := [("ID", Value.str "100"), ("FILIAL", Value.lit "7")],
    PayloadJSON := [("NOME", Value.str "X")],
    Origem := "CENTRAL", Timestamp := 3, RemoteAddr := "10.0.0.2:51234" }

/-- The transport and the address of an emission. -/
def Emission.route : Emission → String × String
  | Emission.direct url _ => ("direct", url)
  | Emission.relay t _ => ("relay", t)

/-- The tasks `GetPendingDestinations` returns on a state when the query works
and the batch size is 10. -/
def tasksFetched (s : DB) : List DestinoTask :=
  match GetPendingDestinations false 10 s with
  | Except.ok ts => ts
  | Except.error _ => []

/-- The state of `twoEventsDB` after a dispatcher tick in which `CreateDestinations`
of the first event failed, followed by a tick without faults: the destination of
the second event was created before the destination of the first. -/
def outOfOrderDB : DB :=
  dispatchEvents quietDispatch cfgA (dispatchEvents firstCreateFails cfgA twoEventsDB)

/-- Two events of node `A` fanned out to the peers `B` and `C` by a dispatcher
tick without faults. -/
def twoFanoutDB : DB :=
  dispatchEvents quietDispatch cfgA { twoEventsDB with nodes := peersABC }

/-- A sender environment in which only the POST for destination 1 fails. -/
def firstPostFails : SendEnv :=
  { quietSend with
    post := fun id => if id = 1 then some "dial tcp: connect: connection refused" else none }

/-- A destination row as `CreateDestinations` inserts it. -/
def destino (id filaID : Int) (node : String) : FilaDestino :=
  { ID := id, FilaID := filaID, NodeID := node, Status := "P", Tentativas := 0, ERROMsg := none,
    DTUltTentativa := none }

/-- The task of destination 1: the first event for peer `B`. -/
def taskB1 : DestinoTask :=
  { dest := destino 1 1 "B", Item := scanItem (destino 1 1 "B") eventoLocal }

/-- The task of destination 3 of `twoFanoutDB`: the second event for peer `B`. -/
def taskB3 : DestinoTask :=
  { dest := destino 3 2 "B", Item := scanItem (destino 3 2 "B") eventoLocal2 }

/-- The database with the content of `TABELAS_INTEGRADAS` replaced. -/
def withReg (reg : List TabelaIntegrada) (s : DB) : DB := { s with integradas := reg }

/-- The entries of a map written one after the other into another map. -/
def setAll (m : GoMap) (l : GoMap) : GoMap := l.foldl (fun m kv => mapSet m kv.1 kv.2) m

/-- A sender environment without faults whose `json.Unmarshal` decodes the two
texts of `eventoLocal`. -/
def decodingSend : SendEnv :=
  { quietSend with
    unmarshal := fun t =>
      if t = "\x7b\"ID\": \"100\"\x7d" then [("ID", Value.str "100")]
      else if t = "\x7b\"ID\": \"100\",\"NOME\": \"X\"\x7d" then
        [("ID", Value.str "100"), ("NOME", Value.str "X")]
      else [] }

/-- The envelope node `A` posts to peer `B` for its event `eventoLocal`. -/
def envioB : Emission :=
  Emission.direct "http://10.0.0.2:8080/sync" (webhookPayload decodingSend pollerA taskB1.Item)

/-- The configuration of node `A` with `timeout_seconds: 10`. -/
def cfgTimeout10 : Config :=
  { cfgA with Integracao := { BatchSize := 10, RetryMax := 3, RetryIntervalSeconds := 5,
                              TimeoutSeconds := 10 } }

/-- A configuration whose webhook token is the empty string. -/
def cfgSemToken : Config :=
  { cfgA with Webhook := { ListenAddr := ":8080", RemoteURL := "", Token := "" } }

/-- A hub without connections. -/
def emptyHub : Hub := { nodes := [], serving := [], written := [] }

/-- A sync frame for node `B` whose source is left empty. -/
def quadroParaB : RelayMessage :=
  { TargetNode := "B", SourceNode := "", Payload := "\x7b\"event_id\": \"e1\"\x7d",
    MsgType := "sync" }

/-- An outbox with one row in status `R` and one in status `P`. -/
def retryDB : DB :=
  { fanoutDB with
    fila := [{ eventoLocal with Status := "R", Tentativas := 1 }, eventoLocal2],
    genFila := 2 }

/-- A row of `CARIMBO` before an update of its `SYNC_TS`. -/
def carimboOld : Row := [("VERSION", Value.str "1"), ("SYNC_TS", Value.str "2024-01-01")]

/-- The row of `CARIMBO` after the update: only `SYNC_TS` differs. -/
def carimboNew : Row := [("VERSION", Value.str "1"), ("SYNC_TS", Value.str "2024-01-02")]

/-- A row of `CLIENTE` before an update that changes no column. -/
def clienteRow : Row := [("ID", Value.str "100"), ("NOME", Value.str "X")]

/-- The node database after the insert envelope of `CENTRAL` was applied: the
outbox holds the captured row and the Applied row. -/
def lojaAplicada : DB := (ProcessPayload quietRecv insertCliente lojaDB).1

/-- The Applied row of `lojaAplicada`. -/
def linhaAplicada : FilaItem :=
  { (historyRow quietRecv.now insertCliente) with ID := 2 }

/-- The text a `CHAR(width)` column of the outbox holds after an UPDATE: the old
text when the column is not listed, the bound string when it is a string that
fills the width exactly (no padding, no truncation error). -/
def charCell (width : Nat) (old : String) : Option Value → Option String
  | none => some old
  | some (Value.str x) => if x.length = width then some x else none
  | some _ => none

/-- The engine on `UPDATE OR INSERT INTO FILA_INTEGRACAO (...) VALUES (...)
MATCHING (ID)` in the one case the inputs below use: the columns are among
`ID`, `EVENT_ID` and `STATUS`, and the value bound to `ID` is the number of an
existing row.  The row with that ID is updated (`TRG_FILA_INTEGRACAO_BI` fires
before INSERT only, and the table has no constraint besides the primary key on
`ID`).  Any other statement is given no answer by this function. -/
def upsertFilaByID (st : Stmt) (s : DB) : Option DB :=
  match st.fold with
  | Stmt.delete _ _ _ => none
  | Stmt.upsert t cols vals pkCols =>
    if t = "FILA_INTEGRACAO" ∧ pkCols = ["ID"] ∧ cols.Nodup ∧
        cols.all (fun c => ["ID", "EVENT_ID", "STATUS"].contains c) = true then
      match s.fila.find?
          (fun r => decide (assigned cols vals "ID" = some (Value.lit (toString r.ID)))) with
      | none => none
      | some r =>
        match charCell 36 r.EventID (assigned cols vals "EVENT_ID"),
              charCell 1 r.Status (assigned cols vals "STATUS") with
        | some e, some x =>
          some { s with fila := s.fila.map (fun q =>
            if q.ID = r.ID then { q with EventID := e, Status := x } else q) }
        | _, _ => none
    else none

/-- A receiver environment without faults whose engine runs an upsert on
`FILA_INTEGRACAO` as `upsertFilaByID` says. -/
def outboxRecv : RecvEnv := { quietRecv with other := upsertFilaByID }

/-- An envelope that names the outbox table itself: it gives row 1 the event-id
of the insert of `CENTRAL` and the status `A`. -/
def remarcaEvento : SyncPayload :=
  { EventID := "5b6c7d8e-9f01-4a2b-8c3d-4e5f60718293", Table := "FILA_INTEGRACAO", Operation := "U",
    PKJSON := [("ID", Value.lit "1")],
    PayloadJSON := [("EVENT_ID", Value.str "4f9c2d1e-8a3b-4c5d-9e6f-0a1b2c3d4e5f"),
                    ("STATUS", Value.str "A")],
    Origem := "CENTRAL", Timestamp := 3, RemoteAddr := "10.0.0.2:51234" }

/-- An envelope that names the outbox table itself: it sets the status of row 2
to `P`. -/
def reabreEvento : SyncPayload :=
  { EventID := "6c7d8e9f-0a12-4b3c-9d4e-5f6071829304", Table := "FILA_INTEGRACAO", Operation := "U",
    PKJSON := [("ID", Value.lit "2")], PayloadJSON := [("STATUS", Value.str "P")],
    Origem := "CENTRAL", Timestamp := 3, RemoteAddr := "10.0.0.2:51234" }

/-- The poller of a node whose configured id has 23 characters: direct HTTP only. -/
def pollerLoja : Poller :=
  { cfg := { cfgA with NodeID := "LOJA_FILIAL_CENTRO_0001" }, relay := false }

/-- The database of that node: one event captured by its trigger, fanned out to
the peers `B` and `C`. -/
def lojaFanout : DB :=
  { fanoutCreated with fila := [{ eventoLocal with Origem := "TRIGGER" }] }

/-- The envelope that node posts to peer `B` for its event. -/
def envioLoja : Emission :=
  Emission.direct "http://10.0.0.2:8080/sync"
    (webhookPayload decodingSend pollerLoja
      (scanItem (destino 1 1 "B") { eventoLocal with Origem := "TRIGGER" }))

/-- The task of destination 1 after three failed attempts at time 11. -/
def taskB1Tried : DestinoTask :=
  { dest :=
      { ID := 1, FilaID := 1, NodeID := "B", Status := "R", Tentativas := 3,
        ERROMsg := some "dial tcp: connect: connection refused", DTUltTentativa := some 11 },
    Item := scanItem (destino 1 1 "B") eventoLocal }

/-- A sender environment in which the POST for destination 1 fails and the
status update of destination 1 fails too. -/
def postAndUpdateFail : SendEnv :=
  { firstPostFails with updateFails := fun id => decide (id = 1) }

/-- A sender environment in which every POST is answered 200 and every status
update fails. -/
def updatesFail : SendEnv := { quietSend with updateFails := fun _ => true }

/-! ## Receiver: basic facts -/

theorem upsertNode_frame {now : Nat} {nodeID remoteURL : String} {s s1 : DB}
    (h : upsertNode now nodeID remoteURL s = some s1) :
    s1.fila = s.fila ∧ s1.tables = s.tables ∧ s1.destinos = s.destinos ∧
    s1.genFila = s.genFila := by
  unfold upsertNode at h
  split at h
  · split at h <;> (cases h; simp)
  · cases h

theorem registerNode_frame (env : RecvEnv) (p : SyncPayload) (s : DB) :
    (registerNode env p s).fila = s.fila ∧ (registerNode env p s).tables = s.tables ∧
    (registerNode env p s).destinos = s.destinos ∧
    (registerNode env p s).genFila = s.genFila := by
  unfold registerNode
  split
  · simp
  · split
    · simp
    · split
      · next s1 h => exact upsertNode_frame h
      · simp

theorem insertFila_spec {r : FilaItem} {s s1 : DB} (h : insertFila r s = some s1) :
    s1.fila = s.fila ++ withIDs s.genFila [r] ∧ s1.genFila = s.genFila + 1 ∧
    s1.tables = s.tables ∧ s1.destinos = s.destinos ∧ s1.nodes = s.nodes := by
  unfold insertFila at h
  split at h
  · cases h; simp [withIDs]
  · cases h

theorem insertFilaAll_spec {rs : List FilaItem} {s s1 : DB} (h : insertFilaAll rs s = some s1) :
    s1.fila = s.fila ++ withIDs s.genFila rs ∧ s1.tables = s.tables ∧
    s1.destinos = s.destinos ∧ s1.nodes = s.nodes := by
  induction rs generalizing s with
  | nil => simp [insertFilaAll] at h; subst h; simp [withIDs]
  | cons r rs ih =>
    simp only [insertFilaAll] at h
    split at h
    · next s2 h2 =>
      obtain ⟨hf, hg, ht, hd, hn⟩ := insertFila_spec h2
      obtain ⟨hf1, ht1, hd1, hn1⟩ := ih h
      refine ⟨?_, by rw [ht1, ht], by rw [hd1, hd], by rw [hn1, hn]⟩
      rw [hf1, hf, hg]
      simp [withIDs]
    · cases h

theorem execUser_spec {uuid : Nat → String} {now : Nat} {st : Stmt} {s s1 : DB}
    (h : execUser uuid now st s = some s1) :
    s1.fila = s.fila ++ withIDs s.genFila (capturedBy uuid now st s) ∧
    s1.destinos = s.destinos ∧ s1.nodes = s.nodes := by
  unfold execUser at h
  unfold capturedBy
  cases ht : s.tables.find? (fun t => decide (t.name = st.table)) with
  | none => simp [ht] at h
  | some t =>
    simp only [ht] at h ⊢
    cases hr : execRows t st with
    | none => simp [hr] at h
    | some rc =>
      obtain ⟨rows, changes⟩ := rc
      simp only [hr] at h ⊢
      cases htr : t.trigger with
      | none =>
        simp only [htr] at h ⊢
        cases h
        simp [withIDs]
      | some tr =>
        simp only [htr] at h ⊢
        obtain ⟨hf, _, hd, hn⟩ := insertFilaAll_spec h
        exact ⟨hf, hd, hn⟩

theorem withIDs_status (g : Int) (rs : List FilaItem) :
    ∀ r ∈ withIDs g rs, ∃ r0 ∈ rs, r.Status = r0.Status ∧ r.Origem = r0.Origem ∧
      r.EventID = r0.EventID ∧ r.Tabela = r0.Tabela := by
  induction rs generalizing g with
  | nil => simp [withIDs]
  | cons x xs ih =>
    intro r hr
    simp only [withIDs, List.mem_cons] at hr
    rcases hr with rfl | hr
    · exact ⟨x, by simp, rfl, rfl, rfl, rfl⟩
    · obtain ⟨r0, h0, h1⟩ := ih (g + 1) r hr
      exact ⟨r0, by simp [h0], h1⟩

theorem capture_shape {tr : Trigger} {eventID : String} {now : Nat} {ch : Change} {r : FilaItem}
    (h : tr.capture eventID now ch = some r) :
    r.Origem = "TRIGGER" ∧ r.Status = "P" ∧ r.Tabela = tr.tableName := by
  cases ch with
  | ins new => simp [Trigger.capture] at h; subst h; simp
  | upd old new =>
    simp only [Trigger.capture] at h
    split at h
    · cases h
    · cases h; simp
  | del old => simp [Trigger.capture] at h; subst h; simp

theorem captureAll_shape (tr : Trigger) (uuid : Nat → String) (now : Nat) (chs : List Change) :
    ∀ r ∈ captureAll tr uuid now chs,
      r.Origem = "TRIGGER" ∧ r.Status = "P" ∧ r.Tabela = tr.tableName := by
  induction chs generalizing uuid with
  | nil => simp [captureAll]
  | cons ch rest ih =>
    intro r hr
    simp only [captureAll] at hr
    split at hr
    · next r0 h0 =>
      simp only [List.mem_cons] at hr
      rcases hr with rfl | hr
      · exact capture_shape h0
      · exact ih _ r hr
    · exact ih _ r hr

theorem capturedBy_shape (uuid : Nat → String) (now : Nat) (st : Stmt) (s : DB) :
    ∀ r ∈ capturedBy uuid now st s, r.Origem = "TRIGGER" ∧ r.Status = "P" := by
  intro r hr
  unfold capturedBy at hr
  split at hr
  · simp at hr
  · split at hr
    · simp at hr
    · split at hr
      · simp at hr
      · exact ⟨(captureAll_shape _ _ _ _ r hr).1, (captureAll_shape _ _ _ _ r hr).2.1⟩

theorem writeHistory_spec (env : RecvEnv) (p : SyncPayload) (tx : DB) :
    (writeHistory env p tx = tx ∨
      (writeHistory env p tx).fila = tx.fila ++ withIDs tx.genFila [historyRow env.now p]) ∧
    (writeHistory env p tx).tables = tx.tables ∧
    (writeHistory env p tx).destinos = tx.destinos := by
  unfold writeHistory
  split
  · simp
  · split
    · next tx1 h =>
      obtain ⟨hf, _, ht, hd, _⟩ := insertFila_spec h
      exact ⟨Or.inr hf, ht, hd⟩
    · simp

/-- Every call of `ProcessPayload` either leaves the state as `registerNode` left
it, or it found no row with the event-id, executed the statement of the
envelope and committed it together with whatever `writeHistory` added. -/
theorem ProcessPayload_cases (env : RecvEnv) (p : SyncPayload) (s : DB) :
    (ProcessPayload env p s).1 = registerNode env p s ∨
    ∃ st tx1, (registerNode env p s).fila.any (fun r => decide (r.EventID = p.EventID)) = false ∧
      buildStmt p = Except.ok st ∧
      execStmt env.other env.uuid env.now st (registerNode env p s) = some tx1 ∧
      ProcessPayload env p s = (writeHistory env p tx1, Except.ok ()) := by
  unfold ProcessPayload IsDuplicate applyToDBTx
  simp only
  by_cases hq : env.isDuplicateFails = true
  · simp [hq]
  · simp only [hq, Bool.false_eq_true, if_false]
    cases hd : (registerNode env p s).fila.any (fun r => decide (r.EventID = p.EventID)) with
    | true => simp
    | false =>
      simp only
      by_cases hb : env.beginFails = true
      · simp [hb]
      · simp only [hb, Bool.false_eq_true, if_false]
        cases hst : buildStmt p with
        | error e => simp
        | ok st =>
          simp only
          by_cases ha : env.applyFails = true
          · simp [ha]
          · simp only [ha, Bool.false_eq_true, if_false]
            cases hx : execStmt env.other env.uuid env.now st (registerNode env p s) with
            | none => simp
            | some tx1 =>
              simp only
              by_cases hc : env.commitFails = true
              · simp [hc]
              · right
                exact ⟨st, tx1, trivial, rfl, hx, by simp [hc]⟩

theorem Stmt.fold_table (st : Stmt) : st.fold.table = toUpper st.table := by
  cases st <;> rfl

theorem onUserTable_tables {st : Stmt} {s s1 : DB} (h : s1.tables = s.tables) :
    onUserTable st s1 = onUserTable st s := by
  unfold onUserTable
  rw [h]

theorem execStmt_of_user {other : Stmt → DB → Option DB} {uuid : Nat → String} {now : Nat}
    {st : Stmt} {s : DB} (h : onUserTable st s = true) :
    execStmt other uuid now st s = execUser uuid now st.fold s := by
  simp [execStmt, h]

/-- Names written in lower case reach the table: the insert envelope with table
`cliente` and columns `id` and `nome` writes the row of `CLIENTE`, as the
envelope in upper case does; an envelope for `FILA_INTEGRACAO` is not run on a
user table. -/
theorem ProcessPayload_folds_names :
    (ProcessPayload quietRecv
        { insertCliente with Table := "cliente", PKJSON := [("id", Value.str "100")],
                             PayloadJSON := [("nome", Value.str "X")] } lojaDB).1.tables =
      (ProcessPayload quietRecv insertCliente lojaDB).1.tables ∧
    (ProcessPayload quietRecv insertCliente lojaDB).1.tables.map (fun t => t.rows) =
      [[[("ID", Value.str "100"), ("NOME", Value.str "X")]], []] ∧
    targetsUserTable remarcaEvento lojaAplicada = false := by
  decide

/-- The cases of `ProcessPayload` for an envelope that addresses a replicated
user table: the statement is run by `execUser`, with its names folded. -/
theorem ProcessPayload_cases_user (env : RecvEnv) (p : SyncPayload) (s : DB)
    (hu : targetsUserTable p s = true) :
    (ProcessPayload env p s).1 = registerNode env p s ∨
    ∃ st tx1, (registerNode env p s).fila.any (fun r => decide (r.EventID = p.EventID)) = false ∧
      buildStmt p = Except.ok st ∧
      execUser env.uuid env.now st.fold (registerNode env p s) = some tx1 ∧
      ProcessPayload env p s = (writeHistory env p tx1, Except.ok ()) := by
  rcases ProcessPayload_cases env p s with h1 | ⟨st, tx1, hdup, hst, hx, hpp⟩
  · exact Or.inl h1
  · right
    have hus : onUserTable st (registerNode env p s) = true := by
      rw [onUserTable_tables (registerNode_frame env p s).2.1]
      simpa [targetsUserTable, hst] using hu
    rw [execStmt_of_user hus] at hx
    exact ⟨st, tx1, hdup, hst, hx, hpp⟩

/-- A call of `ProcessPayload` that returns success for an event-id the outbox
does not hold executed the statement of the envelope and committed it together
with whatever `writeHistory` added. -/
theorem ProcessPayload_applied (env : RecvEnv) (p : SyncPayload) (s : DB)
    (hnew : s.fila.any (fun r => decide (r.EventID = p.EventID)) = false)
    (hok : (ProcessPayload env p s).2 = Except.ok ()) :
    ∃ st tx1, buildStmt p = Except.ok st ∧
      execStmt env.other env.uuid env.now st (registerNode env p s) = some tx1 ∧
      ProcessPayload env p s = (writeHistory env p tx1, Except.ok ()) := by
  have hreg := (registerNode_frame env p s).1
  have hd : (registerNode env p s).fila.any (fun r => decide (r.EventID = p.EventID)) = false := by
    rw [hreg]; exact hnew
  unfold ProcessPayload IsDuplicate applyToDBTx at hok ⊢
  simp only at hok ⊢
  by_cases hq : env.isDuplicateFails = true
  · simp [hq] at hok
  · simp only [hq, Bool.false_eq_true, if_false, hd] at hok ⊢
    by_cases hb : env.beginFails = true
    · simp [hb] at hok
    · simp only [hb, Bool.false_eq_true, if_false] at hok ⊢
      cases hst : buildStmt p with
      | error e => simp [hst] at hok
      | ok st =>
        simp only [hst] at hok ⊢
        by_cases ha : env.applyFails = true
        · simp [ha] at hok
        · simp only [ha, Bool.false_eq_true, if_false] at hok ⊢
          cases hx : execStmt env.other env.uuid env.now st (registerNode env p s) with
          | none => simp [hx] at hok
          | some tx1 =>
            simp only [hx] at hok ⊢
            by_cases hc : env.commitFails = true
            · simp [hc] at hok
            · exact ⟨st, tx1, rfl, hx, by simp [hc]⟩

theorem appliedCount_append (id : String) (xs ys : List FilaItem) :
    appliedCount id (xs ++ ys) = appliedCount id xs + appliedCount id ys := by
  simp [appliedCount]

theorem appliedCount_eq_zero_of_status (id : String) (xs : List FilaItem)
    (h : ∀ r ∈ xs, r.Status ≠ "A") : appliedCount id xs = 0 := by
  simp only [appliedCount, List.length_eq_zero, List.filter_eq_nil_iff]
  intro r hr
  simp [h r hr]

theorem appliedCount_eq_zero_of_absent (id : String) (xs : List FilaItem)
    (h : xs.any (fun r => decide (r.EventID = id)) = false) : appliedCount id xs = 0 := by
  simp only [appliedCount, List.length_eq_zero, List.filter_eq_nil_iff]
  intro r hr
  have := List.any_eq_false.mp h r hr
  simp at this
  simp [this]

theorem appliedCount_history (id : String) (g : Int) (now : Nat) (p : SyncPayload) :
    appliedCount id (withIDs g [historyRow now p]) = if p.EventID = id then 1 else 0 := by
  by_cases h : p.EventID = id <;> simp [appliedCount, withIDs, historyRow, h]

theorem appliedCount_captured (id : String) (g : Int) (uuid : Nat → String) (now : Nat)
    (st : Stmt) (s : DB) : appliedCount id (withIDs g (capturedBy uuid now st s)) = 0 := by
  apply appliedCount_eq_zero_of_status
  intro r hr
  obtain ⟨r0, h0, hs, _⟩ := withIDs_status g _ r hr
  rw [hs, (capturedBy_shape uuid now st s r0 h0).2]
  decide

/-- One delivery of an envelope that addresses a replicated user table keeps the
invariant of at most one Applied row per event-id. -/
theorem ProcessPayload_appliedCount (env : RecvEnv) (p : SyncPayload) (s : DB) (id : String)
    (hu : targetsUserTable p s = true)
    (h : appliedCount id s.fila ≤ 1) : appliedCount id (ProcessPayload env p s).1.fila ≤ 1 := by
  have hreg := (registerNode_frame env p s).1
  rcases ProcessPayload_cases_user env p s hu with h1 | ⟨st, tx1, hdup, _, hx, hpp⟩
  · rw [h1, hreg]; exact h
  · rw [hpp]
    obtain ⟨hf, _, _⟩ := execUser_spec hx
    rcases (writeHistory_spec env p tx1).1 with hw | hw
    · rw [hw, hf, appliedCount_append, appliedCount_captured, hreg]
      simpa using h
    · simp only
      rw [hw, hf, appliedCount_append, appliedCount_append, appliedCount_captured,
        appliedCount_history, hreg]
      rw [hreg] at hdup
      by_cases hid : p.EventID = id
      · subst hid
        rw [appliedCount_eq_zero_of_absent _ _ hdup]
        simp
      · simp [hid, h]

/-- A delivery whose event-id is already in the outbox changes neither the
outbox nor the user tables nor the destinations, whatever fails. -/
theorem ProcessPayload_known_event (env : RecvEnv) (p : SyncPayload) (s : DB)
    (hdup : ∃ r ∈ s.fila, r.EventID = p.EventID) :
    (ProcessPayload env p s).1.fila = s.fila ∧
    (ProcessPayload env p s).1.tables = s.tables ∧
    (ProcessPayload env p s).1.destinos = s.destinos := by
  obtain ⟨hf, ht, hd, _⟩ := registerNode_frame env p s
  rcases ProcessPayload_cases env p s with h1 | ⟨_, _, hno, _⟩
  · rw [h1]
    exact ⟨hf, ht, hd⟩
  · exfalso
    rw [hf] at hno
    obtain ⟨r, hr, he⟩ := hdup
    have := List.any_eq_false.mp hno r hr
    simp [he] at this

/-- Once the outbox holds a row with the event-id of an envelope, any number of
further deliveries of that envelope, in any environments, leaves the outbox and
the user tables as they are. -/
theorem deliverAll_absorbed (envs : List RecvEnv) (p : SyncPayload) (s : DB)
    (hdup : ∃ r ∈ s.fila, r.EventID = p.EventID) :
    (deliverAll (envs.map (fun e => (e, p))) s).fila = s.fila ∧
    (deliverAll (envs.map (fun e => (e, p))) s).tables = s.tables := by
  induction envs generalizing s with
  | nil => simp [deliverAll]
  | cons e rest ih =>
    simp only [List.map_cons, deliverAll]
    obtain ⟨hf, ht, _⟩ := ProcessPayload_known_event e p s hdup
    have hdup' : ∃ r ∈ (ProcessPayload e p s).1.fila, r.EventID = p.EventID := by
      rw [hf]; exact hdup
    obtain ⟨h1, h2⟩ := ih _ hdup'
    exact ⟨h1.trans hf, h2.trans ht⟩

/-! ## Receiver: the claims -/

/-- C1 (evaluation of the code at the failing input): the insert envelope sent by
a node whose id is longer than `ORIGEM VARCHAR(20)` is answered with success,
its row is committed to `CLIENTE`, and the outbox holds no row with the
envelope's event-id: the failed history INSERT was only logged and the
transaction committed without it.  The same happens to an ordinary envelope
when the history INSERT fails for an outside reason. -/
theorem ProcessPayload_history_lost :
    ((ProcessPayload quietRecv insertClienteLongOrigin lojaDB).2 = Except.ok () ∧
     ((ProcessPayload quietRecv insertClienteLongOrigin lojaDB).1.tables.map (fun t => t.rows)) =
       [[[("ID", Value.str "100"), ("NOME", Value.str "X")]], []] ∧
     appliedCount insertClienteLongOrigin.EventID
       (ProcessPayload quietRecv insertClienteLongOrigin lojaDB).1.fila = 0 ∧
     (ProcessPayload quietRecv insertClienteLongOrigin lojaDB).1.fila.any
       (fun r => decide (r.EventID = insertClienteLongOrigin.EventID)) = false) ∧
    ((ProcessPayload historyFault insertCliente lojaDB).2 = Except.ok () ∧
     ((ProcessPayload historyFault insertCliente lojaDB).1.tables.map (fun t => t.rows)) =
       [[[("ID", Value.str "100"), ("NOME", Value.str "X")]], []] ∧
     appliedCount insertCliente.EventID (ProcessPayload historyFault insertCliente lojaDB).1.fila
       = 0) := by
  decide

/-- C2: for an envelope whose event-id already appears in some outbox row (of any
status), `ProcessPayload` returns success when the lookup itself does not fail,
and leaves the outbox, the user tables and the destinations as they were. -/
theorem ProcessPayload_duplicate (env : RecvEnv) (p : SyncPayload) (s : DB)
    (hdup : ∃ r ∈ s.fila, r.EventID = p.EventID) (hq : env.isDuplicateFails = false) :
    (ProcessPayload env p s).2 = Except.ok () ∧
    (ProcessPayload env p s).1.fila = s.fila ∧
    (ProcessPayload env p s).1.tables = s.tables ∧
    (ProcessPayload env p s).1.destinos = s.destinos := by
  obtain ⟨hf, ht, hd, _⟩ := registerNode_frame env p s
  have hany : (registerNode env p s).fila.any (fun r => decide (r.EventID = p.EventID)) = true := by
    rw [hf]
    obtain ⟨r, hr, he⟩ := hdup
    exact List.any_eq_true.mpr ⟨r, hr, by simp [he]⟩
  unfold ProcessPayload IsDuplicate
  simp only [hq, hany, Bool.false_eq_true, if_false]
  exact ⟨trivial, hf, ht, hd⟩

/-- C2 at a concrete input: the second delivery of `insertCliente`. -/
theorem ProcessPayload_duplicate_witness :
    (∃ r ∈ (ProcessPayload quietRecv insertCliente lojaDB).1.fila,
      r.EventID = insertCliente.EventID) ∧
    (ProcessPayload quietRecv insertCliente (ProcessPayload quietRecv insertCliente lojaDB).1).2
      = Except.ok () ∧
    (ProcessPayload quietRecv insertCliente (ProcessPayload quietRecv insertCliente lojaDB).1).1.fila
      = (ProcessPayload quietRecv insertCliente lojaDB).1.fila :=
  ⟨by decide,
   (ProcessPayload_duplicate quietRecv insertCliente
      (ProcessPayload quietRecv insertCliente lojaDB).1 (by decide) rfl).1,
   (ProcessPayload_duplicate quietRecv insertCliente
      (ProcessPayload quietRecv insertCliente lojaDB).1 (by decide) rfl).2.1⟩

/-- C3 (evaluation of the code at the failing input): two deliveries of the same
envelope leave an outbox different from the one a single delivery leaves.  The
history INSERT of the first delivery fails (origin longer than 20 characters)
and is only logged, so the second delivery is not recognised as a duplicate,
runs the upsert again, and the capture trigger of the table, whose columns are
all ignored (guard `1=1`), records one more event.  Likewise, when the history
INSERT of the first delivery of an ordinary envelope fails for an outside
reason, the second delivery is applied again and the outbox differs. -/
theorem deliverAll_twice_differs :
    ((deliverAll [(quietRecv, upsertCarimbo), (quietRecv, upsertCarimbo)] lojaDB).fila.map
        (fun r => (r.Origem, r.Status, r.Operacao)) =
      [("TRIGGER", "P", "I"), ("TRIGGER", "P", "U")] ∧
     (deliverAll [(quietRecv, upsertCarimbo)] lojaDB).fila.map
        (fun r => (r.Origem, r.Status, r.Operacao)) = [("TRIGGER", "P", "I")] ∧
     (deliverAll [(quietRecv, upsertCarimbo), (quietRecv, upsertCarimbo)] lojaDB).fila ≠
       (deliverAll [(quietRecv, upsertCarimbo)] lojaDB).fila) ∧
    ((ProcessPayload historyFault insertCliente lojaDB).2 = Except.ok () ∧
     (deliverAll [(historyFault, insertCliente), (quietRecv, insertCliente)] lojaDB).fila ≠
       (deliverAll [(historyFault, insertCliente)] lojaDB).fila) := by
  decide

/-- C4 (counterexample): an envelope may name the outbox table itself, because
`applyToDBTx` writes `p.Table` into the SQL text unchecked.  On the outbox of
`lojaAplicada`, where no event-id has more than one Applied row, the delivery of
`remarcaEvento` runs `UPDATE OR INSERT INTO FILA_INTEGRACAO (ID, EVENT_ID,
STATUS) VALUES (1, ..., A) MATCHING (ID)`, is answered with success, and leaves
two Applied rows with the event-id of the insert of `CENTRAL`. -/
theorem ProcessPayload_applied_twice :
    lojaAplicada.fila.map (fun r => (r.ID, r.EventID, r.Status)) =
      [(1, "0b7e3c1a-5d2f-4e8a-9c41-6f0d2b9a7e13", "P"),
       (2, "4f9c2d1e-8a3b-4c5d-9e6f-0a1b2c3d4e5f", "A")] ∧
    (ProcessPayload outboxRecv remarcaEvento lojaAplicada).2 = Except.ok () ∧
    (ProcessPayload outboxRecv remarcaEvento lojaAplicada).1.fila.map
        (fun r => (r.ID, r.EventID, r.Status)) =
      [(1, "4f9c2d1e-8a3b-4c5d-9e6f-0a1b2c3d4e5f", "A"),
       (2, "4f9c2d1e-8a3b-4c5d-9e6f-0a1b2c3d4e5f", "A"),
       (3, "5b6c7d8e-9f01-4a2b-8c3d-4e5f60718293", "A")] ∧
    appliedCount "4f9c2d1e-8a3b-4c5d-9e6f-0a1b2c3d4e5f"
      (deliverAll [(outboxRecv, remarcaEvento)] lojaAplicada).fila = 2 := by
  decide

/-- C4 (amended): starting from an outbox in which no event-id has more than one
Applied row, every sequence of deliveries whose envelopes address replicated
user tables (any environment, any engine behaviour on other statements,
repeated or not) keeps at most one Applied row per event-id. -/
theorem deliverAll_applied_at_most_once (ds : List (RecvEnv × SyncPayload)) (s : DB)
    (hu : deliveriesOnUserTables ds s)
    (h : ∀ id, appliedCount id s.fila ≤ 1) :
    ∀ id, appliedCount id (deliverAll ds s).fila ≤ 1 := by
  induction ds generalizing s with
  | nil => simpa [deliverAll] using h
  | cons d ds ih =>
    simp only [deliverAll]
    exact ih _ hu.2 (fun id => ProcessPayload_appliedCount d.1 d.2 s id hu.1 (h id))

/-- C4 at a concrete input: the same envelope delivered three times, then another,
the first in an environment whose engine also runs statements on the outbox. -/
theorem deliverAll_applied_at_most_once_witness :
    deliveriesOnUserTables [(outboxRecv, insertCliente), (quietRecv, insertCliente),
      (quietRecv, insertCliente), (quietRecv, upsertCarimbo)] lojaDB ∧
    (∀ id, appliedCount id lojaDB.fila ≤ 1) ∧
    ∀ id, appliedCount id (deliverAll [(outboxRecv, insertCliente), (quietRecv, insertCliente),
      (quietRecv, insertCliente), (quietRecv, upsertCarimbo)] lojaDB).fila ≤ 1 :=
  ⟨by simp only [deliveriesOnUserTables]; decide, fun _ => Nat.zero_le 1,
   deliverAll_applied_at_most_once _ lojaDB (by simp only [deliveriesOnUserTables]; decide)
     (fun _ => Nat.zero_le 1)⟩

/-- C5 (evaluation of the code at the failing input): applying a remote insert on
a table that carries the trigger generated by `InstallTriggers` adds two outbox
rows, the first with origin `TRIGGER` and status `P` (a newly captured event for
the same change), the second the Applied row. -/
theorem ProcessPayload_recaptures :
    (ProcessPayload quietRecv insertCliente lojaDB).2 = Except.ok () ∧
    ((ProcessPayload quietRecv insertCliente lojaDB).1.fila.map
      (fun r => (r.Origem, r.Status, r.Operacao, r.Tabela))) =
      [("TRIGGER", "P", "I", "CLIENTE"), ("CENTRAL", "A", "I", "CLIENTE")] := by
  decide

/-! ## Dispatcher: basic facts -/

theorem insertDestino_spec {filaID : Int} {nodeID : String} {s s1 : DB}
    (h : insertDestino filaID nodeID s = some s1) :
    s1.destinos = s.destinos ++ destRows s.genDest filaID [{ NodeID := nodeID, RemoteURL := "" }] ∧
    s1.genDest = s.genDest + 1 ∧ s1.fila = s.fila ∧ s1.nodes = s.nodes ∧
    s1.tables = s.tables := by
  unfold insertDestino at h
  split at h
  · cases h; simp [destRows]
  · cases h

theorem destRows_cons (g filaID : Int) (n : Node) (ns : List Node) :
    destRows g filaID (n :: ns) =
      destRows g filaID [{ NodeID := n.NodeID, RemoteURL := "" }] ++ destRows (g + 1) filaID ns := by
  simp [destRows]

theorem createLoop_spec {filaID : Int} {ignoreNode : String} {execFails : Nat → Bool}
    {nodes : List Node} {tx tx1 : DB}
    (h : createLoop filaID ignoreNode execFails nodes tx = some tx1) :
    tx1.destinos = tx.destinos ++ destRows tx.genDest filaID (targets nodes ignoreNode) ∧
    tx1.fila = tx.fila ∧ tx1.nodes = tx.nodes ∧ tx1.tables = tx.tables := by
  induction nodes generalizing tx execFails with
  | nil => simp [createLoop] at h; subst h; simp [targets, destRows]
  | cons n ns ih =>
    simp only [createLoop] at h
    by_cases hn : n.NodeID = ignoreNode
    · simp only [hn, if_true] at h
      have := ih h
      simpa [targets, hn] using this
    · simp only [hn, if_false] at h
      split at h
      · cases h
      · split at h
        · cases h
        · next tx2 h2 =>
          obtain ⟨hd, hg, hf, hnn, ht⟩ := insertDestino_spec h2
          obtain ⟨hd1, hf1, hn1, ht1⟩ := ih h
          refine ⟨?_, by rw [hf1, hf], by rw [hn1, hnn], by rw [ht1, ht]⟩
          have htg : targets (n :: ns) ignoreNode = n :: targets ns ignoreNode := by
            simp [targets, hn]
          rw [hd1, hd, hg, htg, destRows_cons tx.genDest filaID n]
          simp [targets]

theorem CreateDestinations_spec {f : TxFaults} {filaID : Int} {nodes : List Node}
    {ignoreNode : String} {s s1 : DB}
    (h : CreateDestinations f filaID nodes ignoreNode s = Except.ok s1) :
    s1.destinos = s.destinos ++ destRows s.genDest filaID (targets nodes ignoreNode) ∧
    s1.fila = s.fila ∧ s1.nodes = s.nodes ∧ s1.tables = s.tables := by
  unfold CreateDestinations at h
  split at h
  · cases h
  · split at h
    · cases h
    · next tx hl =>
      split at h
      · cases h
      · cases h
        exact createLoop_spec hl

theorem destRows_mem {g filaID : Int} {ns : List Node} {d : FilaDestino}
    (h : d ∈ destRows g filaID ns) :
    d.FilaID = filaID ∧ d.Status = "P" ∧ d.Tentativas = 0 ∧ ∃ n ∈ ns, n.NodeID = d.NodeID := by
  induction ns generalizing g with
  | nil => simp [destRows] at h
  | cons n ns ih =>
    simp only [destRows, List.mem_cons] at h
    rcases h with rfl | h
    · exact ⟨rfl, rfl, rfl, n, by simp, rfl⟩
    · obtain ⟨h1, h2, h3, m, hm, hmm⟩ := ih h
      exact ⟨h1, h2, h3, m, by simp [hm], hmm⟩

theorem destRows_map (g filaID : Int) (ns : List Node) :
    (destRows g filaID ns).map (fun d => (d.FilaID, d.NodeID, d.Status)) =
      ns.map (fun n => (filaID, n.NodeID, "P")) := by
  induction ns generalizing g with
  | nil => simp [destRows]
  | cons n ns ih => simp [destRows, ih]

theorem targets_mem {nodes : List Node} {origin : String} {n : Node} :
    n ∈ targets nodes origin ↔ n ∈ nodes ∧ n.NodeID ≠ origin := by
  simp [targets]

/-- The effect of the loop body on one event: nothing at all, or the complete
destination rows of the event together with either the status update or, when
that update failed, the unchanged outbox. -/
theorem dispatchItem_spec (now : Nat) (f : ItemFaults) (nodes : List Node) (it : FilaItem) (s : DB) :
    dispatchItem now f nodes it s = s ∨
    ((dispatchItem now f nodes it s).destinos =
        s.destinos ++ destRows s.genDest it.ID (targets nodes it.Origem) ∧
      (dispatchItem now f nodes it s).nodes = s.nodes ∧
      (dispatchItem now f nodes it s).tables = s.tables ∧
      (((dispatchItem now f nodes it s).fila = s.fila ∧ f.updateStatusFails = true) ∨
       ((dispatchItem now f nodes it s).fila = s.fila.map (fun r =>
          if r.ID = it.ID then
            { r with Status := "D", ERROMsg := some "Evento despachado para nós ativos",
                     DTUltEnvio := some now, Tentativas := r.Tentativas + 1 }
          else r) ∧ f.updateStatusFails = false))) := by
  unfold dispatchItem
  cases hc : CreateDestinations f.create it.ID nodes it.Origem s with
  | error e => simp
  | ok s1 =>
    right
    obtain ⟨hd, hf, hn, ht⟩ := CreateDestinations_spec hc
    unfold UpdateStatus
    by_cases hu : f.updateStatusFails = true
    · simp [hu, hd, hf, hn, ht]
    · simp [hu, hd, hf, hn, ht]

theorem GetActiveNodes_ok {fails : Bool} {s : DB} {nodes : List Node}
    (h : GetActiveNodes fails s = Except.ok nodes) : nodes = activeNodes s := by
  unfold GetActiveNodes at h
  split at h
  · cases h
  · cases h; rfl

theorem GetPending_mem {fails : Bool} {limit : Int} {s : DB} {items : List FilaItem}
    (h : GetPending fails limit s = Except.ok items) :
    ∀ it ∈ items, it ∈ s.fila ∧ pendingStatus it.Status = true := by
  unfold GetPending at h
  split at h
  · cases h
  · simp only at h
    split at h
    · cases h
      intro it hit
      have h1 := List.mem_of_mem_take hit
      have h2 := (List.perm_insertionSort (fun a b : FilaItem => a.ID ≤ b.ID) _).mem_iff.mp h1
      simpa using h2
    · cases h

/-- The destination rows a run of the dispatcher loop adds are appended to the
table, and each of them was inserted for an event of the batch, for a peer in
the list, with a node id different from the origin of that event. -/
theorem dispatchLoop_added (now : Nat) (nodes : List Node) (items : List FilaItem)
    (faults : Nat → ItemFaults) (s : DB) :
    ∃ added, (dispatchLoop now faults nodes items s).destinos = s.destinos ++ added ∧
      ∀ d ∈ added, ∃ it ∈ items, d.FilaID = it.ID ∧ d.NodeID ≠ it.Origem ∧ d.Status = "P" ∧
        ∃ n ∈ nodes, n.NodeID = d.NodeID := by
  induction items generalizing faults s with
  | nil => exact ⟨[], by simp [dispatchLoop]⟩
  | cons it rest ih =>
    simp only [dispatchLoop]
    obtain ⟨added, hadd, hprop⟩ := ih (fun k => faults (k + 1)) (dispatchItem now (faults 0) nodes it s)
    have hrest : ∀ d ∈ added, ∃ it' ∈ it :: rest, d.FilaID = it'.ID ∧ d.NodeID ≠ it'.Origem ∧
        d.Status = "P" ∧ ∃ n ∈ nodes, n.NodeID = d.NodeID := by
      intro d hd
      obtain ⟨it', hit', hrest'⟩ := hprop d hd
      exact ⟨it', by simp [hit'], hrest'⟩
    rcases dispatchItem_spec now (faults 0) nodes it s with h0 | ⟨hd0, _⟩
    · rw [h0] at hadd ⊢
      exact ⟨added, hadd, hrest⟩
    · refine ⟨destRows s.genDest it.ID (targets nodes it.Origem) ++ added, ?_, ?_⟩
      · rw [hadd, hd0, List.append_assoc]
      · intro d hd
        rcases List.mem_append.mp hd with hd | hd
        · obtain ⟨h1, h2, _, n, hn, hnn⟩ := destRows_mem hd
          have hnt := targets_mem.mp hn
          exact ⟨it, by simp, h1, by rw [← hnn]; exact hnt.2, h2, n, hnt.1, hnn⟩
        · exact hrest d hd

theorem GetPending_nodup {fails : Bool} {limit : Int} {s : DB} {items : List FilaItem}
    (hpk : (s.fila.map (fun r => r.ID)).Nodup)
    (h : GetPending fails limit s = Except.ok items) : (items.map (fun r => r.ID)).Nodup := by
  unfold GetPending at h
  split at h
  · cases h
  · simp only at h
    split at h
    · cases h
      have h1 : ((s.fila.filter (fun r => pendingStatus r.Status)).map (fun r => r.ID)).Nodup :=
        hpk.sublist ((List.filter_sublist _).map _)
      have h2 := ((List.perm_insertionSort (fun a b : FilaItem => a.ID ≤ b.ID)
        (s.fila.filter (fun r => pendingStatus r.Status))).map (fun r => r.ID)).nodup_iff.mpr h1
      exact h2.sublist ((List.take_sublist _ _).map _)
    · cases h

theorem filter_id_of_nodup {l : List FilaItem} (hpk : (l.map (fun r => r.ID)).Nodup)
    {r : FilaItem} (hr : r ∈ l) : l.filter (fun x => decide (x.ID = r.ID)) = [r] := by
  induction l with
  | nil => cases hr
  | cons a l ih =>
    simp only [List.map_cons, List.nodup_cons, List.mem_map, not_exists, not_and] at hpk
    rcases List.mem_cons.mp hr with rfl | hr
    · have : l.filter (fun x => decide (x.ID = r.ID)) = [] := by
        rw [List.filter_eq_nil_iff]
        intro x hx
        simpa using hpk.1 x hx
      simp [List.filter_cons, this]
    · have hne : a.ID ≠ r.ID := fun he => hpk.1 r hr he.symm
      simp [List.filter_cons, hne, ih hpk.2 hr]

theorem filter_id_map (F : FilaItem → FilaItem) (hF : ∀ r, (F r).ID = r.ID) (i : Int)
    (l : List FilaItem) :
    (l.map F).filter (fun x => decide (x.ID = i)) = (l.filter (fun x => decide (x.ID = i))).map F := by
  induction l with
  | nil => rfl
  | cons a l ih =>
    by_cases h : a.ID = i
    · simp [List.filter_cons, hF, h, ih]
    · simp [List.filter_cons, hF, h, ih]

theorem destRows_filter_same (g filaID : Int) (ns : List Node) :
    (destRows g filaID ns).filter (fun d => decide (d.FilaID = filaID)) = destRows g filaID ns := by
  rw [List.filter_eq_self]
  intro d hd
  simp [(destRows_mem hd).1]

theorem destRows_filter_other (g filaID other : Int) (ns : List Node) (h : filaID ≠ other) :
    (destRows g filaID ns).filter (fun d => decide (d.FilaID = other)) = [] := by
  rw [List.filter_eq_nil_iff]
  intro d hd
  simp [(destRows_mem hd).1, h]

theorem destRows_map_node (g filaID : Int) (ns : List Node) :
    (destRows g filaID ns).map (fun d => (d.NodeID, d.Status)) =
      ns.map (fun n => (n.NodeID, "P")) := by
  induction ns generalizing g with
  | nil => simp [destRows]
  | cons n ns ih => simp [destRows, ih]

/-- The exact shape of a run of the dispatcher loop over events with pairwise
distinct IDs: destination rows are appended, outbox rows are rewritten by a map
that keeps IDs, and each event of the batch ends in one of three ways: nothing
added and the row untouched; all its destination rows added and the row
untouched; all its destination rows added and the row marked Dispatched. -/
theorem dispatchLoop_spec (now : Nat) (nodes : List Node) (items : List FilaItem)
    (faults : Nat → ItemFaults) (s : DB) (hnd : (items.map (fun r => r.ID)).Nodup) :
    ∃ (added : List FilaDestino) (F : FilaItem → FilaItem),
      (dispatchLoop now faults nodes items s).destinos = s.destinos ++ added ∧
      (dispatchLoop now faults nodes items s).fila = s.fila.map F ∧
      (∀ r, (F r).ID = r.ID) ∧
      (∀ r, r.ID ∉ items.map (fun r => r.ID) → F r = r) ∧
      (∀ d ∈ added, d.FilaID ∈ items.map (fun r => r.ID)) ∧
      ∀ it ∈ items,
        (added.filter (fun d => decide (d.FilaID = it.ID)) = [] ∧ ∀ r, r.ID = it.ID → F r = r) ∨
        ((added.filter (fun d => decide (d.FilaID = it.ID))).map (fun d => (d.NodeID, d.Status)) =
            (targets nodes it.Origem).map (fun n => (n.NodeID, "P")) ∧
          ((∀ r, r.ID = it.ID → F r = r) ∨ (∀ r, r.ID = it.ID → F r = markDispatched now r))) := by
  induction items generalizing faults s with
  | nil => exact ⟨[], id, by simp [dispatchLoop], by simp [dispatchLoop], by simp, by simp, by simp, by simp⟩
  | cons it rest ih =>
    simp only [List.map_cons, List.nodup_cons] at hnd
    obtain ⟨hnotin, hnd'⟩ := hnd
    simp only [dispatchLoop]
    obtain ⟨added, F, hadd, hfila, hid, hout, hin, hper⟩ :=
      ih (fun k => faults (k + 1)) (dispatchItem now (faults 0) nodes it s) hnd'
    have hadd_it : added.filter (fun d => decide (d.FilaID = it.ID)) = [] := by
      rw [List.filter_eq_nil_iff]
      intro d hd
      have := hin d hd
      simp only [decide_eq_true_eq]
      intro he
      exact hnotin (he ▸ this)
    have hF_it : ∀ r, r.ID = it.ID → F r = r := fun r hr => hout r (hr ▸ hnotin)
    have hne : ∀ it' ∈ rest, it.ID ≠ it'.ID := by
      intro it' hit' he
      exact hnotin (he ▸ List.mem_map.mpr ⟨it', hit', rfl⟩)
    rcases dispatchItem_spec now (faults 0) nodes it s with h0 | ⟨hd0, _, _, hcase⟩
    · rw [h0] at hadd hfila ⊢
      refine ⟨added, F, hadd, hfila, hid, ?_, ?_, ?_⟩
      · intro r hr
        exact hout r (fun hm => hr (by simp [hm]))
      · intro d hd
        simp [hin d hd]
      · intro it' hit'
        rcases List.mem_cons.mp hit' with rfl | hit'
        · exact Or.inl ⟨hadd_it, hF_it⟩
        · exact hper it' hit'
    · have hD_it : ((destRows s.genDest it.ID (targets nodes it.Origem) ++ added).filter
            (fun d => decide (d.FilaID = it.ID))).map (fun d => (d.NodeID, d.Status)) =
          (targets nodes it.Origem).map (fun n => (n.NodeID, "P")) := by
        rw [List.filter_append, hadd_it, destRows_filter_same, List.append_nil, destRows_map_node]
      have hD_other : ∀ it' ∈ rest,
          (destRows s.genDest it.ID (targets nodes it.Origem) ++ added).filter
            (fun d => decide (d.FilaID = it'.ID)) =
          added.filter (fun d => decide (d.FilaID = it'.ID)) := by
        intro it' hit'
        rw [List.filter_append, destRows_filter_other _ _ _ _ (hne it' hit'), List.nil_append]
      have hin' : ∀ d ∈ destRows s.genDest it.ID (targets nodes it.Origem) ++ added,
          d.FilaID ∈ (it :: rest).map (fun r => r.ID) := by
        intro d hd
        rcases List.mem_append.mp hd with hd | hd
        · simp [(destRows_mem hd).1]
        · simp [hin d hd]
      rcases hcase with ⟨hf0, _⟩ | ⟨hf0, _⟩
      · refine ⟨destRows s.genDest it.ID (targets nodes it.Origem) ++ added, F, ?_, ?_, hid, ?_,
          hin', ?_⟩
        · rw [hadd, hd0, List.append_assoc]
        · rw [hfila, hf0]
        · intro r hr
          exact hout r (fun hm => hr (by simp [hm]))
        · intro it' hit'
          rcases List.mem_cons.mp hit' with rfl | hit'
          · exact Or.inr ⟨hD_it, Or.inl hF_it⟩
          · rw [hD_other it' hit']
            exact hper it' hit'
      · have hmark : ∀ r : FilaItem, (markDispatched now r).ID = r.ID := fun r => rfl
        refine ⟨destRows s.genDest it.ID (targets nodes it.Origem) ++ added,
          fun r => F (if r.ID = it.ID then markDispatched now r else r), ?_, ?_, ?_, ?_, hin', ?_⟩
        · rw [hadd, hd0, List.append_assoc]
        · rw [hfila, hf0, List.map_map]
          rfl
        · intro r
          by_cases hr : r.ID = it.ID
          · simp [hr, hid, hmark]
          · simp [hr, hid]
        · intro r hr
          have h1 : r.ID ≠ it.ID := fun he => hr (by simp [he])
          simp only [h1, if_false]
          exact hout r (fun hm => hr (by simp [hm]))
        · intro it' hit'
          rcases List.mem_cons.mp hit' with rfl | hit'
          · refine Or.inr ⟨hD_it, Or.inr ?_⟩
            intro r hr
            simp only [hr, if_true]
            exact hout _ (by rw [hmark, hr]; exact hnotin)
          · rw [hD_other it' hit']
            have hsame : ∀ r : FilaItem, r.ID = it'.ID →
                F (if r.ID = it.ID then markDispatched now r else r) = F r := by
              intro r hr
              have : r.ID ≠ it.ID := fun he => hne it' hit' (he.symm.trans hr)
              simp [this]
            rcases hper it' hit' with ⟨ha, hb⟩ | ⟨ha, hb | hb⟩
            · exact Or.inl ⟨ha, fun r hr => (hsame r hr).trans (hb r hr)⟩
            · exact Or.inr ⟨ha, Or.inl (fun r hr => (hsame r hr).trans (hb r hr))⟩
            · exact Or.inr ⟨ha, Or.inr (fun r hr => (hsame r hr).trans (hb r hr))⟩

/-- A dispatcher tick either changes nothing or is the loop over the fetched
batch with the active peers. -/
theorem dispatchEvents_cases (env : DispatchEnv) (cfg : Config) (s : DB) :
    dispatchEvents env cfg s = s ∨
    ∃ items, GetPending env.getPendingFails cfg.Integracao.BatchSize s = Except.ok items ∧
      env.getActiveNodesFails = false ∧
      dispatchEvents env cfg s = dispatchLoop env.now env.item (activeNodes s) items s := by
  unfold dispatchEvents
  cases hp : GetPending env.getPendingFails cfg.Integracao.BatchSize s with
  | error e => simp
  | ok items =>
    simp only
    split
    · simp
    · cases hn : GetActiveNodes env.getActiveNodesFails s with
      | error e => simp
      | ok nodes =>
        right
        have hq : env.getActiveNodesFails = false := by
          unfold GetActiveNodes at hn
          split at hn
          · cases hn
          · simpa using ‹¬ env.getActiveNodesFails = true›
        exact ⟨items, rfl, hq, by rw [GetActiveNodes_ok hn]⟩

theorem dispatchItem_no_peers (now : Nat) (f : ItemFaults) (it : FilaItem) (s : DB)
    (hb : f.create.beginFails = false) (hc : f.create.commitFails = false)
    (hu : f.updateStatusFails = false) :
    dispatchItem now f [] it s =
      { s with fila := s.fila.map (fun r => if r.ID = it.ID then markDispatched now r else r) } := by
  simp [dispatchItem, CreateDestinations, createLoop, UpdateStatus, hb, hc, hu, markDispatched]

/-- Without peers and without faults the loop only rewrites outbox rows: IDs are
kept, a Dispatched row stays Dispatched, and every row with the ID of an event
of the batch ends Dispatched. -/
theorem dispatchLoop_no_peers (now : Nat) (items : List FilaItem) (faults : Nat → ItemFaults)
    (s : DB)
    (hq : ∀ k, (faults k).create.beginFails = false ∧ (faults k).create.commitFails = false ∧
      (faults k).updateStatusFails = false) :
    ∃ F : FilaItem → FilaItem,
      (dispatchLoop now faults [] items s).fila = s.fila.map F ∧
      (dispatchLoop now faults [] items s).destinos = s.destinos ∧
      ∀ r, (F r).ID = r.ID ∧ (r.Status = "D" → (F r).Status = "D") ∧
        (r.ID ∈ items.map (fun x => x.ID) → (F r).Status = "D") := by
  induction items generalizing faults s with
  | nil => exact ⟨id, by simp [dispatchLoop], by simp [dispatchLoop], by simp⟩
  | cons it rest ih =>
    simp only [dispatchLoop]
    rw [dispatchItem_no_peers now (faults 0) it s (hq 0).1 (hq 0).2.1 (hq 0).2.2]
    obtain ⟨F, hfila, hdest, hF⟩ := ih (fun k => faults (k + 1))
      { s with fila := s.fila.map (fun r => if r.ID = it.ID then markDispatched now r else r) }
      (fun k => hq (k + 1))
    refine ⟨fun r => F (if r.ID = it.ID then markDispatched now r else r), ?_, hdest, ?_⟩
    · rw [hfila, List.map_map]
      rfl
    · intro r
      by_cases hr : r.ID = it.ID
      · simp only [hr, if_true]
        have h1 := hF (markDispatched now r)
        refine ⟨by rw [h1.1]; exact hr, fun _ => h1.2.1 rfl, fun _ => h1.2.1 rfl⟩
      · simp only [hr, if_false]
        have h1 := hF r
        refine ⟨h1.1, h1.2.1, ?_⟩
        intro hm
        simp only [List.map_cons, List.mem_cons] at hm
        rcases hm with hm | hm
        · exact absurd hm hr
        · exact h1.2.2 hm

/-! ## Dispatcher: the claims -/

/-- C6: every destination row a dispatcher tick inserts was inserted for an event
fetched by the tick (a Pending or Retry row of the outbox), references that
event, and its `NODE_ID` differs from the event's `ORIGEM`; the tick only
appends to `FILA_DESTINOS`. -/
theorem dispatchEvents_never_targets_origin (env : DispatchEnv) (cfg : Config) (s : DB) :
    ∃ added, (dispatchEvents env cfg s).destinos = s.destinos ++ added ∧
      ∀ d ∈ added, ∃ it ∈ s.fila, pendingStatus it.Status = true ∧ d.FilaID = it.ID ∧
        d.NodeID ≠ it.Origem := by
  unfold dispatchEvents
  cases hp : GetPending env.getPendingFails cfg.Integracao.BatchSize s with
  | error e => exact ⟨[], by simp⟩
  | ok items =>
    simp only
    split
    · exact ⟨[], by simp⟩
    · cases hn : GetActiveNodes env.getActiveNodesFails s with
      | error e => exact ⟨[], by simp⟩
      | ok nodes =>
        simp only
        obtain ⟨added, hadd, hprop⟩ := dispatchLoop_added env.now nodes items env.item s
        refine ⟨added, hadd, ?_⟩
        intro d hd
        obtain ⟨it, hit, h1, h2, _⟩ := hprop d hd
        exact ⟨it, (GetPending_mem hp it hit).1, (GetPending_mem hp it hit).2, h1, h2⟩

/-- C7: a successful `CreateDestinations` appends to `FILA_DESTINOS` exactly one
row per peer whose node id differs from the origin, in the order of the peers,
each with the given event id and status `P`; with distinct peer ids each such
peer has exactly one row and the origin has none; the other tables are left as
they were. -/
theorem CreateDestinations_rows (f : TxFaults) (filaID : Int) (nodes : List Node)
    (origin : String) (s s1 : DB)
    (hnodup : (nodes.map (fun n => n.NodeID)).Nodup)
    (hok : CreateDestinations f filaID nodes origin s = Except.ok s1) :
    ∃ added, s1.destinos = s.destinos ++ added ∧
      added.map (fun d => (d.FilaID, d.NodeID, d.Status)) =
        (nodes.filter (fun n => decide (n.NodeID ≠ origin))).map (fun n => (filaID, n.NodeID, "P")) ∧
      (∀ n ∈ nodes, n.NodeID ≠ origin → (added.map (fun d => d.NodeID)).count n.NodeID = 1) ∧
      (added.map (fun d => d.NodeID)).count origin = 0 ∧
      s1.fila = s.fila ∧ s1.nodes = s.nodes ∧ s1.tables = s.tables := by
  obtain ⟨hd, hf, hn, ht⟩ := CreateDestinations_spec hok
  refine ⟨destRows s.genDest filaID (targets nodes origin), hd, destRows_map _ _ _, ?_, ?_, hf, hn, ht⟩
  · intro n hn hne
    have hmap : (destRows s.genDest filaID (targets nodes origin)).map (fun d => d.NodeID) =
        (targets nodes origin).map (fun n => n.NodeID) := by
      have := congrArg (List.map (fun t : Int × String × String => t.2.1))
        (destRows_map s.genDest filaID (targets nodes origin))
      simpa [List.map_map, Function.comp] using this
    rw [hmap]
    apply List.count_eq_one_of_mem
    · exact (hnodup.sublist ((List.filter_sublist _).map _))
    · exact List.mem_map.mpr ⟨n, targets_mem.mpr ⟨hn, hne⟩, rfl⟩
  · rw [List.count_eq_zero]
    intro hmem
    obtain ⟨d, hd', hdo⟩ := List.mem_map.mp hmem
    obtain ⟨_, _, _, n, hn, hnn⟩ := destRows_mem hd'
    exact (targets_mem.mp hn).2 (by rw [hnn, hdo])

/-- C7 at the scenario of the specification: peers `A`, `B`, `C` and origin `A`
give exactly the two rows for `B` and `C`. -/
theorem CreateDestinations_rows_witness :
    ((activeNodes fanoutDB).map (fun n => n.NodeID)).Nodup ∧
    CreateDestinations noItemFaults.create 1 (activeNodes fanoutDB) "A" fanoutDB
      = Except.ok fanoutCreated ∧
    fanoutCreated.destinos.map (fun d => (d.FilaID, d.NodeID, d.Status))
      = [(1, "B", "P"), (1, "C", "P")] ∧
    ∃ added, fanoutCreated.destinos = fanoutDB.destinos ++ added ∧
      added.map (fun d => (d.FilaID, d.NodeID, d.Status)) =
        ((activeNodes fanoutDB).filter (fun n => decide (n.NodeID ≠ "A"))).map
          (fun n => ((1 : Int), n.NodeID, "P")) :=
  ⟨by decide, by decide, by decide,
   (CreateDestinations_rows noItemFaults.create 1 (activeNodes fanoutDB) "A" fanoutDB
      fanoutCreated (by decide) (by decide)).imp (fun _ h => ⟨h.1, h.2.1⟩)⟩

/-- C8 (counterexample): in a tick in which the status update of the event fails,
the two destination rows of the event are committed and the event is still
Pending: the two writes are not one transaction. -/
theorem dispatchEvents_not_atomic :
    ((dispatchEvents statusUpdateFails cfgA fanoutDB).destinos.map
      (fun d => (d.FilaID, d.NodeID, d.Status))) = [(1, "B", "P"), (1, "C", "P")] ∧
    ((dispatchEvents statusUpdateFails cfgA fanoutDB).fila.map (fun r => (r.ID, r.Status))) =
      [(1, "P")] := by
  decide

/-- C8 (amended): with outbox IDs pairwise distinct (primary key), a dispatcher
tick treats every event in one of these ways, whatever fails: it adds no
destination row for the event and leaves the event row as it was; or it adds
the complete set of destination rows of the event (one row in status `P` per
active peer other than the origin, inserted by one transaction) and then either
marks the event Dispatched or leaves the event row as it was.  So an event is
marked Dispatched only together with all its destination rows, and a failed
insert leaves no destination row behind. -/
theorem dispatchEvents_all_or_nothing (env : DispatchEnv) (cfg : Config) (s : DB)
    (hpk : (s.fila.map (fun r => r.ID)).Nodup) :
    ∀ r ∈ s.fila,
      ((addedDestinos s (dispatchEvents env cfg s)).filter (fun d => decide (d.FilaID = r.ID)) = [] ∧
        (dispatchEvents env cfg s).fila.filter (fun x => decide (x.ID = r.ID)) = [r]) ∨
      (((addedDestinos s (dispatchEvents env cfg s)).filter
            (fun d => decide (d.FilaID = r.ID))).map (fun d => (d.NodeID, d.Status)) =
          (targets (activeNodes s) r.Origem).map (fun n => (n.NodeID, "P")) ∧
        ((dispatchEvents env cfg s).fila.filter (fun x => decide (x.ID = r.ID)) = [r] ∨
         (dispatchEvents env cfg s).fila.filter (fun x => decide (x.ID = r.ID)) =
            [markDispatched env.now r])) := by
  intro r hr
  have hsingle := filter_id_of_nodup hpk hr
  rcases dispatchEvents_cases env cfg s with h0 | ⟨items, hitems, _, hloop⟩
  · left
    rw [h0]
    exact ⟨by simp [addedDestinos], hsingle⟩
  · obtain ⟨added, F, hadd, hfila, hid, hout, hin, hper⟩ :=
      dispatchLoop_spec env.now (activeNodes s) items env.item s (GetPending_nodup hpk hitems)
    rw [hloop]
    have hA : addedDestinos s (dispatchLoop env.now env.item (activeNodes s) items s) = added := by
      simp [addedDestinos, hadd]
    have hrows : (dispatchLoop env.now env.item (activeNodes s) items s).fila.filter
        (fun x => decide (x.ID = r.ID)) = [F r] := by
      rw [hfila, filter_id_map F hid, hsingle]
      rfl
    rw [hA, hrows]
    by_cases hmem : r ∈ items
    · rcases hper r hmem with ⟨ha, hb⟩ | ⟨ha, hb | hb⟩
      · exact Or.inl ⟨ha, by rw [hb r rfl]⟩
      · exact Or.inr ⟨ha, Or.inl (by rw [hb r rfl])⟩
      · exact Or.inr ⟨ha, Or.inr (by rw [hb r rfl])⟩
    · have hnot : r.ID ∉ items.map (fun r => r.ID) := by
        intro hm
        obtain ⟨it, hit, he⟩ := List.mem_map.mp hm
        have hit' := (GetPending_mem hitems it hit).1
        have : it = r := List.inj_on_of_nodup_map hpk hit' hr he
        exact hmem (this ▸ hit)
      left
      refine ⟨?_, by rw [hout r hnot]⟩
      rw [List.filter_eq_nil_iff]
      intro d hd
      simp only [decide_eq_true_eq]
      intro he
      exact hnot (he ▸ hin d hd)

/-- C8 (amended) at a concrete input: the three peers, no fault: the event gets
its two destination rows and is marked Dispatched. -/
theorem dispatchEvents_all_or_nothing_witness :
    (fanoutDB.fila.map (fun r => r.ID)).Nodup ∧
    ((addedDestinos fanoutDB (dispatchEvents quietDispatch cfgA fanoutDB)).map
      (fun d => (d.FilaID, d.NodeID, d.Status)) = [(1, "B", "P"), (1, "C", "P")]) ∧
    ((dispatchEvents quietDispatch cfgA fanoutDB).fila = [markDispatched 9 eventoLocal]) ∧
    (((addedDestinos fanoutDB (dispatchEvents quietDispatch cfgA fanoutDB)).filter
        (fun d => decide (d.FilaID = eventoLocal.ID)) = [] ∧
      (dispatchEvents quietDispatch cfgA fanoutDB).fila.filter
        (fun x => decide (x.ID = eventoLocal.ID)) = [eventoLocal]) ∨
     (((addedDestinos fanoutDB (dispatchEvents quietDispatch cfgA fanoutDB)).filter
          (fun d => decide (d.FilaID = eventoLocal.ID))).map (fun d => (d.NodeID, d.Status)) =
        (targets (activeNodes fanoutDB) eventoLocal.Origem).map (fun n => (n.NodeID, "P")) ∧
      ((dispatchEvents quietDispatch cfgA fanoutDB).fila.filter
          (fun x => decide (x.ID = eventoLocal.ID)) = [eventoLocal] ∨
       (dispatchEvents quietDispatch cfgA fanoutDB).fila.filter
          (fun x => decide (x.ID = eventoLocal.ID)) = [markDispatched quietDispatch.now eventoLocal]))) :=
  ⟨by decide, by decide, by decide,
   dispatchEvents_all_or_nothing quietDispatch cfgA fanoutDB (by decide) eventoLocal (by decide)⟩

/-- C9 (counterexample): with no peer registered, a tick in which nothing fails
marks the Pending event Dispatched; it creates no destination row, and the next
fetch of Pending events no longer returns the event. -/
theorem dispatchEvents_no_peers_dispatches :
    activeNodes lonelyDB = [] ∧
    lonelyDB.fila.map (fun r => (r.ID, r.Status)) = [(1, "P")] ∧
    (dispatchEvents quietDispatch cfgA lonelyDB).fila.map (fun r => (r.ID, r.Status)) = [(1, "D")] ∧
    (dispatchEvents quietDispatch cfgA lonelyDB).destinos = [] ∧
    GetPending false 10 (dispatchEvents quietDispatch cfgA lonelyDB) = Except.ok [] := by
  decide

/-- C9 (amended): when no peer is active and no database call of the tick fails,
the tick creates no destination row and every event it fetched is in status `D`
(Dispatched) afterwards: each fetched event still has its outbox row, and every
outbox row with its ID has status `D`. -/
theorem dispatchEvents_no_peers (env : DispatchEnv) (cfg : Config) (s : DB)
    (items : List FilaItem)
    (hnone : activeNodes s = [])
    (hitems : GetPending env.getPendingFails cfg.Integracao.BatchSize s = Except.ok items)
    (hnodes : env.getActiveNodesFails = false)
    (hquiet : ∀ k, (env.item k).create.beginFails = false ∧
      (env.item k).create.commitFails = false ∧ (env.item k).updateStatusFails = false) :
    (dispatchEvents env cfg s).destinos = s.destinos ∧
    ∀ it ∈ items,
      (∃ r ∈ (dispatchEvents env cfg s).fila, r.ID = it.ID) ∧
      ∀ r ∈ (dispatchEvents env cfg s).fila, r.ID = it.ID → r.Status = "D" := by
  unfold dispatchEvents
  rw [hitems]
  simp only
  split
  · next hlen =>
    have : items = [] := List.length_eq_zero.mp hlen
    subst this
    simp
  · have hn : GetActiveNodes env.getActiveNodesFails s = Except.ok [] := by
      simp [GetActiveNodes, hnodes, ← hnone, activeNodes]
    rw [hn]
    simp only
    obtain ⟨F, hfila, hdest, hF⟩ := dispatchLoop_no_peers env.now items env.item s hquiet
    refine ⟨hdest, ?_⟩
    intro it hit
    rw [hfila]
    constructor
    · exact ⟨F it, List.mem_map.mpr ⟨it, (GetPending_mem hitems it hit).1, rfl⟩, (hF it).1⟩
    · intro r hr hid
      obtain ⟨r0, _, rfl⟩ := List.mem_map.mp hr
      apply (hF r0).2.2
      rw [(hF r0).1] at hid
      exact List.mem_map.mpr ⟨it, hit, hid.symm⟩

/-- C9 (amended) at a concrete input: the Pending event of the database without
peers. -/
theorem dispatchEvents_no_peers_witness :
    activeNodes lonelyDB = [] ∧
    GetPending quietDispatch.getPendingFails cfgA.Integracao.BatchSize lonelyDB
      = Except.ok [eventoLocal] ∧
    ((dispatchEvents quietDispatch cfgA lonelyDB).destinos = lonelyDB.destinos ∧
     ∀ it ∈ [eventoLocal],
      (∃ r ∈ (dispatchEvents quietDispatch cfgA lonelyDB).fila, r.ID = it.ID) ∧
      ∀ r ∈ (dispatchEvents quietDispatch cfgA lonelyDB).fila, r.ID = it.ID → r.Status = "D") :=
  ⟨by decide, by decide,
   dispatchEvents_no_peers quietDispatch cfgA lonelyDB [eventoLocal] (by decide) (by decide) rfl
     (fun _ => ⟨rfl, rfl, rfl⟩)⟩

/-! ## Sender: basic facts -/

theorem sendStep_refl (a : Bool) (d : FilaDestino) : sendStep a d d :=
  ⟨rfl, rfl, rfl, Or.inl rfl⟩

theorem sendStep_trans {a : Bool} {d1 d2 d3 : FilaDestino} (h1 : sendStep a d1 d2)
    (h2 : sendStep a d2 d3) : sendStep a d1 d3 := by
  obtain ⟨i1, f1, n1, c1⟩ := h1
  obtain ⟨i2, f2, n2, c2⟩ := h2
  refine ⟨i2.trans i1, f2.trans f1, n2.trans n1, ?_⟩
  rcases c2 with rfl | c2
  · exact c1
  · exact Or.inr c2

theorem sendSteps_refl (a : Bool) (s : DB) : sendSteps a s s :=
  ⟨id, by simp, fun d => sendStep_refl a d⟩

theorem sendSteps_trans {a : Bool} {s1 s2 s3 : DB} (h1 : sendSteps a s1 s2)
    (h2 : sendSteps a s2 s3) : sendSteps a s1 s3 := by
  obtain ⟨G1, e1, p1⟩ := h1
  obtain ⟨G2, e2, p2⟩ := h2
  exact ⟨fun d => G2 (G1 d), by rw [e2, e1, List.map_map]; rfl,
    fun d => sendStep_trans (p1 d) (p2 (G1 d))⟩

theorem markDestino_steps (a : Bool) (env : SendEnv) (id : Int) (status erroMsg : String)
    (s : DB) (hst : status = "R" ∨ (a = true ∧ status = "E")) :
    sendSteps a s (markDestino env id status erroMsg s) := by
  unfold markDestino UpdateDestinoStatus
  by_cases hf : env.updateFails id = true
  · simp only [hf, if_true]
    exact sendSteps_refl a s
  · simp only [hf, Bool.false_eq_true, if_false]
    refine ⟨_, rfl, ?_⟩
    intro d
    by_cases hd : d.ID = id
    · simp only [hd, if_true]
      refine ⟨hd.symm, rfl, rfl, ?_⟩
      rcases hst with h | ⟨h1, h2⟩
      · exact Or.inr (Or.inr h)
      · exact Or.inr (Or.inl ⟨h1, h2⟩)
    · simp only [hd, if_false]
      exact sendStep_refl a d

theorem sendTasks_steps (a : Bool) (env : SendEnv) (p : Poller) (nodeID remoteURL : String)
    (tasks : List DestinoTask) (s : DB)
    (ha : a = false → p.cfg.Relay.Enabled = false ∧ ∀ id, env.post id ≠ none) :
    sendSteps a s (sendTasks env p nodeID remoteURL tasks s).1 := by
  induction tasks generalizing s with
  | nil => exact sendSteps_refl a s
  | cons task rest ih =>
    simp only [sendTasks]
    split
    · next hrelay =>
      have hsent : a = true := by
        cases a with
        | true => rfl
        | false => simp [(ha rfl).1] at hrelay
      exact sendSteps_trans (markDestino_steps a env _ "E" "" s (Or.inr ⟨hsent, rfl⟩)) (ih _)
    · split
      · exact ih s
      · split
        · next e _ => exact markDestino_steps a env _ "R" e s (Or.inl rfl)
        · next hpost =>
          have hsent : a = true := by
            cases a with
            | true => rfl
            | false => exact absurd hpost ((ha rfl).2 _)
          exact sendSteps_trans (markDestino_steps a env _ "E" "" s (Or.inr ⟨hsent, rfl⟩)) (ih _)

theorem sendGroups_steps (a : Bool) (env : SendEnv) (p : Poller) (nodes : List Node)
    (dests : List DestinoTask) (keys : List String) (s : DB)
    (ha : a = false → p.cfg.Relay.Enabled = false ∧ ∀ id, env.post id ≠ none) :
    sendSteps a s (sendGroups env p nodes dests keys s).1 := by
  induction keys generalizing s with
  | nil => exact sendSteps_refl a s
  | cons k rest ih =>
    simp only [sendGroups]
    split
    · exact ih s
    · exact sendSteps_trans (sendTasks_steps a env p _ _ _ s ha) (ih _)

theorem sendEvents_steps (a : Bool) (env : SendEnv) (p : Poller) (s : DB)
    (ha : a = false → p.cfg.Relay.Enabled = false ∧ ∀ id, env.post id ≠ none) :
    sendSteps a s (sendEvents env p s).1 := by
  unfold sendEvents
  split
  · exact sendSteps_refl a s
  · split
    · exact sendSteps_refl a s
    · exact sendGroups_steps a env p _ _ _ s ha

theorem sendTicks_steps (a : Bool) (p : Poller) (envs : List SendEnv) (s : DB)
    (ha : a = false → p.cfg.Relay.Enabled = false ∧ ∀ env ∈ envs, ∀ id, env.post id ≠ none) :
    sendSteps a s (sendTicks p envs s) := by
  induction envs generalizing s with
  | nil => exact sendSteps_refl a s
  | cons env rest ih =>
    simp only [sendTicks]
    refine sendSteps_trans (sendEvents_steps a env p s ?_) (ih _ ?_)
    · intro h
      exact ⟨(ha h).1, (ha h).2 env (by simp)⟩
    · intro h
      exact ⟨(ha h).1, fun e he => (ha h).2 e (by simp [he])⟩

/-! ## Sender: the shape of a tick -/

theorem untilFailure_sublist (post : Int → Option String) (tasks : List DestinoTask) :
    (untilFailure post tasks).Sublist tasks := by
  induction tasks with
  | nil => exact List.Sublist.refl _
  | cons t ts ih =>
    simp only [untilFailure]
    split
    · exact (List.Sublist.cons₂ t (List.nil_sublist ts))
    · exact List.Sublist.cons₂ t ih

theorem handled_sublist (env : SendEnv) (p : Poller) (url : String) (tasks : List DestinoTask) :
    (handled env p url tasks).Sublist tasks := by
  unfold handled
  split
  · exact List.Sublist.refl _
  · split
    · exact List.nil_sublist _
    · exact untilFailure_sublist _ _

/-- The inner loop, with its `continue` and `break`, hands over exactly the tasks
of `handled`, in order, and applies the status update of each. -/
theorem sendTasks_spec (env : SendEnv) (p : Poller) (nodeID url : String)
    (tasks : List DestinoTask) (s : DB) :
    sendTasks env p nodeID url tasks s =
      ((handled env p url tasks).foldl (outcome env p) s,
       (handled env p url tasks).map (emissionOf env p nodeID url)) := by
  induction tasks generalizing s with
  | nil => simp [sendTasks, handled, untilFailure]
  | cons t ts ih =>
    by_cases hr : relayMode p = true
    · have hr' : (p.cfg.Relay.Enabled && p.relay) = true := hr
      simp only [sendTasks, hr', if_true, ih]
      simp [handled, hr, outcome, emissionOf]
    · have hr' : ¬ (p.cfg.Relay.Enabled && p.relay) = true := hr
      by_cases hu : url = ""
      · subst hu
        simp only [sendTasks, hr', if_false, if_true, ih]
        simp [handled, hr]
      · simp only [sendTasks, hr', if_false, hu]
        cases hp : env.post t.dest.ID with
        | some e => simp [handled, hr, hu, untilFailure, hp, outcome, emissionOf]
        | none =>
          simp only [ih]
          simp [handled, hr, hu, untilFailure, hp, outcome, emissionOf]

/-- The outer loop hands over the handled tasks of each node in turn. -/
theorem sendGroups_spec (env : SendEnv) (p : Poller) (nodes : List Node)
    (dests : List DestinoTask) (keys : List String) (s : DB) :
    sendGroups env p nodes dests keys s =
      ((keys.flatMap (fun k => handled env p (nodeURL nodes k) (tasksOf dests k))).foldl
          (outcome env p) s,
       keys.flatMap (fun k => (handled env p (nodeURL nodes k) (tasksOf dests k)).map
          (emissionOf env p k (nodeURL nodes k)))) := by
  induction keys generalizing s with
  | nil => simp [sendGroups]
  | cons k rest ih =>
    simp only [sendGroups]
    split
    · next hskip =>
      have hnone : handled env p (nodeURL nodes k) (tasksOf dests k) = [] := by
        simp [handled, relayMode, hskip.1, hskip.2]
      rw [ih]
      simp [List.flatMap_cons, hnone]
    · rw [ih, sendTasks_spec]
      simp [List.flatMap_cons, List.foldl_append, tasksOf]

/-- A sender tick that fetched `dests` hands over `handledAll` and applies the
status update of each handled task. -/
theorem sendEvents_spec (env : SendEnv) (p : Poller) (s : DB) (dests : List DestinoTask)
    (hdests : GetPendingDestinations env.getPendingDestinationsFails p.cfg.Integracao.BatchSize s
      = Except.ok dests) :
    sendEvents env p s =
      ((handledAll env p (nodesSeen env s) dests).foldl (outcome env p) s,
       (nodeKeys (dests.map (fun t => t.dest.NodeID))).flatMap
          (fun k => (handled env p (nodeURL (nodesSeen env s) k) (tasksOf dests k)).map
            (emissionOf env p k (nodeURL (nodesSeen env s) k)))) := by
  unfold sendEvents
  rw [hdests]
  simp only
  split
  · next hlen =>
    have : dests = [] := List.length_eq_zero.mp hlen
    subst this
    simp [handledAll, nodeKeys]
  · rw [sendGroups_spec]
    rfl

/-- A sender tick whose fetch fails changes nothing and sends nothing. -/
theorem sendEvents_fetch_failed (env : SendEnv) (p : Poller) (s : DB) (e : String)
    (hdests : GetPendingDestinations env.getPendingDestinationsFails p.cfg.Integracao.BatchSize s
      = Except.error e) :
    sendEvents env p s = (s, []) := by
  unfold sendEvents
  rw [hdests]

/-! ## Sender: the fetched tasks -/

theorem filter_id_length_le_one {l : List FilaItem} (hpk : (l.map (fun r => r.ID)).Nodup)
    (i : Int) : (l.filter (fun x => decide (x.ID = i))).length ≤ 1 := by
  by_cases h : ∃ r ∈ l, r.ID = i
  · obtain ⟨r, hr, rfl⟩ := h
    rw [filter_id_of_nodup hpk hr]
    simp
  · have : l.filter (fun x => decide (x.ID = i)) = [] := by
      rw [List.filter_eq_nil_iff]
      intro x hx
      simp only [decide_eq_true_eq]
      exact fun he => h ⟨x, hx, he⟩
    simp [this]

theorem join_ids_sublist (fila : List FilaItem) (hpk : (fila.map (fun r => r.ID)).Nodup)
    (ds : List FilaDestino) :
    ((ds.flatMap (fun d => (fila.filter (fun f => decide (f.ID = d.FilaID))).map
        (fun f => ({ dest := d, Item := scanItem d f } : DestinoTask)))).map
      (fun t => t.dest.ID)).Sublist (ds.map (fun d => d.ID)) := by
  induction ds with
  | nil => simp
  | cons d ds ih =>
    simp only [List.flatMap_cons, List.map_append, List.map_cons, List.map_map]
    have hlen := filter_id_length_le_one hpk d.FilaID
    have hone : ((fila.filter (fun f => decide (f.ID = d.FilaID))).map
        ((fun t : DestinoTask => t.dest.ID) ∘
          (fun f => ({ dest := d, Item := scanItem d f } : DestinoTask)))).Sublist [d.ID] := by
      cases hf : fila.filter (fun f => decide (f.ID = d.FilaID)) with
      | nil => simp
      | cons a rest =>
        rw [hf] at hlen
        have : rest = [] := by
          cases rest with
          | nil => rfl
          | cons b r => simp at hlen
        subst this
        simp
    exact List.Sublist.append hone ih

/-- What `GetPendingDestinations` returns: rows of `FILA_DESTINOS` in status `P`
or `R`, each joined with an outbox row of its `FILA_ID`. -/
theorem GetPendingDestinations_mem {fails : Bool} {limit : Int} {s : DB}
    {dests : List DestinoTask} (h : GetPendingDestinations fails limit s = Except.ok dests) :
    ∀ t ∈ dests, t.dest ∈ s.destinos ∧ pendingStatus t.dest.Status = true ∧
      ∃ f ∈ s.fila, f.ID = t.dest.FilaID ∧ t.Item = scanItem t.dest f := by
  unfold GetPendingDestinations at h
  split at h
  · cases h
  · simp only at h
    split at h
    · cases h
      intro t ht
      have h1 := List.mem_of_mem_take ht
      simp only [List.mem_flatMap, List.mem_map, List.mem_filter, decide_eq_true_eq] at h1
      obtain ⟨d, hd, f, ⟨hf, hfid⟩, rfl⟩ := h1
      have h2 := (List.perm_insertionSort (fun a b : FilaDestino => a.ID ≤ b.ID) _).mem_iff.mp hd
      simp only [List.mem_filter] at h2
      exact ⟨h2.1, h2.2, f, hf, hfid, rfl⟩
    · cases h

/-- With the primary keys in place the fetched tasks are strictly increasing in
the destination ID. -/
theorem GetPendingDestinations_sorted {fails : Bool} {limit : Int} {s : DB}
    {dests : List DestinoTask}
    (hpk : (s.destinos.map (fun d => d.ID)).Nodup) (hfk : (s.fila.map (fun r => r.ID)).Nodup)
    (h : GetPendingDestinations fails limit s = Except.ok dests) :
    (dests.map (fun t => t.dest.ID)).Pairwise (· < ·) := by
  unfold GetPendingDestinations at h
  split at h
  · cases h
  · simp only at h
    split at h
    · cases h
      set ds := (s.destinos.filter (fun d => pendingStatus d.Status)).insertionSort
        (fun a b => a.ID ≤ b.ID) with hds
      haveI : IsTotal FilaDestino (fun a b => a.ID ≤ b.ID) := ⟨fun a b => le_total a.ID b.ID⟩
      haveI : IsTrans FilaDestino (fun a b => a.ID ≤ b.ID) := ⟨fun _ _ _ h1 h2 => le_trans h1 h2⟩
      have hsorted : (ds.map (fun d => d.ID)).Sorted (· ≤ ·) := by
        have := List.sorted_insertionSort (fun a b : FilaDestino => a.ID ≤ b.ID)
          (s.destinos.filter (fun d => pendingStatus d.Status))
        exact List.pairwise_map.mpr this
      have hnodup : (ds.map (fun d => d.ID)).Nodup := by
        have h1 : ((s.destinos.filter (fun d => pendingStatus d.Status)).map
            (fun d => d.ID)).Nodup := hpk.sublist ((List.filter_sublist _).map _)
        exact ((List.perm_insertionSort (fun a b : FilaDestino => a.ID ≤ b.ID)
          (s.destinos.filter (fun d => pendingStatus d.Status))).map
            (fun d => d.ID)).nodup_iff.mpr h1
      have hlt : (ds.map (fun d => d.ID)).Pairwise (· < ·) := hsorted.lt_of_le hnodup
      have hsub := join_ids_sublist s.fila hfk ds
      exact (hlt.sublist hsub).sublist ((List.take_sublist _ _).map _)
    · cases h

theorem pairwise_lt_nodup {l : List Int} (h : l.Pairwise (· < ·)) : l.Nodup :=
  h.imp (fun hab => ne_of_lt hab)

theorem nodeKeys_nodup (l : List String) : (nodeKeys l).Nodup := by
  induction l with
  | nil => simp [nodeKeys]
  | cons a rest ih =>
    simp only [nodeKeys, List.nodup_cons, List.mem_filter, decide_eq_true_eq, ne_eq,
      not_true_eq_false, and_false, not_false_eq_true, true_and]
    exact ih.sublist (List.filter_sublist _)

theorem handledAll_mem {env : SendEnv} {p : Poller} {nodes : List Node}
    {dests : List DestinoTask} {t : DestinoTask} (ht : t ∈ handledAll env p nodes dests) :
    t ∈ dests ∧ t ∈ handled env p (nodeURL nodes t.dest.NodeID) (tasksOf dests t.dest.NodeID) := by
  simp only [handledAll, List.mem_flatMap] at ht
  obtain ⟨k, _, hk⟩ := ht
  have h1 := (handled_sublist env p (nodeURL nodes k) (tasksOf dests k)).subset hk
  simp only [tasksOf, List.mem_filter, decide_eq_true_eq] at h1
  obtain ⟨hmem, hnode⟩ := h1
  subst hnode
  exact ⟨hmem, hk⟩

theorem handledAll_nodup (env : SendEnv) (p : Poller) (nodes : List Node)
    (dests : List DestinoTask) (hids : (dests.map (fun t => t.dest.ID)).Nodup) :
    ((handledAll env p nodes dests).map (fun t => t.dest.ID)).Nodup := by
  unfold handledAll
  rw [List.map_flatMap, List.nodup_flatMap]
  constructor
  · intro k _
    exact hids.sublist (((handled_sublist env p _ _).trans (List.filter_sublist _)).map _)
  · refine (nodeKeys_nodup _).imp ?_
    intro a b hab
    simp only [Function.onFun, List.disjoint_left, List.mem_map, not_exists, not_and]
    rintro i ⟨t, ht, rfl⟩ t' ht' he
    have h1 := (handled_sublist env p _ _).subset ht
    have h2 := (handled_sublist env p _ _).subset ht'
    simp only [tasksOf, List.mem_filter, decide_eq_true_eq] at h1 h2
    have : t' = t := List.inj_on_of_nodup_map hids h2.1 h1.1 he
    exact hab (by rw [← h1.2, ← h2.2, this])

/-! ## Sender: the rows after a tick -/

theorem filter_dest_of_nodup {l : List FilaDestino} (hpk : (l.map (fun d => d.ID)).Nodup)
    {d : FilaDestino} (hd : d ∈ l) : l.filter (fun x => decide (x.ID = d.ID)) = [d] := by
  induction l with
  | nil => cases hd
  | cons a l ih =>
    simp only [List.map_cons, List.nodup_cons, List.mem_map, not_exists, not_and] at hpk
    rcases List.mem_cons.mp hd with rfl | hd
    · have : l.filter (fun x => decide (x.ID = d.ID)) = [] := by
        rw [List.filter_eq_nil_iff]
        intro x hx
        simpa using hpk.1 x hx
      simp [List.filter_cons, this]
    · have hne : a.ID ≠ d.ID := fun he => hpk.1 d hd he.symm
      simp [List.filter_cons, hne, ih hpk.2 hd]

theorem filter_dest_map (F : FilaDestino → FilaDestino) (hF : ∀ d, (F d).ID = d.ID) (i : Int)
    (l : List FilaDestino) :
    (l.map F).filter (fun x => decide (x.ID = i)) =
      (l.filter (fun x => decide (x.ID = i))).map F := by
  induction l with
  | nil => rfl
  | cons a l ih =>
    by_cases h : a.ID = i
    · simp [List.filter_cons, hF, h, ih]
    · simp [List.filter_cons, hF, h, ih]

theorem markDestino_frame (env : SendEnv) (id : Int) (st msg : String) (s : DB) :
    (markDestino env id st msg s).fila = s.fila ∧
    (markDestino env id st msg s).genDest = s.genDest ∧
    (markDestino env id st msg s).nodes = s.nodes ∧
    (markDestino env id st msg s).destinos.map (fun d => d.ID) =
      s.destinos.map (fun d => d.ID) := by
  unfold markDestino UpdateDestinoStatus
  by_cases hf : env.updateFails id = true
  · simp [hf]
  · simp only [hf, Bool.false_eq_true, if_false]
    refine ⟨trivial, trivial, trivial, ?_⟩
    rw [List.map_map]
    apply List.map_congr_left
    intro d _
    simp only [Function.comp]
    split <;> rfl

/-- The rows with a given ID after `UpdateDestinoStatus` with its error dropped. -/
theorem markDestino_filter (env : SendEnv) (id : Int) (st msg : String) (s : DB) (i : Int) :
    (markDestino env id st msg s).destinos.filter (fun x => decide (x.ID = i)) =
      if i = id ∧ env.updateFails id = false then
        (s.destinos.filter (fun x => decide (x.ID = i))).map (fun d =>
          { d with Status := st, ERROMsg := some msg, DTUltTentativa := some env.now,
                   Tentativas := d.Tentativas + 1 })
      else s.destinos.filter (fun x => decide (x.ID = i)) := by
  unfold markDestino UpdateDestinoStatus
  by_cases hf : env.updateFails id = true
  · simp [hf]
  · have hf' : env.updateFails id = false := by simpa using hf
    simp only [hf, Bool.false_eq_true, if_false, hf', and_true]
    rw [filter_dest_map _ (by intro d; split <;> rfl)]
    by_cases hi : i = id
    · simp only [hi, if_true]
      apply List.map_congr_left
      intro d hd
      have : d.ID = id := by simpa using (List.mem_filter.mp hd).2
      simp [this]
    · simp only [hi, if_false]
      conv_rhs => rw [← List.map_id (List.filter _ s.destinos)]
      apply List.map_congr_left
      intro d hd
      have : d.ID = i := by simpa using (List.mem_filter.mp hd).2
      have hne : ¬ d.ID = id := fun h => hi (this.symm.trans h)
      simp [hne]

theorem outcome_frame (env : SendEnv) (p : Poller) (s : DB) (t : DestinoTask) :
    (outcome env p s t).fila = s.fila ∧ (outcome env p s t).genDest = s.genDest ∧
    (outcome env p s t).nodes = s.nodes ∧
    (outcome env p s t).destinos.map (fun d => d.ID) = s.destinos.map (fun d => d.ID) := by
  unfold outcome
  split
  · exact markDestino_frame _ _ _ _ _
  · split
    · exact markDestino_frame _ _ _ _ _
    · exact markDestino_frame _ _ _ _ _

/-- The rows with a given ID after the status update of one handled task. -/
theorem outcome_filter (env : SendEnv) (p : Poller) (s : DB) (t : DestinoTask) (i : Int) :
    (outcome env p s t).destinos.filter (fun x => decide (x.ID = i)) =
      if i = t.dest.ID ∧ env.updateFails t.dest.ID = false then
        (s.destinos.filter (fun x => decide (x.ID = i))).map (rowAfter env p)
      else s.destinos.filter (fun x => decide (x.ID = i)) := by
  by_cases hc : i = t.dest.ID ∧ env.updateFails t.dest.ID = false
  · have hrow : ∀ d ∈ s.destinos.filter (fun x => decide (x.ID = i)), d.ID = t.dest.ID := by
      intro d hd
      have : d.ID = i := by simpa using (List.mem_filter.mp hd).2
      exact this.trans hc.1
    rw [if_pos hc]
    unfold outcome
    by_cases hr : relayMode p = true
    · simp only [hr, if_true]
      rw [markDestino_filter, if_pos hc]
      apply List.map_congr_left
      intro d _
      simp [rowAfter, hr, sentRow]
    · simp only [hr, Bool.false_eq_true, if_false]
      cases hp : env.post t.dest.ID with
      | some e =>
        simp only
        rw [markDestino_filter, if_pos hc]
        apply List.map_congr_left
        intro d hd
        simp [rowAfter, hr, hrow d hd, hp, retryRow]
      | none =>
        simp only
        rw [markDestino_filter, if_pos hc]
        apply List.map_congr_left
        intro d hd
        simp [rowAfter, hr, hrow d hd, hp, sentRow]
  · rw [if_neg hc]
    unfold outcome
    split
    · rw [markDestino_filter, if_neg hc]
    · split
      · rw [markDestino_filter, if_neg hc]
      · rw [markDestino_filter, if_neg hc]

theorem fold_outcome_frame (env : SendEnv) (p : Poller) (H : List DestinoTask) (s : DB) :
    (H.foldl (outcome env p) s).fila = s.fila ∧ (H.foldl (outcome env p) s).genDest = s.genDest ∧
    (H.foldl (outcome env p) s).nodes = s.nodes ∧
    (H.foldl (outcome env p) s).destinos.map (fun d => d.ID) =
      s.destinos.map (fun d => d.ID) := by
  induction H generalizing s with
  | nil => simp
  | cons a rest ih =>
    simp only [List.foldl_cons]
    obtain ⟨h1, h2, h3, h4⟩ := ih (outcome env p s a)
    obtain ⟨g1, g2, g3, g4⟩ := outcome_frame env p s a
    exact ⟨h1.trans g1, h2.trans g2, h3.trans g3, h4.trans g4⟩

/-- A row whose ID is the ID of no handled task is not touched. -/
theorem fold_outcome_other (env : SendEnv) (p : Poller) (H : List DestinoTask) (s : DB) (i : Int)
    (hi : i ∉ H.map (fun t => t.dest.ID)) :
    (H.foldl (outcome env p) s).destinos.filter (fun x => decide (x.ID = i)) =
      s.destinos.filter (fun x => decide (x.ID = i)) := by
  induction H generalizing s with
  | nil => rfl
  | cons a rest ih =>
    simp only [List.map_cons, List.mem_cons, not_or] at hi
    simp only [List.foldl_cons]
    rw [ih _ hi.2, outcome_filter, if_neg (fun h => hi.1 h.1)]

/-- The row of a handled task whose status update does not fail is rewritten
once, by `rowAfter`. -/
theorem fold_outcome_same (env : SendEnv) (p : Poller) (H : List DestinoTask) (s : DB)
    (t : DestinoTask) (hnd : (H.map (fun t => t.dest.ID)).Nodup) (ht : t ∈ H)
    (hupd : env.updateFails t.dest.ID = false) :
    (H.foldl (outcome env p) s).destinos.filter (fun x => decide (x.ID = t.dest.ID)) =
      (s.destinos.filter (fun x => decide (x.ID = t.dest.ID))).map (rowAfter env p) := by
  induction H generalizing s with
  | nil => cases ht
  | cons a rest ih =>
    simp only [List.map_cons, List.nodup_cons] at hnd
    simp only [List.foldl_cons]
    rcases List.mem_cons.mp ht with rfl | ht
    · rw [fold_outcome_other env p rest _ _ hnd.1, outcome_filter, if_pos ⟨rfl, hupd⟩]
    · have hne : ¬ t.dest.ID = a.dest.ID := by
        intro he
        exact hnd.1 (List.mem_map.mpr ⟨t, ht, he⟩)
      rw [ih _ hnd.2 ht, outcome_filter, if_neg (fun h => hne h.1)]

theorem sendEvents_frame (env : SendEnv) (p : Poller) (s : DB) :
    (sendEvents env p s).1.fila = s.fila ∧ (sendEvents env p s).1.genDest = s.genDest ∧
    (sendEvents env p s).1.nodes = s.nodes ∧
    (sendEvents env p s).1.destinos.map (fun d => d.ID) = s.destinos.map (fun d => d.ID) := by
  cases hd : GetPendingDestinations env.getPendingDestinationsFails p.cfg.Integracao.BatchSize s with
  | error e =>
    rw [sendEvents_fetch_failed env p s e hd]
    exact ⟨rfl, rfl, rfl, rfl⟩
  | ok dests =>
    rw [sendEvents_spec env p s dests hd]
    exact fold_outcome_frame _ _ _ _

/-- The row of a handled task after the tick, when its status update does not
fail. -/
theorem sendEvents_row (env : SendEnv) (p : Poller) (s : DB) (dests : List DestinoTask)
    (t : DestinoTask)
    (hpk : (s.destinos.map (fun d => d.ID)).Nodup) (hfk : (s.fila.map (fun r => r.ID)).Nodup)
    (hdests : GetPendingDestinations env.getPendingDestinationsFails p.cfg.Integracao.BatchSize s
      = Except.ok dests)
    (ht : t ∈ handledAll env p (nodesSeen env s) dests)
    (hupd : env.updateFails t.dest.ID = false) :
    (sendEvents env p s).1.destinos.filter (fun x => decide (x.ID = t.dest.ID)) =
      [rowAfter env p t.dest] := by
  rw [sendEvents_spec env p s dests hdests]
  simp only
  have hids := pairwise_lt_nodup (GetPendingDestinations_sorted hpk hfk hdests)
  rw [fold_outcome_same env p _ s t (handledAll_nodup env p _ dests hids) ht hupd]
  have hmem := (GetPendingDestinations_mem hdests t (handledAll_mem ht).1).1
  rw [filter_dest_of_nodup hpk hmem]
  rfl

/-- A row whose ID is the ID of no handled task is as before the tick. -/
theorem sendEvents_untouched (env : SendEnv) (p : Poller) (s : DB) (dests : List DestinoTask)
    (hdests : GetPendingDestinations env.getPendingDestinationsFails p.cfg.Integracao.BatchSize s
      = Except.ok dests)
    (i : Int) (hi : ∀ t ∈ handledAll env p (nodesSeen env s) dests, t.dest.ID ≠ i) :
    (sendEvents env p s).1.destinos.filter (fun x => decide (x.ID = i)) =
      s.destinos.filter (fun x => decide (x.ID = i)) := by
  rw [sendEvents_spec env p s dests hdests]
  simp only
  apply fold_outcome_other
  intro hm
  obtain ⟨t, ht, he⟩ := List.mem_map.mp hm
  exact hi t ht he

/-- A sender tick does not touch a row that is neither Pending nor Retry. -/
theorem sendEvents_keeps_settled (env : SendEnv) (p : Poller) (s : DB) (d : FilaDestino)
    (hpk : (s.destinos.map (fun d => d.ID)).Nodup) (hd : d ∈ s.destinos)
    (hst : pendingStatus d.Status = false) :
    (sendEvents env p s).1.destinos.filter (fun x => decide (x.ID = d.ID)) = [d] := by
  cases hdests : GetPendingDestinations env.getPendingDestinationsFails
      p.cfg.Integracao.BatchSize s with
  | error e =>
    rw [sendEvents_fetch_failed env p s e hdests]
    exact filter_dest_of_nodup hpk hd
  | ok dests =>
    rw [sendEvents_untouched env p s dests hdests d.ID]
    · exact filter_dest_of_nodup hpk hd
    · intro t ht he
      obtain ⟨hmem, hpend, _⟩ := GetPendingDestinations_mem hdests t (handledAll_mem ht).1
      have : t.dest = d := List.inj_on_of_nodup_map hpk hmem hd he
      rw [this, hst] at hpend
      cases hpend

theorem sendEvents_keys (env : SendEnv) (p : Poller) (s : DB) (hk : keysOK s) :
    keysOK (sendEvents env p s).1 := by
  obtain ⟨h1, h2, _, h4⟩ := sendEvents_frame env p s
  obtain ⟨k1, k2, k3⟩ := hk
  refine ⟨by rw [h4]; exact k1, ?_, by rw [h1]; exact k3⟩
  intro d hd
  rw [h2]
  have hm : d.ID ∈ (sendEvents env p s).1.destinos.map (fun d => d.ID) :=
    List.mem_map.mpr ⟨d, hd, rfl⟩
  rw [h4] at hm
  obtain ⟨d0, hd0, he⟩ := List.mem_map.mp hm
  rw [← he]
  exact k2 d0 hd0

/-! ## Dispatcher: the keys of the destination table -/

theorem destRows_ids (g filaID : Int) (ns : List Node) :
    ∀ d ∈ destRows g filaID ns, g < d.ID ∧ d.ID ≤ g + ns.length := by
  induction ns generalizing g with
  | nil => simp [destRows]
  | cons n ns ih =>
    intro d hd
    simp only [destRows, List.mem_cons] at hd
    rcases hd with rfl | hd
    · simp only [List.length_cons, Nat.cast_add, Nat.cast_one]
      constructor <;> omega
    · have := ih (g + 1) d hd
      simp only [List.length_cons, Nat.cast_add, Nat.cast_one]
      constructor <;> omega

theorem destRows_nodup (g filaID : Int) (ns : List Node) :
    ((destRows g filaID ns).map (fun d => d.ID)).Nodup := by
  induction ns generalizing g with
  | nil => simp [destRows]
  | cons n ns ih =>
    simp only [destRows, List.map_cons, List.nodup_cons, List.mem_map, not_exists, not_and]
    refine ⟨?_, ih (g + 1)⟩
    intro d hd he
    have := (destRows_ids (g + 1) filaID ns d hd).1
    omega

theorem createLoop_genDest {filaID : Int} {ignoreNode : String} {execFails : Nat → Bool}
    {nodes : List Node} {tx tx1 : DB}
    (h : createLoop filaID ignoreNode execFails nodes tx = some tx1) :
    tx1.genDest = tx.genDest + (targets nodes ignoreNode).length := by
  induction nodes generalizing tx execFails with
  | nil => simp [createLoop] at h; subst h; simp [targets]
  | cons n ns ih =>
    simp only [createLoop] at h
    by_cases hn : n.NodeID = ignoreNode
    · simp only [hn, if_true] at h
      have := ih h
      simpa [targets, hn] using this
    · simp only [hn, if_false] at h
      split at h
      · cases h
      · split at h
        · cases h
        · next tx2 h2 =>
          obtain ⟨_, hg, _, _, _⟩ := insertDestino_spec h2
          have h3 := ih h
          have htg : targets (n :: ns) ignoreNode = n :: targets ns ignoreNode := by
            simp [targets, hn]
          rw [h3, hg, htg]
          simp only [targets, List.length_cons, Nat.cast_add, Nat.cast_one]
          omega

theorem CreateDestinations_genDest {f : TxFaults} {filaID : Int} {nodes : List Node}
    {ignoreNode : String} {s s1 : DB}
    (h : CreateDestinations f filaID nodes ignoreNode s = Except.ok s1) :
    s1.genDest = s.genDest + (targets nodes ignoreNode).length := by
  unfold CreateDestinations at h
  split at h
  · cases h
  · split at h
    · cases h
    · next tx hl =>
      split at h
      · cases h
      · cases h
        exact createLoop_genDest hl

/-- Rows appended with fresh generator values keep the key constraints. -/
theorem keysOK_grow {s s1 : DB} {filaID : Int} {ns : List Node} (hk : keysOK s)
    (hd : s1.destinos = s.destinos ++ destRows s.genDest filaID ns)
    (hg : s1.genDest = s.genDest + ns.length)
    (hf : s1.fila.map (fun r => r.ID) = s.fila.map (fun r => r.ID)) : keysOK s1 := by
  obtain ⟨k1, k2, k3⟩ := hk
  refine ⟨?_, ?_, by rw [hf]; exact k3⟩
  · rw [hd, List.map_append]
    refine List.Nodup.append k1 (destRows_nodup _ _ _) ?_
    simp only [List.disjoint_left, List.mem_map, not_exists, not_and]
    rintro i ⟨d, hdm, rfl⟩ d' hd' he
    have h1 := k2 d hdm
    have h2 := (destRows_ids _ _ _ d' hd').1
    omega
  · intro d hdm
    rw [hd] at hdm
    rw [hg]
    rcases List.mem_append.mp hdm with h | h
    · have := k2 d h
      omega
    · exact (destRows_ids _ _ _ d h).2

theorem dispatchItem_keys (now : Nat) (f : ItemFaults) (nodes : List Node) (it : FilaItem)
    (s : DB) (hk : keysOK s) :
    keysOK (dispatchItem now f nodes it s) ∧ s.genDest ≤ (dispatchItem now f nodes it s).genDest ∧
    ∃ added, (dispatchItem now f nodes it s).destinos = s.destinos ++ added ∧
      ∀ d ∈ added, s.genDest < d.ID := by
  unfold dispatchItem
  cases hc : CreateDestinations f.create it.ID nodes it.Origem s with
  | error e => exact ⟨hk, le_refl _, [], by simp, by simp⟩
  | ok s1 =>
    obtain ⟨hd, hf, _, _⟩ := CreateDestinations_spec hc
    have hg := CreateDestinations_genDest hc
    have hk1 : keysOK s1 := keysOK_grow hk hd hg (by rw [hf])
    have hadded : ∀ d ∈ destRows s.genDest it.ID (targets nodes it.Origem), s.genDest < d.ID :=
      fun d h => (destRows_ids _ _ _ d h).1
    unfold UpdateStatus
    by_cases hu : f.updateStatusFails = true
    · simp only [hu, if_true]
      exact ⟨hk1, by rw [hg]; omega, _, hd, hadded⟩
    · simp only [hu, Bool.false_eq_true, if_false]
      refine ⟨⟨hk1.1, hk1.2.1, ?_⟩, by show s.genDest ≤ s1.genDest; rw [hg]; omega, _, hd, hadded⟩
      have : (s1.fila.map (fun r =>
          if r.ID = it.ID then
            { r with Status := "D", ERROMsg := some "Evento despachado para nós ativos",
                     DTUltEnvio := some now, Tentativas := r.Tentativas + 1 }
          else r)).map (fun r => r.ID) = s1.fila.map (fun r => r.ID) := by
        rw [List.map_map]
        apply List.map_congr_left
        intro r _
        simp only [Function.comp]
        split <;> rfl
      show (List.map _ (List.map _ s1.fila)).Nodup
      rw [this]
      exact hk1.2.2

theorem dispatchLoop_keys (now : Nat) (nodes : List Node) (items : List FilaItem)
    (faults : Nat → ItemFaults) (s : DB) (hk : keysOK s) :
    keysOK (dispatchLoop now faults nodes items s) ∧
    s.genDest ≤ (dispatchLoop now faults nodes items s).genDest ∧
    ∃ added, (dispatchLoop now faults nodes items s).destinos = s.destinos ++ added ∧
      ∀ d ∈ added, s.genDest < d.ID := by
  induction items generalizing faults s with
  | nil => exact ⟨hk, le_refl _, [], by simp [dispatchLoop], by simp⟩
  | cons it rest ih =>
    simp only [dispatchLoop]
    obtain ⟨k0, g0, a0, hd0, ha0⟩ := dispatchItem_keys now (faults 0) nodes it s hk
    obtain ⟨k1, g1, a1, hd1, ha1⟩ := ih (fun k => faults (k + 1)) _ k0
    refine ⟨k1, le_trans g0 g1, a0 ++ a1, by rw [hd1, hd0, List.append_assoc], ?_⟩
    intro d hd
    rcases List.mem_append.mp hd with h | h
    · exact ha0 d h
    · exact lt_of_le_of_lt g0 (ha1 d h)

theorem dispatchEvents_keys (env : DispatchEnv) (cfg : Config) (s : DB) (hk : keysOK s) :
    keysOK (dispatchEvents env cfg s) ∧
    ∃ added, (dispatchEvents env cfg s).destinos = s.destinos ++ added ∧
      ∀ d ∈ added, s.genDest < d.ID := by
  rcases dispatchEvents_cases env cfg s with h | ⟨items, _, _, h⟩
  · rw [h]
    exact ⟨hk, [], by simp, by simp⟩
  · rw [h]
    obtain ⟨k1, _, a, hd, ha⟩ := dispatchLoop_keys env.now (activeNodes s) items env.item s hk
    exact ⟨k1, a, hd, ha⟩

/-- A dispatcher tick does not touch a destination row that exists. -/
theorem dispatchEvents_keeps (env : DispatchEnv) (cfg : Config) (s : DB) (d : FilaDestino)
    (hk : keysOK s) (hd : d ∈ s.destinos) :
    (dispatchEvents env cfg s).destinos.filter (fun x => decide (x.ID = d.ID)) = [d] := by
  obtain ⟨_, a, ha, hnew⟩ := dispatchEvents_keys env cfg s hk
  rw [ha, List.filter_append, filter_dest_of_nodup hk.1 hd]
  have : a.filter (fun x => decide (x.ID = d.ID)) = [] := by
    rw [List.filter_eq_nil_iff]
    intro x hx
    have h1 := hnew x hx
    have h2 := hk.2.1 d hd
    simp only [decide_eq_true_eq]
    omega
  rw [this, List.append_nil]

/-- A destination row that is neither Pending nor Retry is the same row after any
sequence of dispatcher and sender ticks. -/
theorem runTicks_keeps_settled (p : Poller) (ticks : List Tick) (s : DB) (d : FilaDestino)
    (hk : keysOK s) (hd : d ∈ s.destinos) (hst : pendingStatus d.Status = false) :
    (runTicks p ticks s).destinos.filter (fun x => decide (x.ID = d.ID)) = [d] := by
  induction ticks generalizing s with
  | nil => exact filter_dest_of_nodup hk.1 hd
  | cons t rest ih =>
    simp only [runTicks]
    have hstep : keysOK (runTick p t s) ∧
        (runTick p t s).destinos.filter (fun x => decide (x.ID = d.ID)) = [d] := by
      cases t with
      | dispatch env =>
        exact ⟨(dispatchEvents_keys env p.cfg s hk).1, dispatchEvents_keeps env p.cfg s d hk hd⟩
      | send env =>
        exact ⟨sendEvents_keys env p s hk, sendEvents_keeps_settled env p s d hk.1 hd hst⟩
    have hmem : d ∈ (runTick p t s).destinos := by
      have : d ∈ (runTick p t s).destinos.filter (fun x => decide (x.ID = d.ID)) := by
        rw [hstep.2]
        simp
      exact (List.mem_filter.mp this).1
    exact ih _ hstep.1 hmem

theorem runTicks_keys (p : Poller) (ticks : List Tick) (s : DB) (hk : keysOK s) :
    keysOK (runTicks p ticks s) := by
  induction ticks generalizing s with
  | nil => exact hk
  | cons t rest ih =>
    simp only [runTicks]
    apply ih
    cases t with
    | dispatch env => exact (dispatchEvents_keys env p.cfg s hk).1
    | send env => exact sendEvents_keys env p s hk

theorem nodeKeys_mem (a : String) (l : List String) : a ∈ nodeKeys l ↔ a ∈ l := by
  induction l with
  | nil => simp [nodeKeys]
  | cons b rest ih =>
    simp only [nodeKeys, List.mem_cons, List.mem_filter, decide_eq_true_eq, ih]
    by_cases h : a = b
    · simp [h]
    · simp [h]

theorem mem_handledAll {env : SendEnv} {p : Poller} {nodes : List Node}
    {dests : List DestinoTask} {t : DestinoTask} (ht : t ∈ dests)
    (hh : t ∈ handled env p (nodeURL nodes t.dest.NodeID) (tasksOf dests t.dest.NodeID)) :
    t ∈ handledAll env p nodes dests := by
  simp only [handledAll, List.mem_flatMap]
  exact ⟨t.dest.NodeID, (nodeKeys_mem _ _).mpr (List.mem_map.mpr ⟨t, ht, rfl⟩), hh⟩

theorem untilFailure_split {post : Int → Option String} {pre rest : List DestinoTask}
    {t : DestinoTask} {e : String} (hpre : ∀ x ∈ pre, post x.dest.ID = none)
    (hfail : post t.dest.ID = some e) : untilFailure post (pre ++ t :: rest) = pre ++ [t] := by
  induction pre with
  | nil => simp [untilFailure, hfail]
  | cons a pre ih =>
    have ha : post a.dest.ID = none := hpre a (by simp)
    have h1 := ih (fun x hx => hpre x (by simp [hx]))
    show untilFailure post (a :: (pre ++ t :: rest)) = a :: (pre ++ [t])
    simp only [untilFailure, ha, h1]

theorem rowAfter_sent (env : SendEnv) (p : Poller) (d : FilaDestino)
    (hok : relayMode p = true ∨ env.post d.ID = none) : rowAfter env p d = sentRow env.now d := by
  unfold rowAfter
  by_cases hr : relayMode p = true
  · simp [hr]
  · rcases hok with h | h
    · exact absurd h hr
    · simp [hr, h]

theorem sentRow_settled (now : Nat) (d : FilaDestino) :
    pendingStatus (sentRow now d).Status = false := by
  show pendingStatus "E" = false
  decide

theorem mem_of_filter_singleton {l : List FilaDestino} {i : Int} {d : FilaDestino}
    (h : l.filter (fun x => decide (x.ID = i)) = [d]) : d ∈ l := by
  have : d ∈ l.filter (fun x => decide (x.ID = i)) := by
    rw [h]
    simp
  exact (List.mem_filter.mp this).1

/-- A row whose status update fails is as before the tick. -/
theorem fold_outcome_update_failed (env : SendEnv) (p : Poller) (H : List DestinoTask) (s : DB)
    (i : Int) (hupd : env.updateFails i = true) :
    (H.foldl (outcome env p) s).destinos.filter (fun x => decide (x.ID = i)) =
      s.destinos.filter (fun x => decide (x.ID = i)) := by
  induction H generalizing s with
  | nil => rfl
  | cons a rest ih =>
    simp only [List.foldl_cons]
    rw [ih, outcome_filter, if_neg]
    rintro ⟨h1, h2⟩
    rw [← h1, hupd] at h2
    cases h2

/-- The row of a destination whose status update fails is as before the tick:
the error of `UpdateDestinoStatus` is dropped. -/
theorem sendEvents_update_failed (env : SendEnv) (p : Poller) (s : DB) (d : FilaDestino)
    (hpk : (s.destinos.map (fun d => d.ID)).Nodup) (hd : d ∈ s.destinos)
    (hupd : env.updateFails d.ID = true) :
    (sendEvents env p s).1.destinos.filter (fun x => decide (x.ID = d.ID)) = [d] := by
  cases hdests : GetPendingDestinations env.getPendingDestinationsFails
      p.cfg.Integracao.BatchSize s with
  | error e =>
    rw [sendEvents_fetch_failed env p s e hdests]
    exact filter_dest_of_nodup hpk hd
  | ok dests =>
    rw [sendEvents_spec env p s dests hdests]
    simp only
    rw [fold_outcome_update_failed env p _ s d.ID hupd]
    exact filter_dest_of_nodup hpk hd

/-- A destination in status `P` or `R` whose event row exists is returned by
`GetPendingDestinations`, unless the batch is full. -/
theorem GetPendingDestinations_fetches {fails : Bool} {limit : Int} {s : DB}
    {dests : List DestinoTask} (h : GetPendingDestinations fails limit s = Except.ok dests)
    (d : FilaDestino) (hd : d ∈ s.destinos) (hst : pendingStatus d.Status = true)
    (hf : ∃ f ∈ s.fila, f.ID = d.FilaID) :
    (∃ t ∈ dests, t.dest = d) ∨ (dests.length : Int) = limit := by
  unfold GetPendingDestinations at h
  split at h
  · cases h
  · next hq =>
    simp only at h
    split at h
    · cases h
      have hlim : 0 ≤ limit := by
        by_contra hneg
        exact hq (Or.inr (by omega))
      obtain ⟨f, hfm, hfid⟩ := hf
      have hmem : ({ dest := d, Item := scanItem d f } : DestinoTask) ∈
          ((s.destinos.filter (fun d => pendingStatus d.Status)).insertionSort
            (fun a b => a.ID ≤ b.ID)).flatMap (fun d =>
              (s.fila.filter (fun f => decide (f.ID = d.FilaID))).map
                (fun f => { dest := d, Item := scanItem d f })) := by
        simp only [List.mem_flatMap, List.mem_map, List.mem_filter, decide_eq_true_eq]
        refine ⟨d, ?_, f, ⟨hfm, hfid⟩, rfl⟩
        rw [(List.perm_insertionSort _ _).mem_iff]
        exact List.mem_filter.mpr ⟨hd, hst⟩
      by_cases hlen : (((s.destinos.filter (fun d => pendingStatus d.Status)).insertionSort
            (fun a b => a.ID ≤ b.ID)).flatMap (fun d =>
              (s.fila.filter (fun f => decide (f.ID = d.FilaID))).map
                (fun f => ({ dest := d, Item := scanItem d f } : DestinoTask)))).length ≤ limit.toNat
      · left
        rw [List.take_of_length_le hlen]
        exact ⟨_, hmem, rfl⟩
      · right
        rw [List.length_take, Nat.min_eq_left (Nat.le_of_lt (Nat.lt_of_not_le hlen))]
        exact Int.toNat_of_nonneg hlim
    · cases h

theorem untilFailure_mem {post : Int → Option String} {pre rest : List DestinoTask}
    {t : DestinoTask} (hpre : ∀ x ∈ pre, post x.dest.ID = none) :
    t ∈ untilFailure post (pre ++ t :: rest) := by
  induction pre with
  | nil =>
    show t ∈ untilFailure post (t :: rest)
    unfold untilFailure
    split <;> simp
  | cons a pre ih =>
    have ha : post a.dest.ID = none := hpre a (by simp)
    have h1 := ih (fun x hx => hpre x (by simp [hx]))
    show t ∈ untilFailure post (a :: (pre ++ t :: rest))
    simp only [untilFailure, ha]
    exact List.mem_cons_of_mem _ h1

/-- Without relay, a fetched task of a node with a direct URL is posted to that
URL when the tasks of the node that precede it in the batch were posted with
success. -/
theorem sendEvents_posts (env : SendEnv) (p : Poller) (s : DB) (dests : List DestinoTask)
    (n : String) (pre : List DestinoTask) (t : DestinoTask) (post : List DestinoTask)
    (hrelay : relayMode p = false)
    (hdests : GetPendingDestinations env.getPendingDestinationsFails p.cfg.Integracao.BatchSize s
      = Except.ok dests)
    (hurl : nodeURL (nodesSeen env s) n ≠ "")
    (hsplit : tasksOf dests n = pre ++ t :: post)
    (hpre : ∀ x ∈ pre, env.post x.dest.ID = none) :
    t ∈ handledAll env p (nodesSeen env s) dests ∧
    Emission.direct (nodeURL (nodesSeen env s) n) (webhookPayload env p t.Item) ∈
      (sendEvents env p s).2 := by
  have htn : t ∈ dests ∧ t.dest.NodeID = n := by
    have : t ∈ tasksOf dests n := by rw [hsplit]; simp
    simpa [tasksOf] using this
  have hh : t ∈ handled env p (nodeURL (nodesSeen env s) n) (tasksOf dests n) := by
    simp only [handled, hrelay, hurl, hsplit, Bool.false_eq_true, if_false]
    exact untilFailure_mem hpre
  refine ⟨mem_handledAll htn.1 (by rw [htn.2]; exact hh), ?_⟩
  rw [sendEvents_spec env p s dests hdests]
  simp only [List.mem_flatMap, List.mem_map]
  refine ⟨n, (nodeKeys_mem _ _).mpr (List.mem_map.mpr ⟨t, htn.1, htn.2⟩), t, hh, ?_⟩
  simp [emissionOf, hrelay]

theorem sendTicks_keys (p : Poller) (envs : List SendEnv) (s : DB) (hk : keysOK s) :
    keysOK (sendTicks p envs s) := by
  induction envs generalizing s with
  | nil => exact hk
  | cons env rest ih =>
    simp only [sendTicks]
    exact ih _ (sendEvents_keys env p s hk)

/-! ## Sender: the claims on transport, failure and order -/

/-- C11 (counterexample): the peers `B` and `C` both have a direct URL registered,
the relay is enabled and the poller holds a relay client; the tick hands the
tasks of both peers to the relay and posts nothing to their URLs. -/
theorem sendEvents_relay_despite_url :
    nodeURL (nodesSeen quietSend fanoutCreated) "B" = "http://10.0.0.2:8080/sync" ∧
    nodeURL (nodesSeen quietSend fanoutCreated) "C" = "http://10.0.0.3:8080/sync" ∧
    pollerRelay.cfg.Relay.Enabled = true ∧
    (sendEvents quietSend pollerRelay fanoutCreated).2.map Emission.route =
      [("relay", "B"), ("relay", "C")] := by
  decide

/-- C11 (amended): the transport of a sender tick that fetched `dests`.  With the
relay enabled and a relay client present, every task of every target node is
handed to the relay under the node id, whether or not the node has a direct URL.
Otherwise the tasks of a node with a non-empty direct URL are posted to that URL,
in order, up to and including the first failing POST, and a node without a
direct URL gets nothing. -/
theorem sendEvents_transport (env : SendEnv) (p : Poller) (s : DB) (dests : List DestinoTask)
    (hdests : GetPendingDestinations env.getPendingDestinationsFails p.cfg.Integracao.BatchSize s
      = Except.ok dests) :
    (relayMode p = true →
      (sendEvents env p s).2 =
        (nodeKeys (dests.map (fun t => t.dest.NodeID))).flatMap (fun k =>
          (tasksOf dests k).map (fun t => Emission.relay k (webhookPayload env p t.Item)))) ∧
    (relayMode p = false →
      (sendEvents env p s).2 =
        (nodeKeys (dests.map (fun t => t.dest.NodeID))).flatMap (fun k =>
          if nodeURL (nodesSeen env s) k = "" then []
          else (untilFailure env.post (tasksOf dests k)).map (fun t =>
            Emission.direct (nodeURL (nodesSeen env s) k) (webhookPayload env p t.Item)))) := by
  rw [sendEvents_spec env p s dests hdests]
  constructor
  · intro hr
    simp only
    congr 1
    funext k
    simp [handled, emissionOf, hr]
  · intro hr
    simp only
    congr 1
    funext k
    by_cases hu : nodeURL (nodesSeen env s) k = ""
    · simp [handled, hr, hu]
    · simp [handled, emissionOf, hr, hu]

/-- C11 (amended) at a concrete input: the relay poller on the fanned-out event. -/
theorem sendEvents_transport_witness :
    GetPendingDestinations quietSend.getPendingDestinationsFails
      pollerRelay.cfg.Integracao.BatchSize fanoutCreated
      = Except.ok (tasksFetched fanoutCreated) ∧
    (relayMode pollerRelay = true →
      (sendEvents quietSend pollerRelay fanoutCreated).2 =
        (nodeKeys ((tasksFetched fanoutCreated).map (fun t => t.dest.NodeID))).flatMap (fun k =>
          (tasksOf (tasksFetched fanoutCreated) k).map (fun t =>
            Emission.relay k (webhookPayload quietSend pollerRelay t.Item)))) :=
  ⟨by decide,
   (sendEvents_transport quietSend pollerRelay fanoutCreated (tasksFetched fanoutCreated)
     (by decide)).1⟩

/-- C12 (counterexample): the POST of the first task of peer `B` fails and the
status update that follows fails too; `sendEvents` drops the error of
`UpdateDestinoStatus`, so the row of that destination is not set to Retry: it
is still Pending, with no attempt counted and no error text.  The second task
of `B` is not sent; the tasks of `C` are. -/
theorem sendEvents_failure_not_recorded :
    tasksOf (tasksFetched twoFanoutDB) "B" = [taskB1, taskB3] ∧
    postAndUpdateFail.post taskB1.dest.ID = some "dial tcp: connect: connection refused" ∧
    postAndUpdateFail.updateFails taskB1.dest.ID = true ∧
    twoFanoutDB.destinos.map (fun d => (d.ID, d.NodeID, d.Status, d.Tentativas, d.ERROMsg)) =
      [(1, "B", "P", 0, none), (2, "C", "P", 0, none), (3, "B", "P", 0, none),
       (4, "C", "P", 0, none)] ∧
    (sendEvents postAndUpdateFail pollerA twoFanoutDB).1.destinos.map
        (fun d => (d.ID, d.NodeID, d.Status, d.Tentativas, d.ERROMsg)) =
      [(1, "B", "P", 0, none), (2, "C", "E", 1, some ""), (3, "B", "P", 0, none),
       (4, "C", "E", 1, some "")] ∧
    (sendEvents postAndUpdateFail pollerA twoFanoutDB).2.map
        (fun e => (e.route, e.payload.EventID)) =
      [(("direct", "http://10.0.0.2:8080/sync"), "4f9c2d1e-8a3b-4c5d-9e6f-0a1b2c3d4e5f"),
       (("direct", "http://10.0.0.3:8080/sync"), "4f9c2d1e-8a3b-4c5d-9e6f-0a1b2c3d4e5f"),
       (("direct", "http://10.0.0.3:8080/sync"), "7d1e2f3a-4b5c-4d6e-8f70-112233445566")] := by
  refine ⟨by decide, by decide, by decide, by decide, by decide, by decide⟩

/-- C12 (amended): in a tick without relay, when the POST of task `t` of node `n`
fails with error `e` after the tasks `pre` of that node were posted with
success, the row of `t` becomes Retry with `e` as its error and one more attempt
when its status update does not fail, and stays as it was when that update
fails; in both cases the later tasks `post` of the node are neither sent nor
modified, and the tasks of the other nodes are handed over and updated as they
would be without that failure. -/
theorem sendEvents_failure_stops_node (env : SendEnv) (p : Poller) (s : DB)
    (dests : List DestinoTask) (n : String) (pre : List DestinoTask) (t : DestinoTask)
    (post : List DestinoTask) (e : String)
    (hrelay : relayMode p = false)
    (hpk : (s.destinos.map (fun d => d.ID)).Nodup) (hfk : (s.fila.map (fun r => r.ID)).Nodup)
    (hdests : GetPendingDestinations env.getPendingDestinationsFails p.cfg.Integracao.BatchSize s
      = Except.ok dests)
    (hurl : nodeURL (nodesSeen env s) n ≠ "")
    (hsplit : tasksOf dests n = pre ++ t :: post)
    (hpre : ∀ x ∈ pre, env.post x.dest.ID = none)
    (hfail : env.post t.dest.ID = some e) :
    (env.updateFails t.dest.ID = false →
      (sendEvents env p s).1.destinos.filter (fun x => decide (x.ID = t.dest.ID)) =
        [retryRow env.now e t.dest]) ∧
    (env.updateFails t.dest.ID = true →
      (sendEvents env p s).1.destinos.filter (fun x => decide (x.ID = t.dest.ID)) = [t.dest]) ∧
    (retryRow env.now e t.dest).Status = "R" ∧
    (retryRow env.now e t.dest).ERROMsg = some e ∧
    (retryRow env.now e t.dest).Tentativas = t.dest.Tentativas + 1 ∧
    (∀ x ∈ post,
      (sendEvents env p s).1.destinos.filter (fun y => decide (y.ID = x.dest.ID)) = [x.dest]) ∧
    (sendEvents env p s).2 =
      (nodeKeys (dests.map (fun t => t.dest.NodeID))).flatMap (fun k =>
        (if k = n then pre ++ [t]
         else handled env p (nodeURL (nodesSeen env s) k) (tasksOf dests k)).map
          (emissionOf env p k (nodeURL (nodesSeen env s) k))) ∧
    (∀ x ∈ dests, x.dest.NodeID ≠ n →
      x ∈ handled env p (nodeURL (nodesSeen env s) x.dest.NodeID) (tasksOf dests x.dest.NodeID) →
      env.updateFails x.dest.ID = false →
      (sendEvents env p s).1.destinos.filter (fun y => decide (y.ID = x.dest.ID)) =
        [rowAfter env p x.dest]) := by
  have hh : handled env p (nodeURL (nodesSeen env s) n) (tasksOf dests n) = pre ++ [t] := by
    simp [handled, hrelay, hurl, hsplit, untilFailure_split hpre hfail]
  have hof : ∀ x ∈ pre ++ t :: post, x ∈ dests ∧ x.dest.NodeID = n := by
    intro x hx
    rw [← hsplit] at hx
    simpa [tasksOf] using hx
  have htn := hof t (by simp)
  have htH : t ∈ handledAll env p (nodesSeen env s) dests := by
    apply mem_handledAll htn.1
    rw [htn.2, hh]
    simp
  have hids := pairwise_lt_nodup (GetPendingDestinations_sorted hpk hfk hdests)
  have hnd : (pre ++ t :: post).Nodup := by
    rw [← hsplit]
    exact (List.Nodup.of_map _ hids).sublist (List.filter_sublist _)
  refine ⟨?_, ?_, rfl, rfl, rfl, ?_, ?_, ?_⟩
  · intro hupd
    rw [sendEvents_row env p s dests t hpk hfk hdests htH hupd]
    simp [rowAfter, hrelay, hfail]
  · intro hupd
    exact sendEvents_update_failed env p s t.dest hpk
      (GetPendingDestinations_mem hdests t htn.1).1 hupd
  · intro x hx
    have hxn := hof x (by simp [hx])
    have hmem := (GetPendingDestinations_mem hdests x hxn.1).1
    rw [sendEvents_untouched env p s dests hdests x.dest.ID]
    · exact filter_dest_of_nodup hpk hmem
    · intro y hy he
      obtain ⟨hyd, hyh⟩ := handledAll_mem hy
      have hyx : y = x := List.inj_on_of_nodup_map hids hyd hxn.1 he
      rw [hyx, hxn.2, hh] at hyh
      have hdis : x ∉ pre ++ [t] := by
        have h2 : ((pre ++ [t]) ++ post).Nodup := by simpa using hnd
        exact fun h => (List.disjoint_of_nodup_append h2) h hx
      exact hdis hyh
  · rw [sendEvents_spec env p s dests hdests]
    simp only
    congr 1
    funext k
    by_cases hk : k = n
    · subst hk
      simp [hh]
    · simp [hk]
  · intro x hx _ hxh hxu
    exact sendEvents_row env p s dests x hpk hfk hdests (mem_handledAll hx hxh) hxu

/-- C12 (amended) at a concrete input: two events fanned out to `B` and `C`, the
POST of the first task of `B` fails; its row becomes Retry and the second task
of `B` is left as it was. -/
theorem sendEvents_failure_stops_node_witness :
    tasksOf (tasksFetched twoFanoutDB) "B" = [] ++ taskB1 :: [taskB3] ∧
    firstPostFails.post taskB1.dest.ID = some "dial tcp: connect: connection refused" ∧
    (sendEvents firstPostFails pollerA twoFanoutDB).1.destinos.filter
        (fun x => decide (x.ID = taskB1.dest.ID)) =
      [retryRow firstPostFails.now "dial tcp: connect: connection refused" taskB1.dest] ∧
    (∀ x ∈ [taskB3],
      (sendEvents firstPostFails pollerA twoFanoutDB).1.destinos.filter
        (fun y => decide (y.ID = x.dest.ID)) = [x.dest]) :=
  have h := sendEvents_failure_stops_node firstPostFails pollerA twoFanoutDB
    (tasksFetched twoFanoutDB) "B" [] taskB1 [taskB3] "dial tcp: connect: connection refused"
    (by decide) (by decide) (by decide) (by decide) (by decide) (by decide)
    (fun x hx => by cases hx) (by decide)
  ⟨by decide, by decide, h.1 (by decide), h.2.2.2.2.2.1⟩

/-- C13 (counterexample): both POSTs of the tick are answered 200 and both status
updates fail; `sendEvents` drops the error of `UpdateDestinoStatus`, so both
destinations are still Pending after the tick, and the next tick posts both
envelopes again. -/
theorem sendEvents_sent_not_recorded :
    (sendEvents updatesFail pollerA fanoutCreated).2.map Emission.route =
      [("direct", "http://10.0.0.2:8080/sync"), ("direct", "http://10.0.0.3:8080/sync")] ∧
    (∀ id, updatesFail.post id = none) ∧
    (sendEvents updatesFail pollerA fanoutCreated).1.destinos.map
        (fun d => (d.ID, d.NodeID, d.Status, d.Tentativas)) =
      [(1, "B", "P", 0), (2, "C", "P", 0)] ∧
    (sendEvents quietSend pollerA (sendEvents updatesFail pollerA fanoutCreated).1).2.map
        Emission.route =
      [("direct", "http://10.0.0.2:8080/sync"), ("direct", "http://10.0.0.3:8080/sync")] := by
  refine ⟨by decide, fun _ => rfl, by decide, by decide⟩

/-- C13 (amended): a task handed over with success (a POST answered 200, or the
hand-over to the relay) whose status update does not fail leaves its destination
in state Sent (`E`), and after any further sequence of dispatcher and sender
ticks, with any environments and any poller configuration, the row of that
destination is that same row. -/
theorem sendEvents_sent_is_final (env : SendEnv) (p : Poller) (s : DB)
    (dests : List DestinoTask) (t : DestinoTask)
    (hk : keysOK s)
    (hdests : GetPendingDestinations env.getPendingDestinationsFails p.cfg.Integracao.BatchSize s
      = Except.ok dests)
    (ht : t ∈ handledAll env p (nodesSeen env s) dests)
    (hok : relayMode p = true ∨ env.post t.dest.ID = none)
    (hupd : env.updateFails t.dest.ID = false) :
    (sendEvents env p s).1.destinos.filter (fun x => decide (x.ID = t.dest.ID)) =
      [sentRow env.now t.dest] ∧
    (sentRow env.now t.dest).Status = "E" ∧
    ∀ (q : Poller) (ticks : List Tick),
      (runTicks q ticks (sendEvents env p s).1).destinos.filter
        (fun x => decide (x.ID = t.dest.ID)) = [sentRow env.now t.dest] := by
  have hrow : (sendEvents env p s).1.destinos.filter (fun x => decide (x.ID = t.dest.ID)) =
      [sentRow env.now t.dest] := by
    rw [sendEvents_row env p s dests t hk.1 hk.2.2 hdests ht hupd, rowAfter_sent env p t.dest hok]
  refine ⟨hrow, rfl, ?_⟩
  intro q ticks
  exact runTicks_keeps_settled q ticks _ (sentRow env.now t.dest) (sendEvents_keys env p s hk)
    (mem_of_filter_singleton hrow) (sentRow_settled _ _)

/-- C13 (amended) at a concrete input: the first destination of the fanned-out
event, posted with success. -/
theorem sendEvents_sent_is_final_witness :
    keysOK fanoutCreated ∧
    taskB1 ∈ handledAll quietSend pollerA (nodesSeen quietSend fanoutCreated)
      (tasksFetched fanoutCreated) ∧
    ∀ (q : Poller) (ticks : List Tick),
      (runTicks q ticks (sendEvents quietSend pollerA fanoutCreated).1).destinos.filter
        (fun x => decide (x.ID = taskB1.dest.ID)) = [sentRow quietSend.now taskB1.dest] :=
  ⟨by unfold keysOK; decide, by decide,
   (sendEvents_sent_is_final quietSend pollerA fanoutCreated (tasksFetched fanoutCreated) taskB1
     (by unfold keysOK; decide) (by decide) (by decide) (Or.inr rfl) rfl).2.2⟩

/-- C14 (counterexample): node `A` recorded event 1 before event 2; creating the
destination of event 1 failed in one dispatcher tick and succeeded in the next,
so the destination of event 2 has the smaller ID.  The task list of peer `B` is
in destination order, event 2 before event 1, and so is what is posted. -/
theorem tasksOf_not_in_event_order :
    outOfOrderDB.fila.map (fun r => (r.ID, r.EventID, r.Status)) =
      [(1, "4f9c2d1e-8a3b-4c5d-9e6f-0a1b2c3d4e5f", "D"),
       (2, "7d1e2f3a-4b5c-4d6e-8f70-112233445566", "D")] ∧
    GetPendingDestinations false 10 outOfOrderDB = Except.ok (tasksFetched outOfOrderDB) ∧
    (tasksOf (tasksFetched outOfOrderDB) "B").map (fun t => (t.dest.ID, t.dest.FilaID)) =
      [(1, 2), (2, 1)] ∧
    (sendEvents quietSend pollerA outOfOrderDB).2.map (fun e => e.payload.EventID) =
      ["7d1e2f3a-4b5c-4d6e-8f70-112233445566", "4f9c2d1e-8a3b-4c5d-9e6f-0a1b2c3d4e5f"] := by
  decide

/-- C14 (amended): for every target node the task list built from the result of
`GetPendingDestinations` is strictly increasing in the destination ID (the order
in which the dispatcher created the rows); what a tick hands to the transport is
a sublist of it, in that order; and the list is strictly increasing in `FILA_ID`
whenever the destination rows of that node were created in event order. -/
theorem tasksOf_sorted_by_dest_id (fails : Bool) (limit : Int) (s : DB)
    (dests : List DestinoTask) (n : String)
    (hpk : (s.destinos.map (fun d => d.ID)).Nodup) (hfk : (s.fila.map (fun r => r.ID)).Nodup)
    (hdests : GetPendingDestinations fails limit s = Except.ok dests) :
    ((tasksOf dests n).map (fun t => t.dest.ID)).Pairwise (· < ·) ∧
    (∀ (env : SendEnv) (p : Poller) (url : String),
      (handled env p url (tasksOf dests n)).Sublist (tasksOf dests n)) ∧
    ((∀ d ∈ s.destinos, ∀ d' ∈ s.destinos, d.NodeID = n → d'.NodeID = n →
        d.ID < d'.ID → d.FilaID < d'.FilaID) →
      ((tasksOf dests n).map (fun t => t.dest.FilaID)).Pairwise (· < ·)) := by
  have h1 : ((tasksOf dests n).map (fun t => t.dest.ID)).Pairwise (· < ·) :=
    (GetPendingDestinations_sorted hpk hfk hdests).sublist ((List.filter_sublist _).map _)
  refine ⟨h1, fun env p url => handled_sublist env p url _, ?_⟩
  intro hmono
  rw [List.pairwise_map] at h1 ⊢
  refine h1.imp_of_mem ?_
  intro a b ha hb hab
  simp only [tasksOf, List.mem_filter, decide_eq_true_eq] at ha hb
  exact hmono a.dest (GetPendingDestinations_mem hdests a ha.1).1 b.dest
    (GetPendingDestinations_mem hdests b hb.1).1 ha.2 hb.2 hab

/-- C14 (amended) at a concrete input: the task list of peer `B` in the state of
the counterexample. -/
theorem tasksOf_sorted_by_dest_id_witness :
    GetPendingDestinations false 10 outOfOrderDB = Except.ok (tasksFetched outOfOrderDB) ∧
    ((tasksOf (tasksFetched outOfOrderDB) "B").map (fun t => t.dest.ID)).Pairwise (· < ·) :=
  ⟨by decide,
   (tasksOf_sorted_by_dest_id false 10 outOfOrderDB (tasksFetched outOfOrderDB) "B"
     (by decide) (by decide) (by decide)).1⟩

/-- C15 (counterexample): a tick of the relay poller hands the envelopes of both
destinations to the relay and sets both rows to Sent in the same tick; nothing
the relay does with a frame afterwards reaches the sender (`SendSync` returns no
result), so the rows are not Pending or Retry, the next fetch is empty and the
next tick sends nothing. -/
theorem sendEvents_relay_marks_sent :
    (sendEvents quietSend pollerRelay fanoutCreated).2.map Emission.route =
      [("relay", "B"), ("relay", "C")] ∧
    (sendEvents quietSend pollerRelay fanoutCreated).1.destinos.map
      (fun d => (d.NodeID, d.Status)) = [("B", "E"), ("C", "E")] ∧
    GetPendingDestinations false 10 (sendEvents quietSend pollerRelay fanoutCreated).1 =
      Except.ok [] ∧
    (sendEvents quietSend pollerRelay (sendEvents quietSend pollerRelay fanoutCreated).1).2 =
      [] := by
  decide

/-- C15 (amended): with the relay enabled and a relay client present, every
fetched destination whose status update does not fail is in state Sent (`E`)
after the tick, whatever becomes of the frame handed to the relay; after any
further ticks its row is that same row and no fetch of
`GetPendingDestinations` returns it, so it is not sent again. -/
theorem sendEvents_relay_final (env : SendEnv) (p : Poller) (s : DB)
    (dests : List DestinoTask) (t : DestinoTask)
    (hrelay : relayMode p = true) (hk : keysOK s)
    (hdests : GetPendingDestinations env.getPendingDestinationsFails p.cfg.Integracao.BatchSize s
      = Except.ok dests)
    (ht : t ∈ dests) (hupd : env.updateFails t.dest.ID = false) :
    (sendEvents env p s).1.destinos.filter (fun x => decide (x.ID = t.dest.ID)) =
      [sentRow env.now t.dest] ∧
    (sentRow env.now t.dest).Status = "E" ∧
    ∀ (q : Poller) (ticks : List Tick),
      (runTicks q ticks (sendEvents env p s).1).destinos.filter
        (fun x => decide (x.ID = t.dest.ID)) = [sentRow env.now t.dest] ∧
      ∀ (fails : Bool) (limit : Int) (later : List DestinoTask),
        GetPendingDestinations fails limit (runTicks q ticks (sendEvents env p s).1)
          = Except.ok later →
        ∀ x ∈ later, x.dest.ID ≠ t.dest.ID := by
  have htH : t ∈ handledAll env p (nodesSeen env s) dests := by
    apply mem_handledAll ht
    simp [handled, hrelay, tasksOf, ht]
  have hrow : (sendEvents env p s).1.destinos.filter (fun x => decide (x.ID = t.dest.ID)) =
      [sentRow env.now t.dest] := by
    rw [sendEvents_row env p s dests t hk.1 hk.2.2 hdests htH hupd,
      rowAfter_sent env p t.dest (Or.inl hrelay)]
  refine ⟨hrow, rfl, ?_⟩
  intro q ticks
  have hk1 := sendEvents_keys env p s hk
  have hkeep := runTicks_keeps_settled q ticks _ (sentRow env.now t.dest) hk1
    (mem_of_filter_singleton hrow) (sentRow_settled _ _)
  refine ⟨hkeep, ?_⟩
  intro fails limit later hlater x hx he
  obtain ⟨hmem, hpend, _⟩ := GetPendingDestinations_mem hlater x hx
  have hin : x.dest ∈ (runTicks q ticks (sendEvents env p s).1).destinos.filter
      (fun y => decide (y.ID = t.dest.ID)) := by
    simp [List.mem_filter, hmem, he]
  have hx_eq : x.dest = sentRow env.now t.dest := by
    have hin' : x.dest ∈ [sentRow env.now t.dest] := hkeep ▸ hin
    simpa using hin'
  rw [hx_eq, sentRow_settled] at hpend
  cases hpend

/-- C15 (amended) at a concrete input: the relay poller on the fanned-out event. -/
theorem sendEvents_relay_final_witness :
    relayMode pollerRelay = true ∧ keysOK fanoutCreated ∧
    taskB1 ∈ tasksFetched fanoutCreated ∧
    (sendEvents quietSend pollerRelay fanoutCreated).1.destinos.filter
        (fun x => decide (x.ID = taskB1.dest.ID)) = [sentRow quietSend.now taskB1.dest] :=
  ⟨by decide, by unfold keysOK; decide, by decide,
   (sendEvents_relay_final quietSend pollerRelay fanoutCreated (tasksFetched fanoutCreated) taskB1
     (by decide) (by unfold keysOK; decide) (by decide) (by decide) rfl).1⟩

/-! ## Sender: retry without bound -/

/-- C10 (counterexample): with retry-max 3, after three sender ticks in which
every POST fails the destinations that were tried are in status `R` with three
attempts, none is in status `F`, and a fourth tick fetches both destinations and
posts again. -/
theorem sendTicks_retry_forever :
    pollerA.cfg.Integracao.RetryMax = 3 ∧
    (sendTicks pollerA [failingSend, failingSend, failingSend] fanoutCreated).destinos.map
      (fun d => (d.NodeID, d.Status, d.Tentativas)) = [("B", "R", 3), ("C", "R", 3)] ∧
    (GetPendingDestinations false 10
      (sendTicks pollerA [failingSend, failingSend, failingSend] fanoutCreated)).toOption.map
        (fun ts => ts.map (fun t => t.dest.NodeID)) = some ["B", "C"] ∧
    (sendEvents failingSend pollerA
      (sendTicks pollerA [failingSend, failingSend, failingSend] fanoutCreated)).2.map
        (fun e => match e with
          | Emission.direct url _ => url
          | Emission.relay t _ => t) =
      ["http://10.0.0.2:8080/sync", "http://10.0.0.3:8080/sync"] := by
  decide

/-- C10 (amended): whatever retry-max is, sender ticks never put a destination in
a state other than Sent or Retry: after any sequence of ticks each destination
row keeps its ID, event and target and is unchanged, or has status `E`, or has
status `R`; when the relay is disabled and every POST of every tick fails, each
row is unchanged or has status `R`.  And a Retry row is tried again: in the
state after those ticks, a fetch of `GetPendingDestinations` returns every row
in status `R` whose event exists, unless the batch is full; without relay, a
fetched task of a node with a direct URL is posted to that URL when the tasks
of the node before it in the batch were posted with success; and when that POST
fails too (and the status update does not fail) the row is again a Retry row,
with one more attempt. -/
theorem sendTicks_never_failed (p : Poller) (envs : List SendEnv) (s : DB) :
    sendSteps true s (sendTicks p envs s) ∧
    ((p.cfg.Relay.Enabled = false ∧ ∀ env ∈ envs, ∀ id, env.post id ≠ none) →
      sendSteps false s (sendTicks p envs s)) ∧
    (∀ (env : SendEnv) (dests : List DestinoTask),
      GetPendingDestinations env.getPendingDestinationsFails p.cfg.Integracao.BatchSize
        (sendTicks p envs s) = Except.ok dests →
      (∀ d ∈ (sendTicks p envs s).destinos, d.Status = "R" →
        (∃ f ∈ (sendTicks p envs s).fila, f.ID = d.FilaID) →
        (∃ t ∈ dests, t.dest = d) ∨ (dests.length : Int) = p.cfg.Integracao.BatchSize) ∧
      (relayMode p = false → keysOK s →
        ∀ (n : String) (pre : List DestinoTask) (t : DestinoTask) (post : List DestinoTask),
          nodeURL (nodesSeen env (sendTicks p envs s)) n ≠ "" →
          tasksOf dests n = pre ++ t :: post →
          (∀ x ∈ pre, env.post x.dest.ID = none) →
          Emission.direct (nodeURL (nodesSeen env (sendTicks p envs s)) n)
              (webhookPayload env p t.Item) ∈ (sendEvents env p (sendTicks p envs s)).2 ∧
          ∀ e, env.post t.dest.ID = some e → env.updateFails t.dest.ID = false →
            (sendEvents env p (sendTicks p envs s)).1.destinos.filter
                (fun x => decide (x.ID = t.dest.ID)) = [retryRow env.now e t.dest])) ∧
    pendingStatus "R" = true ∧ pendingStatus "F" = false := by
  refine ⟨sendTicks_steps true p envs s (fun h => by cases h),
    fun h => sendTicks_steps false p envs s (fun _ => h), ?_, by decide, by decide⟩
  intro env dests hdests
  refine ⟨?_, ?_⟩
  · intro d hd hst hf
    exact GetPendingDestinations_fetches hdests d hd (by rw [hst]; decide) hf
  · intro hrelay hk n pre t post hurl hsplit hpre
    have hk1 := sendTicks_keys p envs s hk
    obtain ⟨hH, hem⟩ := sendEvents_posts env p _ dests n pre t post hrelay hdests hurl hsplit hpre
    refine ⟨hem, ?_⟩
    intro e hfail hupd
    rw [sendEvents_row env p _ dests t hk1.1 hk1.2.2 hdests hH hupd]
    simp [rowAfter, hrelay, hfail]

/-- C10 (amended) at a concrete input: three failing ticks of the poller of `A`,
whose retry-max is 3; the fourth tick posts the envelope of destination 1 again
and leaves it in Retry. -/
theorem sendTicks_never_failed_witness :
    (pollerA.cfg.Relay.Enabled = false ∧
      ∀ env ∈ [failingSend, failingSend, failingSend], ∀ id, env.post id ≠ none) ∧
    sendSteps false fanoutCreated
      (sendTicks pollerA [failingSend, failingSend, failingSend] fanoutCreated) ∧
    keysOK fanoutCreated ∧
    tasksOf (tasksFetched (sendTicks pollerA [failingSend, failingSend, failingSend] fanoutCreated))
      "B" = [] ++ taskB1Tried :: [] ∧
    taskB1Tried.dest.Tentativas = 3 ∧
    Emission.direct
        (nodeURL (nodesSeen failingSend
          (sendTicks pollerA [failingSend, failingSend, failingSend] fanoutCreated)) "B")
        (webhookPayload failingSend pollerA taskB1Tried.Item) ∈
      (sendEvents failingSend pollerA
        (sendTicks pollerA [failingSend, failingSend, failingSend] fanoutCreated)).2 ∧
    (sendEvents failingSend pollerA
        (sendTicks pollerA [failingSend, failingSend, failingSend] fanoutCreated)).1.destinos.filter
          (fun x => decide (x.ID = taskB1Tried.dest.ID)) =
      [retryRow failingSend.now "dial tcp: connect: connection refused" taskB1Tried.dest] :=
  have h := sendTicks_never_failed pollerA [failingSend, failingSend, failingSend] fanoutCreated
  have h4 := (h.2.2.1 failingSend
      (tasksFetched (sendTicks pollerA [failingSend, failingSend, failingSend] fanoutCreated))
      (by decide)).2 (by decide) (by unfold keysOK; decide) "B" [] taskB1Tried [] (by decide)
      (by decide) (fun x hx => by cases hx)
  ⟨⟨rfl, by simp [failingSend]⟩, h.2.1 ⟨rfl, by simp [failingSend]⟩, by unfold keysOK; decide,
   by decide, rfl, h4.1,
   h4.2 "dial tcp: connect: connection refused" (by decide) (by decide)⟩

/-! ## Receiver: the registry and the Applied row -/

theorem withReg_upsertNode (reg : List TabelaIntegrada) (now : Nat) (id url : String) (s : DB) :
    upsertNode now id url (withReg reg s) = (upsertNode now id url s).map (withReg reg) := by
  unfold upsertNode
  by_cases h1 : id.length ≤ 20 ∧ url.length ≤ 255
  · by_cases h2 : s.nodes.any (fun n => decide (n.NodeID = id)) = true
    · have h2' : (withReg reg s).nodes.any (fun n => decide (n.NodeID = id)) = true := h2
      simp only [h1, h2, h2', and_self, if_true]
      rfl
    · have h2' : ¬ (withReg reg s).nodes.any (fun n => decide (n.NodeID = id)) = true := h2
      simp only [h1, h2, h2', and_self, if_true, if_false]
      rfl
  · simp only [h1, if_false]
    rfl

theorem withReg_registerNode (reg : List TabelaIntegrada) (env : RecvEnv) (p : SyncPayload) (s : DB) :
    registerNode env p (withReg reg s) = withReg reg (registerNode env p s) := by
  unfold registerNode
  rw [withReg_upsertNode]
  by_cases h1 : p.Origem = "" ∨ p.Origem = "TRIGGER"
  · simp only [h1, if_true]
  · simp only [h1, if_false]
    by_cases h2 : env.registerFails = true
    · simp only [h2, if_true]
    · simp only [h2, Bool.false_eq_true, if_false]
      cases upsertNode env.now p.Origem (inferURL p.RemoteAddr) s <;> rfl

theorem withReg_insertFila (reg : List TabelaIntegrada) (r : FilaItem) (s : DB) :
    insertFila r (withReg reg s) = (insertFila r s).map (withReg reg) := by
  unfold insertFila
  by_cases h : filaAccepts r = true
  · simp only [h, if_true]
    rfl
  · simp only [h, Bool.false_eq_true, if_false]
    rfl

theorem withReg_insertFilaAll (reg : List TabelaIntegrada) (rs : List FilaItem) (s : DB) :
    insertFilaAll rs (withReg reg s) = (insertFilaAll rs s).map (withReg reg) := by
  induction rs generalizing s with
  | nil => rfl
  | cons r rs ih =>
    simp only [insertFilaAll, withReg_insertFila]
    cases insertFila r s with
    | none => rfl
    | some s1 => exact ih s1

theorem withReg_execUser (reg : List TabelaIntegrada) (uuid : Nat → String) (now : Nat)
    (st : Stmt) (s : DB) :
    execUser uuid now st (withReg reg s) = (execUser uuid now st s).map (withReg reg) := by
  unfold execUser
  have ht : (withReg reg s).tables = s.tables := rfl
  rw [ht]
  cases s.tables.find? (fun t => decide (t.name = st.table)) with
  | none => rfl
  | some t =>
    simp only
    cases execRows t st with
    | none => rfl
    | some rc =>
      obtain ⟨rows, changes⟩ := rc
      simp only
      cases t.trigger with
      | none => rfl
      | some tr =>
        exact withReg_insertFilaAll reg (captureAll tr uuid now changes)
          { s with tables := setRows st.table rows s.tables }

theorem withReg_writeHistory (reg : List TabelaIntegrada) (env : RecvEnv) (p : SyncPayload)
    (tx : DB) : writeHistory env p (withReg reg tx) = withReg reg (writeHistory env p tx) := by
  unfold writeHistory
  rw [withReg_insertFila]
  by_cases h : env.historyFails = true
  · simp only [h, if_true]
  · simp only [h, Bool.false_eq_true, if_false]
    cases insertFila (historyRow env.now p) tx <;> rfl

theorem withReg_ProcessPayload (reg : List TabelaIntegrada) (env : RecvEnv) (p : SyncPayload)
    (s : DB) (hu : targetsUserTable p s = true) :
    ProcessPayload env p (withReg reg s) =
      (withReg reg (ProcessPayload env p s).1, (ProcessPayload env p s).2) := by
  unfold ProcessPayload
  simp only [withReg_registerNode]
  have hdup : IsDuplicate env.isDuplicateFails p.EventID (withReg reg (registerNode env p s)) =
      IsDuplicate env.isDuplicateFails p.EventID (registerNode env p s) := rfl
  rw [hdup]
  cases IsDuplicate env.isDuplicateFails p.EventID (registerNode env p s) with
  | error e => rfl
  | ok b =>
    cases b with
    | true => rfl
    | false =>
      simp only
      by_cases hb : env.beginFails = true
      · simp only [hb, if_true]
      · simp only [hb, Bool.false_eq_true, if_false]
        unfold applyToDBTx
        cases hst : buildStmt p with
        | error e => rfl
        | ok st =>
          simp only
          by_cases ha : env.applyFails = true
          · simp only [ha, if_true]
          · simp only [ha, Bool.false_eq_true, if_false]
            have hus : onUserTable st (registerNode env p s) = true := by
              rw [onUserTable_tables (registerNode_frame env p s).2.1]
              simpa [targetsUserTable, hst] using hu
            have hus1 : onUserTable st (withReg reg (registerNode env p s)) = true :=
              (@onUserTable_tables st (registerNode env p s)
                (withReg reg (registerNode env p s)) rfl).trans hus
            rw [execStmt_of_user hus, execStmt_of_user hus1, withReg_execUser]
            cases execUser env.uuid env.now st.fold (registerNode env p s) with
            | none => rfl
            | some tx1 =>
              simp only [Option.map, withReg_writeHistory]
              by_cases hc : env.commitFails = true
              · simp only [hc, if_true]
              · simp only [hc, Bool.false_eq_true, if_false]

theorem buildStmt_table {p : SyncPayload} {st : Stmt} (h : buildStmt p = Except.ok st) :
    st.table = p.Table := by
  unfold buildStmt at h
  split at h
  · cases h; rfl
  · split at h
    · cases h
    · cases h; rfl

theorem withIDs_fields (g : Int) (rs : List FilaItem) :
    ∀ r ∈ withIDs g rs, ∃ r0 ∈ rs, r = { r0 with ID := r.ID } := by
  induction rs generalizing g with
  | nil => simp [withIDs]
  | cons x xs ih =>
    intro r hr
    simp only [withIDs, List.mem_cons] at hr
    rcases hr with rfl | hr
    · exact ⟨x, by simp, rfl⟩
    · obtain ⟨r0, h0, h1⟩ := ih (g + 1) r hr
      exact ⟨r0, by simp [h0], h1⟩

/-- The outbox rows a delivery to a replicated user table adds are appended; an
added row in status `A` carries the event-id, table, operation and origin
of the envelope; and such a row is added when the event-id is new, the call
returns success and the history INSERT is neither failed from outside nor
rejected by a column width. -/
theorem ProcessPayload_adds (env : RecvEnv) (p : SyncPayload) (s : DB)
    (hu : targetsUserTable p s = true) :
    ∃ added, (ProcessPayload env p s).1.fila = s.fila ++ added ∧
      (∀ r ∈ added, r.Status = "A" →
        r.EventID = p.EventID ∧ r.Tabela = p.Table ∧ r.Operacao = p.Operation ∧
        r.Origem = p.Origem) ∧
      (s.fila.any (fun r => decide (r.EventID = p.EventID)) = false →
        (ProcessPayload env p s).2 = Except.ok () → env.historyFails = false →
        filaAccepts (historyRow env.now p) = true →
        ∃ r ∈ added, r.Status = "A" ∧ r.EventID = p.EventID ∧ r.Tabela = p.Table ∧
          r.Operacao = p.Operation ∧ r.Origem = p.Origem) := by
  have hreg := (registerNode_frame env p s).1
  have hcap : ∀ st, ∀ r ∈ withIDs (registerNode env p s).genFila
      (capturedBy env.uuid env.now st (registerNode env p s)), r.Status ≠ "A" := by
    intro st r hr
    obtain ⟨r0, h0, hs, _⟩ := withIDs_status _ _ r hr
    rw [hs, (capturedBy_shape _ _ _ _ r0 h0).2]
    decide
  rcases ProcessPayload_cases_user env p s hu with h1 | ⟨st, tx1, hdup, hst, hx, hpp⟩
  · refine ⟨[], by rw [h1, hreg]; simp, by simp, ?_⟩
    intro hnew hok hh hacc
    exfalso
    obtain ⟨st, tx1, hst, hx, hpp⟩ := ProcessPayload_applied env p s hnew hok
    have hus : onUserTable st (registerNode env p s) = true := by
      rw [onUserTable_tables (registerNode_frame env p s).2.1]
      simpa [targetsUserTable, hst] using hu
    rw [execStmt_of_user hus] at hx
    obtain ⟨hf, _, _⟩ := execUser_spec hx
    have hfl : (ProcessPayload env p s).1.fila = (writeHistory env p tx1).fila := by rw [hpp]
    have hw : (writeHistory env p tx1).fila =
        tx1.fila ++ withIDs tx1.genFila [historyRow env.now p] := by
      unfold writeHistory insertFila
      simp [hh, hacc, withIDs]
    rw [h1, hreg, hw, hf, hreg] at hfl
    have := congrArg List.length hfl
    simp [withIDs] at this
  · obtain ⟨hf, _, _⟩ := execUser_spec hx
    rw [hpp]
    rcases (writeHistory_spec env p tx1).1 with hw | hw
    · refine ⟨withIDs (registerNode env p s).genFila
          (capturedBy env.uuid env.now st.fold (registerNode env p s)), by rw [hw, hf, hreg], ?_, ?_⟩
      · intro r hr hA
        exact absurd hA (hcap _ r hr)
      · intro _ _ hh hacc
        exfalso
        have hw2 : (writeHistory env p tx1).fila =
            tx1.fila ++ withIDs tx1.genFila [historyRow env.now p] := by
          unfold writeHistory insertFila
          simp [hh, hacc, withIDs]
        rw [hw] at hw2
        have := congrArg List.length hw2
        simp [withIDs] at this
    · refine ⟨withIDs (registerNode env p s).genFila
          (capturedBy env.uuid env.now st.fold (registerNode env p s)) ++
          withIDs tx1.genFila [historyRow env.now p],
        by simp only; rw [hw, hf, hreg, List.append_assoc], ?_, ?_⟩
      · intro r hr hA
        rcases List.mem_append.mp hr with h | h
        · exact absurd hA (hcap _ r h)
        · simp only [withIDs, List.mem_singleton] at h
          subst h
          exact ⟨rfl, rfl, rfl, rfl⟩
      · intro _ _ _ _
        refine ⟨{ (historyRow env.now p) with ID := tx1.genFila + 1 }, ?_, rfl, rfl, rfl, rfl, rfl⟩
        simp [withIDs]

/-- What a sender tick hands to a transport is the envelope of a fetched task:
built from an outbox row of the sender that a destination row references. -/
theorem sendEvents_emitted (env : SendEnv) (p : Poller) (s : DB) :
    ∀ e ∈ (sendEvents env p s).2, ∃ f ∈ s.fila, ∃ d ∈ s.destinos,
      f.ID = d.FilaID ∧ e.payload = webhookPayload env p (scanItem d f) := by
  intro e he
  cases hdests : GetPendingDestinations env.getPendingDestinationsFails
      p.cfg.Integracao.BatchSize s with
  | error err =>
    rw [sendEvents_fetch_failed env p s err hdests] at he
    cases he
  | ok dests =>
    rw [sendEvents_spec env p s dests hdests] at he
    simp only [List.mem_flatMap, List.mem_map] at he
    obtain ⟨k, _, t, ht, rfl⟩ := he
    have htd : t ∈ dests :=
      (List.mem_filter.mp ((handled_sublist env p _ _).subset ht)).1
    obtain ⟨hmem, _, f, hf, hfid, hitem⟩ := GetPendingDestinations_mem hdests t htd
    refine ⟨f, hf, t.dest, hmem, hfid, ?_⟩
    rw [← hitem]
    unfold emissionOf
    split <;> rfl

/-- C16 (counterexample): the registry lists only `CLIENTE`; an envelope for
`CARIMBO` is accepted and its row is written. -/
theorem ProcessPayload_ignores_registry :
    lojaRegistrada.integradas = [{ NomeTabela := "CLIENTE", Ativo := "S" }] ∧
    upsertCarimboCentral.Table = "CARIMBO" ∧
    (ProcessPayload quietRecv upsertCarimboCentral lojaRegistrada).2 = Except.ok () ∧
    (ProcessPayload quietRecv upsertCarimboCentral lojaRegistrada).1.tables.map
        (fun t => (t.name, t.rows)) =
      [("CLIENTE", []),
       ("CARIMBO", [[("VERSION", Value.str "1"), ("SYNC_TS", Value.str "2024-01-01")]])] := by
  decide

/-- C16 (amended): the receiver does not consult the integrated-table registry:
for every envelope that addresses a replicated user table of the database and
every content of the registry, `ProcessPayload` returns the same result and
leaves the same database, the registry apart. -/
theorem ProcessPayload_registry_free (env : RecvEnv) (p : SyncPayload) (s : DB)
    (hu : targetsUserTable p s = true) (reg : List TabelaIntegrada) :
    ProcessPayload env p (withReg reg s) =
      (withReg reg (ProcessPayload env p s).1, (ProcessPayload env p s).2) :=
  withReg_ProcessPayload reg env p s hu

/-- C16 (amended) at a concrete input: the envelope for `CARIMBO` is applied in the
same way whether the registry is empty or lists only `CLIENTE`. -/
theorem ProcessPayload_registry_free_witness :
    targetsUserTable upsertCarimboCentral lojaDB = true ∧
    ProcessPayload quietRecv upsertCarimboCentral
        (withReg [{ NomeTabela := "CLIENTE", Ativo := "S" }] lojaDB) =
      (withReg [{ NomeTabela := "CLIENTE", Ativo := "S" }]
         (ProcessPayload quietRecv upsertCarimboCentral lojaDB).1,
       (ProcessPayload quietRecv upsertCarimboCentral lojaDB).2) :=
  ⟨by decide,
   ProcessPayload_registry_free quietRecv upsertCarimboCentral lojaDB (by decide)
     [{ NomeTabela := "CLIENTE", Ativo := "S" }]⟩

/-- Every envelope a sender tick emits was built from an outbox row `f` of the
sender: it has the event-id, table and operation of `f` and the sender's
configured node id as `source_node`.  When a receiver processes it as a
statement on a replicated user table, an Applied row (status `A`) that the
delivery adds has the event-id, table and operation of `f` and the sender's node
id as its origin; and such a row is added when the event-id is new at the
receiver, the call returns success, the history INSERT is not failed from
outside, and the sender's node id fits `ORIGEM VARCHAR(20)`. -/
theorem sendEvents_envelope_row (senv : SendEnv) (p : Poller) (ss : DB) (e : Emission)
    (he : e ∈ (sendEvents senv p ss).2) :
    ∃ f ∈ ss.fila,
      e.payload.EventID = f.EventID ∧ e.payload.Table = f.Tabela ∧
      e.payload.Operation = f.Operacao ∧ e.payload.Origem = p.cfg.NodeID ∧
      ∀ (addr : String) (renv : RecvEnv) (rs : DB),
        targetsUserTable { e.payload with RemoteAddr := addr } rs = true →
        ∃ added,
          (ProcessPayload renv { e.payload with RemoteAddr := addr } rs).1.fila = rs.fila ++ added ∧
          (∀ r ∈ added, r.Status = "A" →
            r.EventID = f.EventID ∧ r.Tabela = f.Tabela ∧ r.Operacao = f.Operacao ∧
            r.Origem = e.payload.Origem ∧ r.Origem = p.cfg.NodeID) ∧
          (rs.fila.any (fun r => decide (r.EventID = f.EventID)) = false →
            (ProcessPayload renv { e.payload with RemoteAddr := addr } rs).2 = Except.ok () →
            renv.historyFails = false → filaAccepts f = true → p.cfg.NodeID.length ≤ 20 →
            ∃ r ∈ added, r.Status = "A" ∧ r.EventID = f.EventID ∧ r.Tabela = f.Tabela ∧
              r.Operacao = f.Operacao ∧ r.Origem = p.cfg.NodeID) := by
  obtain ⟨f, hf, d, _, _, hpl⟩ := sendEvents_emitted senv p ss e he
  have e1 : e.payload.EventID = f.EventID := by rw [hpl]; rfl
  have e2 : e.payload.Table = f.Tabela := by rw [hpl]; rfl
  have e3 : e.payload.Operation = f.Operacao := by rw [hpl]; rfl
  have e4 : e.payload.Origem = p.cfg.NodeID := by rw [hpl]; rfl
  refine ⟨f, hf, e1, e2, e3, e4, ?_⟩
  intro addr renv rs hu
  obtain ⟨added, hadd, hprop, hex⟩ :=
    ProcessPayload_adds renv { e.payload with RemoteAddr := addr } rs hu
  refine ⟨added, hadd, ?_, ?_⟩
  · intro r hr hA
    obtain ⟨h1, h2, h3, h4⟩ := hprop r hr hA
    exact ⟨h1.trans e1, h2.trans e2, h3.trans e3, h4, h4.trans e4⟩
  · intro hnew hok hh hacc hlen
    have hnew1 : rs.fila.any (fun r => decide (r.EventID = e.payload.EventID)) = false := by
      rw [e1]; exact hnew
    have hacc1 : filaAccepts (historyRow renv.now { e.payload with RemoteAddr := addr }) = true := by
      simp only [filaAccepts, Bool.and_eq_true, decide_eq_true_eq] at hacc
      simp only [filaAccepts, historyRow, Bool.and_eq_true, decide_eq_true_eq, e1, e2, e3, e4]
      exact ⟨⟨⟨⟨hacc.1.1.1.1, hacc.1.1.1.2⟩, hacc.1.1.2⟩, hlen⟩, by decide⟩
    obtain ⟨r, hr, hA, h1, h2, h3, h4⟩ := hex hnew1 hok hh hacc1
    exact ⟨r, hr, hA, h1.trans e1, h2.trans e2, h3.trans e3, h4.trans e4⟩

/-- C17 (the code at the failing input): the sender whose configured node id has
23 characters posts the envelope of its event with that id as `source_node`; the
receiver answers with success and commits the row of `CLIENTE`, and its outbox
gains only the row captured by the trigger: no row with status `A` is written,
because the history INSERT is rejected by `ORIGEM VARCHAR(20)` and the error is
only logged.  The same envelope sent by node `A` leaves the Applied row with
the sender's event-id, table, operation and node id. -/
theorem sendEvents_applied_row_lost :
    (envioLoja ∈ (sendEvents decodingSend pollerLoja lojaFanout).2 ∧
     envioLoja.payload.EventID = "4f9c2d1e-8a3b-4c5d-9e6f-0a1b2c3d4e5f" ∧
     envioLoja.payload.Origem = "LOJA_FILIAL_CENTRO_0001" ∧
     (ProcessPayload quietRecv { envioLoja.payload with RemoteAddr := "10.0.0.1:40000" }
        lojaDB).2 = Except.ok () ∧
     (ProcessPayload quietRecv { envioLoja.payload with RemoteAddr := "10.0.0.1:40000" }
        lojaDB).1.tables.map (fun t => t.rows) =
       [[[("ID", Value.str "100"), ("NOME", Value.str "X")]], []] ∧
     (ProcessPayload quietRecv { envioLoja.payload with RemoteAddr := "10.0.0.1:40000" }
        lojaDB).1.fila.map (fun r => (r.EventID, r.Tabela, r.Operacao, r.Origem, r.Status)) =
       [("0b7e3c1a-5d2f-4e8a-9c41-6f0d2b9a7e13", "CLIENTE", "I", "TRIGGER", "P")]) ∧
    (envioB ∈ (sendEvents decodingSend pollerA fanoutCreated).2 ∧
     (ProcessPayload quietRecv { envioB.payload with RemoteAddr := "10.0.0.1:40000" }
        lojaDB).1.fila.map (fun r => (r.EventID, r.Tabela, r.Operacao, r.Origem, r.Status)) =
       [("0b7e3c1a-5d2f-4e8a-9c41-6f0d2b9a7e13", "CLIENTE", "I", "TRIGGER", "P"),
        ("4f9c2d1e-8a3b-4c5d-9e6f-0a1b2c3d4e5f", "CLIENTE", "I", "A", "A")]) := by
  decide

/-! ## Receiver: the statement of `applyToDBTx` -/

theorem mapGet_cons (a : String × Value) (l : GoMap) (k : String) :
    mapGet (a :: l) k =
      match mapGet l k with
      | some v => some v
      | none => if a.1 = k then some a.2 else none := by
  unfold mapGet
  rw [List.reverse_cons, List.find?_append]
  cases h : l.reverse.find? (fun kv => decide (kv.1 = k)) with
  | some kv => simp
  | none =>
    by_cases ha : a.1 = k
    · simp [List.find?, ha]
    · simp [List.find?, ha]

theorem mapGet_isSome (m : GoMap) (k : String) :
    (∃ w, mapGet m k = some w) ↔ k ∈ m.map (fun kv => kv.1) := by
  induction m with
  | nil => simp [mapGet]
  | cons a l ih =>
    rw [mapGet_cons]
    cases hl : mapGet l k with
    | some v =>
      have : k ∈ l.map (fun kv => kv.1) := ih.mp ⟨v, hl⟩
      simp [this]
    | none =>
      have hn : k ∉ l.map (fun kv => kv.1) := by
        intro hm
        obtain ⟨w, hw⟩ := ih.mpr hm
        rw [hl] at hw
        cases hw
      by_cases ha : a.1 = k
      · simp [ha]
      · have hn' : ¬ ∃ x, (∃ x_1, (x, x_1) ∈ l) ∧ x = k := by
          intro ⟨x, ⟨v, hv⟩, hx⟩
          exact hn (List.mem_map.mpr ⟨(x, v), hv, hx⟩)
        simp only [ha, if_false, List.map_cons, List.mem_cons]
        constructor
        · rintro ⟨w, hw⟩
          cases hw
        · rintro (h | h)
          · exact absurd h.symm ha
          · exact absurd h hn

theorem mem_mapSet (m : GoMap) (k : String) (v : Value) (k' : String) (w : Value) :
    (k', w) ∈ mapSet m k v ↔ (k' = k ∧ w = v) ∨ (k' ≠ k ∧ (k', w) ∈ m) := by
  unfold mapSet
  by_cases hany : m.any (fun kv => decide (kv.1 = k)) = true
  · simp only [hany, if_true, List.mem_map]
    constructor
    · rintro ⟨kv, hkv, he⟩
      by_cases hk : kv.1 = k
      · simp only [hk, if_true, Prod.mk.injEq] at he
        exact Or.inl ⟨he.1.symm, he.2.symm⟩
      · simp only [hk, if_false] at he
        subst he
        exact Or.inr ⟨hk, hkv⟩
    · rintro (⟨h1, h2⟩ | ⟨h1, h2⟩)
      · obtain ⟨kv, hkv, hk⟩ := List.any_eq_true.mp hany
        have hk' : kv.1 = k := by simpa using hk
        exact ⟨kv, hkv, by simp [hk', h1, h2]⟩
      · exact ⟨(k', w), h2, by simp [h1]⟩
  · simp only [hany, Bool.false_eq_true, if_false, List.mem_append, List.mem_singleton,
      Prod.mk.injEq]
    constructor
    · rintro (h | h)
      · refine Or.inr ⟨?_, h⟩
        intro hk
        exact hany (List.any_eq_true.mpr ⟨(k', w), h, by simp [hk]⟩)
      · exact Or.inl h
    · rintro (h | h)
      · exact Or.inr h
      · exact Or.inl h.2

theorem mapSet_keys_nodup (m : GoMap) (k : String) (v : Value)
    (h : (m.map (fun kv => kv.1)).Nodup) : ((mapSet m k v).map (fun kv => kv.1)).Nodup := by
  unfold mapSet
  by_cases hany : m.any (fun kv => decide (kv.1 = k)) = true
  · simp only [hany, if_true, List.map_map]
    have : m.map ((fun kv : String × Value => kv.1) ∘ fun kv => if kv.1 = k then (k, v) else kv) =
        m.map (fun kv => kv.1) := by
      apply List.map_congr_left
      intro kv _
      simp only [Function.comp]
      split
      · next hk => exact hk.symm
      · rfl
    rw [this]
    exact h
  · simp only [hany, Bool.false_eq_true, if_false, List.map_append, List.map_cons, List.map_nil]
    refine List.Nodup.append h (List.nodup_singleton k) ?_
    intro x hx hx1
    have hxk : x = k := by simpa using hx1
    obtain ⟨kv, hkv, hk⟩ := List.mem_map.mp hx
    exact hany (List.any_eq_true.mpr ⟨kv, hkv, by simp [hk, hxk]⟩)

theorem setAll_keys_nodup (l m : GoMap) (h : (m.map (fun kv => kv.1)).Nodup) :
    ((setAll m l).map (fun kv => kv.1)).Nodup := by
  induction l generalizing m with
  | nil => exact h
  | cons a l ih => exact ih _ (mapSet_keys_nodup m a.1 a.2 h)

theorem mem_setAll (l m : GoMap) (k' : String) (w : Value) :
    (k', w) ∈ setAll m l ↔ mapGet l k' = some w ∨ (mapGet l k' = none ∧ (k', w) ∈ m) := by
  induction l generalizing m with
  | nil => simp [setAll, mapGet]
  | cons a l ih =>
    have hstep : setAll m (a :: l) = setAll (mapSet m a.1 a.2) l := rfl
    rw [hstep, ih, mapGet_cons, mem_mapSet]
    cases hl : mapGet l k' with
    | some x => simp
    | none =>
      by_cases ha : a.1 = k'
      · subst ha
        simp [eq_comm]
      · have ha' : ¬ k' = a.1 := fun h => ha h.symm
        simp [ha, ha']

theorem allData_eq (p : SyncPayload) : allData p = setAll (setAll [] p.PKJSON) p.PayloadJSON := rfl

/-- The entries of `allData` are the columns of the merged set with their value:
the value of data when data has the column, else the value of pk. -/
theorem mem_allData (p : SyncPayload) (k : String) (w : Value) :
    (k, w) ∈ allData p ↔ mergedValue p k = some w := by
  rw [allData_eq, mem_setAll, mem_setAll]
  unfold mergedValue
  cases mapGet p.PayloadJSON k with
  | some v => simp
  | none => simp

theorem allData_nodup (p : SyncPayload) : ((allData p).map (fun kv => kv.1)).Nodup := by
  rw [allData_eq]
  exact setAll_keys_nodup _ _ (setAll_keys_nodup _ _ (by simp))

theorem allData_keys (p : SyncPayload) (c : String) :
    c ∈ (allData p).map (fun kv => kv.1) ↔
      c ∈ p.PKJSON.map (fun kv => kv.1) ∨ c ∈ p.PayloadJSON.map (fun kv => kv.1) := by
  rw [← mapGet_isSome p.PKJSON, ← mapGet_isSome p.PayloadJSON]
  constructor
  · intro h
    obtain ⟨kv, hkv, rfl⟩ := List.mem_map.mp h
    have hm := (mem_allData p kv.1 kv.2).mp hkv
    unfold mergedValue at hm
    cases hd : mapGet p.PayloadJSON kv.1 with
    | some v => exact Or.inr ⟨v, rfl⟩
    | none =>
      rw [hd] at hm
      exact Or.inl ⟨kv.2, hm⟩
  · intro h
    have : ∃ w, mergedValue p c = some w := by
      unfold mergedValue
      cases hd : mapGet p.PayloadJSON c with
      | some v => exact ⟨v, rfl⟩
      | none =>
        rcases h with ⟨w, hw⟩ | ⟨w, hw⟩
        · exact ⟨w, hw⟩
        · rw [hd] at hw
          cases hw
    obtain ⟨w, hw⟩ := this
    exact List.mem_map.mpr ⟨(c, w), (mem_allData p c w).mpr hw, rfl⟩

theorem coerce_eq (v : Value) : coerce v = emptyToNull v := by
  cases v with
  | null => simp [coerce, emptyToNull]
  | str s =>
    by_cases h : s = ""
    · simp [coerce, emptyToNull, h]
    · simp [coerce, emptyToNull, h]
  | lit s => simp [coerce, emptyToNull]

theorem buildStmt_not_delete (p : SyncPayload) (hop : p.Operation ≠ "D") (hne : allData p ≠ []) :
    buildStmt p = Except.ok (upsertStmt p.Table (allData p) (p.PKJSON.map (fun kv => kv.1))) := by
  unfold buildStmt upsertStmt
  have hlen : ¬ (allData p).length = 0 := fun h => hne (List.length_eq_zero.mp h)
  simp only [hop, hlen, if_false]

/-- C18 (counterexample): an insert envelope whose `NOME` is the empty string:
the value of data for column `NOME` is `""`, and the statement binds NULL to it. -/
theorem buildStmt_binds_null_for_empty :
    insertClienteVazio.Operation = "I" ∧
    mergedValue insertClienteVazio "NOME" = some (Value.str "") ∧
    buildStmt insertClienteVazio =
      Except.ok (Stmt.upsert "CLIENTE" ["ID", "NOME"] [Value.str "100", Value.null] ["ID"]) := by
  decide

/-- C18 (amended): for an Insert or Update envelope with a non-empty merged map,
`applyToDBTx` builds the upsert of `upsertStmt`; in whatever order the map loops
visit the entries, the columns are pairwise distinct and are exactly the pk keys
and the data keys, there are as many bound values as columns, the value bound
at the position of a column is the value of data for that column if data has
it and else the value of pk, after the empty-string-to-NULL coercion, and
`MATCHING` lists exactly the pk keys. -/
theorem buildStmt_upsert (p : SyncPayload) (visited : GoMap) (pkVisited : List String)
    (hop : p.Operation ≠ "D") (hne : allData p ≠ [])
    (hv : visited.Perm (allData p)) (hpkv : pkVisited.Perm (p.PKJSON.map (fun kv => kv.1))) :
    buildStmt p = Except.ok (upsertStmt p.Table (allData p) (p.PKJSON.map (fun kv => kv.1))) ∧
    ∃ cols vals, upsertStmt p.Table visited pkVisited = Stmt.upsert p.Table cols vals pkVisited ∧
      cols.Nodup ∧
      (∀ c, c ∈ cols ↔
        c ∈ p.PKJSON.map (fun kv => kv.1) ∨ c ∈ p.PayloadJSON.map (fun kv => kv.1)) ∧
      cols.length = vals.length ∧
      (∀ cv ∈ cols.zip vals, ∃ w, mergedValue p cv.1 = some w ∧ cv.2 = emptyToNull w) ∧
      (∀ k, k ∈ pkVisited ↔ k ∈ p.PKJSON.map (fun kv => kv.1)) ∧
      pkVisited.length = p.PKJSON.length := by
  refine ⟨buildStmt_not_delete p hop hne, List.map (fun kv : String × Value => kv.1) visited,
    List.map (fun kv : String × Value => coerce kv.2) visited, rfl, ?_, ?_, by simp, ?_, ?_, ?_⟩
  · exact ((hv.map (fun kv => kv.1)).nodup_iff).mpr (allData_nodup p)
  · intro c
    rw [(hv.map (fun kv => kv.1)).mem_iff]
    exact allData_keys p c
  · intro cv hcv
    rw [List.zip_map', List.mem_map] at hcv
    obtain ⟨kv, hkv, rfl⟩ := hcv
    exact ⟨kv.2, (mem_allData p kv.1 kv.2).mp (hv.mem_iff.mp hkv), coerce_eq kv.2⟩
  · intro k
    exact hpkv.mem_iff
  · rw [hpkv.length_eq, List.length_map]

/-- C18 (amended) at a concrete input: the envelope of the counterexample, its
merged map visited in reverse order. -/
theorem buildStmt_upsert_witness :
    insertClienteVazio.Operation ≠ "D" ∧ allData insertClienteVazio ≠ [] ∧
    [("NOME", Value.str ""), ("ID", Value.str "100")].Perm (allData insertClienteVazio) ∧
    buildStmt insertClienteVazio =
      Except.ok (upsertStmt insertClienteVazio.Table (allData insertClienteVazio)
        (insertClienteVazio.PKJSON.map (fun kv => kv.1))) :=
  ⟨by decide, by decide, by decide,
   (buildStmt_upsert insertClienteVazio [("NOME", Value.str ""), ("ID", Value.str "100")] ["ID"]
     (by decide) (by decide) (by decide) (by decide)).1⟩

/-- C19: for an Insert or Update envelope with a non-empty merged map, in whatever
order the map loop visits the entries, the visited entries are exactly the
columns of the merged pk and data set with the envelope's value, and the bound
values are those values with the empty string replaced by NULL and every other
value unchanged: a column whose envelope value is the empty string is bound to
NULL, any other column to its envelope value. -/
theorem buildStmt_coerces (p : SyncPayload) (visited : GoMap) (pkVisited : List String)
    (hop : p.Operation ≠ "D") (hne : allData p ≠ []) (hv : visited.Perm (allData p)) :
    buildStmt p = Except.ok (upsertStmt p.Table (allData p) (p.PKJSON.map (fun kv => kv.1))) ∧
    upsertStmt p.Table visited pkVisited =
      Stmt.upsert p.Table (visited.map (fun kv => kv.1))
        (visited.map (fun kv => emptyToNull kv.2)) pkVisited ∧
    (∀ c w, mergedValue p c = some w ↔ (c, w) ∈ visited) ∧
    (∀ c w, mergedValue p c = some w →
      (w = Value.str "" →
        (c, Value.null) ∈ (visited.map (fun kv => kv.1)).zip (upsertStmt p.Table visited pkVisited).args) ∧
      (w ≠ Value.str "" →
        (c, w) ∈ (visited.map (fun kv => kv.1)).zip (upsertStmt p.Table visited pkVisited).args)) ∧
    (∀ cv ∈ (visited.map (fun kv => kv.1)).zip (upsertStmt p.Table visited pkVisited).args,
      ∃ w, mergedValue p cv.1 = some w ∧
        (w = Value.str "" → cv.2 = Value.null) ∧ (w ≠ Value.str "" → cv.2 = w)) := by
  have hargs : (upsertStmt p.Table visited pkVisited).args =
      visited.map (fun kv => emptyToNull kv.2) := by
    simp only [upsertStmt, Stmt.args]
    apply List.map_congr_left
    intro kv _
    exact coerce_eq kv.2
  have hmem : ∀ c w, mergedValue p c = some w ↔ (c, w) ∈ visited := by
    intro c w
    rw [hv.mem_iff]
    exact (mem_allData p c w).symm
  refine ⟨buildStmt_not_delete p hop hne, ?_, hmem, ?_, ?_⟩
  · have := hargs
    simp only [upsertStmt, Stmt.args] at this
    simp only [upsertStmt, this]
  · intro c w hcw
    have hin := (hmem c w).mp hcw
    rw [hargs, List.zip_map']
    constructor
    · intro hw
      exact List.mem_map.mpr ⟨(c, w), hin, by simp [emptyToNull, hw]⟩
    · intro hw
      exact List.mem_map.mpr ⟨(c, w), hin, by simp [emptyToNull, hw]⟩
  · intro cv hcv
    rw [hargs, List.zip_map', List.mem_map] at hcv
    obtain ⟨kv, hkv, rfl⟩ := hcv
    refine ⟨kv.2, (hmem kv.1 kv.2).mpr hkv, ?_, ?_⟩
    · intro hw
      simp [emptyToNull, hw]
    · intro hw
      simp [emptyToNull, hw]

/-- C19 at a concrete input: the insert with the empty `NOME`; the bound values
are the `ID` unchanged and NULL. -/
theorem buildStmt_coerces_witness :
    insertClienteVazio.Operation ≠ "D" ∧ allData insertClienteVazio ≠ [] ∧
    upsertStmt insertClienteVazio.Table (allData insertClienteVazio) ["ID"] =
      Stmt.upsert "CLIENTE" ["ID", "NOME"] [Value.str "100", Value.null] ["ID"] :=
  ⟨by decide, by decide,
   (buildStmt_coerces insertClienteVazio (allData insertClienteVazio) ["ID"]
     (by decide) (by decide) (List.Perm.refl _)).2.1⟩

/-- C20: for a Delete envelope with a non-empty pk, `applyToDBTx` builds the one
statement of `deleteStmt` and executes it once; in whatever order the map loop
visits the pk entries, the text is `DELETE FROM <table> WHERE` followed by the
predicates `<column> = ?`, one per pk entry and at least one, joined by ` AND `,
the parameter at the position of a predicate is the pk value of its column, and
the data of the envelope plays no part. -/
theorem buildStmt_delete (p : SyncPayload) (pkVisited : GoMap)
    (hop : p.Operation = "D") (hpk : p.PKJSON ≠ []) (hv : pkVisited.Perm p.PKJSON) :
    buildStmt p = Except.ok (deleteStmt p.Table p.PKJSON) ∧
    (∀ (env : RecvEnv) (tx : DB),
      applyToDBTx env p tx =
        if env.applyFails then Except.error "exec"
        else match execStmt env.other env.uuid env.now (deleteStmt p.Table p.PKJSON) tx with
          | some tx1 => Except.ok tx1
          | none => Except.error "exec") ∧
    (deleteStmt p.Table pkVisited).query =
      "DELETE FROM " ++ p.Table ++ " WHERE " ++
        " AND ".intercalate (pkVisited.map (fun kv => kv.1 ++ " = ?")) ∧
    (pkVisited.map (fun kv => kv.1 ++ " = ?")).length = p.PKJSON.length ∧
    pkVisited.map (fun kv => kv.1 ++ " = ?") ≠ [] ∧
    (pkVisited.map (fun kv => kv.1 ++ " = ?")).zip (deleteStmt p.Table pkVisited).args =
      pkVisited.map (fun kv => (kv.1 ++ " = ?", kv.2)) ∧
    (∀ kv, kv ∈ pkVisited ↔ kv ∈ p.PKJSON) ∧
    ∀ data : GoMap,
      buildStmt { p with PayloadJSON := data } = buildStmt p ∧
      ∀ (env : RecvEnv) (tx : DB),
        applyToDBTx env { p with PayloadJSON := data } tx = applyToDBTx env p tx := by
  have hb : ∀ q : SyncPayload, q.Operation = "D" →
      buildStmt q = Except.ok (deleteStmt q.Table q.PKJSON) := by
    intro q hq
    simp only [buildStmt, deleteStmt, hq, if_true]
  refine ⟨hb p hop, ?_, ?_, ?_, ?_, ?_, fun kv => hv.mem_iff, ?_⟩
  · intro env tx
    simp only [applyToDBTx, hb p hop]
  · simp only [deleteStmt, Stmt.query, List.map_map]
    rfl
  · rw [List.length_map, hv.length_eq]
  · intro h
    have h1 : pkVisited = [] := List.map_eq_nil_iff.mp h
    rw [h1] at hv
    exact hpk (List.Perm.nil_eq hv).symm
  · simp only [deleteStmt, Stmt.args, List.zip_map']
  · intro data
    have hd : buildStmt { p with PayloadJSON := data } = buildStmt p := by
      rw [hb p hop, hb { p with PayloadJSON := data } hop]
    refine ⟨hd, ?_⟩
    intro env tx
    simp only [applyToDBTx, hd]

/-- C20 at a concrete input: the delete of `CLIENTE` with a two-column key, the
pk entries visited in reverse order. -/
theorem buildStmt_delete_witness :
    deleteCliente.Operation = "D" ∧ deleteCliente.PKJSON ≠ [] ∧
    [("FILIAL", Value.lit "7"), ("ID", Value.str "100")].Perm deleteCliente.PKJSON ∧
    (deleteStmt deleteCliente.Table [("FILIAL", Value.lit "7"), ("ID", Value.str "100")]).query =
      "DELETE FROM CLIENTE WHERE FILIAL = ? AND ID = ?" ∧
    buildStmt deleteCliente =
      Except.ok (Stmt.delete "CLIENTE" ["ID", "FILIAL"] [Value.str "100", Value.lit "7"]) :=
  ⟨by decide, by decide, by decide, by decide,
   (buildStmt_delete deleteCliente [("FILIAL", Value.lit "7"), ("ID", Value.str "100")]
     (by decide) (by decide) (by decide)).1⟩

/-! ## HTTP surface: the claims -/

/-- C21: the responses of `handleSync`.  A method other than POST is answered
405; a POST whose `X-Sync-Token` differs from the server token 401; a POST with
the right token whose body does not decode 400; in these three cases the
database is as before.  Else `ProcessPayload` runs on the decoded envelope with
the peer address: an error is answered 500, success 200, and the database is
the one `ProcessPayload` left. -/
theorem handleSync_responses (decode : String → Option SyncPayload) (env : RecvEnv)
    (srv : Server) (r : Request) (s : DB) :
    (r.method ≠ "POST" → handleSync decode env srv r s = (s, 405)) ∧
    (r.method = "POST" → r.syncToken ≠ srv.token → handleSync decode env srv r s = (s, 401)) ∧
    (r.method = "POST" → r.syncToken = srv.token → decode r.body = none →
      handleSync decode env srv r s = (s, 400)) ∧
    (∀ payload, r.method = "POST" → r.syncToken = srv.token → decode r.body = some payload →
      (handleSync decode env srv r s).1 =
        (ProcessPayload env { payload with RemoteAddr := r.remoteAddr } s).1 ∧
      ((∃ e, (ProcessPayload env { payload with RemoteAddr := r.remoteAddr } s).2 =
          Except.error e) → (handleSync decode env srv r s).2 = 500) ∧
      ((ProcessPayload env { payload with RemoteAddr := r.remoteAddr } s).2 = Except.ok () →
        (handleSync decode env srv r s).2 = 200)) := by
  refine ⟨?_, ?_, ?_, ?_⟩
  · intro hm
    simp [handleSync, hm]
  · intro hm ht
    simp [handleSync, hm, ht]
  · intro hm ht hd
    simp [handleSync, hm, ht, hd]
  · intro payload hm ht hd
    simp only [handleSync, hm, ht, hd, ne_eq, not_true_eq_false, if_false]
    cases hp : ProcessPayload env { payload with RemoteAddr := r.remoteAddr } s with
    | mk s1 res =>
      cases res with
      | error e => simp
      | ok u => simp

/-- C29 (the code at the failing input): with `timeout_seconds: 10` configured,
the requests of the sender of `sendEvents` carry a timeout of 30 seconds, for
every configuration; `Client.Send`, which `sendEvents` does not use, carries the
configured 10. -/
theorem webhookSenderWithURL_timeout_fixed :
    cfgTimeout10.Integracao.TimeoutSeconds = 10 ∧
    (∀ (cfg : Config) (url : String) (payload : SyncPayload),
      (webhookSenderWithURL.Send cfg url payload).timeoutSeconds = 30) ∧
    ((sendEvents quietSend { cfg := cfgTimeout10, relay := false } fanoutCreated).2.map
      (fun e => (Emission.request cfgTimeout10 e).map (fun r => (r.url, r.timeoutSeconds)))) =
      [some ("http://10.0.0.2:8080/sync", 30), some ("http://10.0.0.3:8080/sync", 30)] ∧
    (Client.Send cfgTimeout10 insertCliente).timeoutSeconds = 10 :=
  ⟨by decide, fun _ _ _ => rfl, by decide, by decide⟩

/-- C30 (the code at the failing input): both agents are configured with the
empty token.  The sender sets `X-Sync-Token: ATS_SYNC_DEFAULT`, the receiver
compares the header with its own token, the empty string, and answers 401
without touching the database; with a non-empty common token the check passes. -/
theorem handleSync_rejects_default_token :
    cfgSemToken.Webhook.Token = "" ∧
    (∀ (url : String) (payload : SyncPayload),
      (webhookSenderWithURL.Send cfgSemToken url payload).syncToken = "ATS_SYNC_DEFAULT") ∧
    (∀ (decode : String → Option SyncPayload) (encode : SyncPayload → String)
        (env : RecvEnv) (url addr : String) (payload : SyncPayload) (s : DB),
      handleSync decode env (StartAgent.webhookServer cfgSemToken)
        ((webhookSenderWithURL.Send cfgSemToken url payload).arrive encode addr) s = (s, 401)) ∧
    (∀ (cfg : Config) (url addr : String) (payload : SyncPayload)
        (encode : SyncPayload → String),
      cfg.Webhook.Token ≠ "" →
      ((webhookSenderWithURL.Send cfg url payload).arrive encode addr).syncToken =
        (StartAgent.webhookServer cfg).token) := by
  refine ⟨rfl, fun _ _ => rfl, ?_, ?_⟩
  · intro decode encode env url addr payload s
    simp [handleSync, PostRequest.arrive, webhookSenderWithURL.Send, StartAgent.webhookServer,
      NewServer, cfgSemToken]
  · intro cfg url addr payload encode ht
    simp [PostRequest.arrive, webhookSenderWithURL.Send, StartAgent.webhookServer, NewServer, ht]

/-! ## Relay hub: the claims -/

/-- C22: a parsed frame `m` read from a connection served for node `n`.  When the
target of `m` is registered with connection `tc`, exactly one frame is written,
to `tc`: target, payload and type of `m`, and as source the source of `m` when
that is non-empty, else `n`.  When the target is not registered nothing is
written.  The registry is not changed by a frame. -/
theorem Hub_message_forwarded (h : Hub) (conn : Nat) (n : String) (m : RelayMessage)
    (hn : h.nodeOf conn = some n) :
    (h.step (HubEvent.message conn (some m))).nodes = h.nodes ∧
    (∀ tc, h.Load m.TargetNode = some tc →
      (h.step (HubEvent.message conn (some m))).written =
        h.written ++ [(tc, { TargetNode := m.TargetNode,
                             SourceNode := if m.SourceNode = "" then n else m.SourceNode,
                             Payload := m.Payload, MsgType := m.MsgType })]) ∧
    (h.Load m.TargetNode = none →
      (h.step (HubEvent.message conn (some m))).written = h.written) := by
  have htarget : (if m.SourceNode = "" then { m with SourceNode := n } else m).TargetNode =
      m.TargetNode := by
    split <;> rfl
  have hfill : (if m.SourceNode = "" then { m with SourceNode := n } else m) =
      { TargetNode := m.TargetNode, SourceNode := if m.SourceNode = "" then n else m.SourceNode,
        Payload := m.Payload, MsgType := m.MsgType } := by
    split <;> rfl
  refine ⟨?_, ?_, ?_⟩
  · simp only [Hub.step, hn, htarget]
    cases h.Load m.TargetNode <;> rfl
  · intro tc htc
    simp only [Hub.step, hn, htarget, htc, hfill]
  · intro hnone
    simp only [Hub.step, hn, htarget, hnone]

/-- C22 at a concrete input: `A` and `B` are connected; a frame for `B` with an
empty source read from the connection of `A` is written once, to the connection
of `B`, with source `A`. -/
theorem Hub_message_forwarded_witness :
    (emptyHub.run [HubEvent.connect "A" 1, HubEvent.connect "B" 2]).nodeOf 1 = some "A" ∧
    ((emptyHub.run [HubEvent.connect "A" 1, HubEvent.connect "B" 2]).step
        (HubEvent.message 1 (some quadroParaB))).written =
      [(2, { quadroParaB with SourceNode := "A" })] :=
  ⟨by decide,
   ((Hub_message_forwarded (emptyHub.run [HubEvent.connect "A" 1, HubEvent.connect "B" 2]) 1 "A"
      quadroParaB (by decide)).2.1 2 (by decide)).trans (by decide)⟩

/-- C23 (the code at the failing input): node `B` connects with connection 1,
reconnects with connection 2, and connection 1 then closes.  After the
reconnection the registry maps `B` to 2; the deferred `Delete` of the closing
handler removes that entry, so the registry has no entry for `B` while
connection 2 is still served, and a frame for `B` is dropped. -/
theorem Hub_close_removes_reconnected :
    (emptyHub.run [HubEvent.connect "B" 1, HubEvent.connect "B" 2]).Load "B" = some 2 ∧
    (emptyHub.run [HubEvent.connect "B" 1, HubEvent.connect "B" 2, HubEvent.closed 1]).Load "B"
      = none ∧
    (emptyHub.run [HubEvent.connect "B" 1, HubEvent.connect "B" 2, HubEvent.closed 1]).nodeOf 2
      = some "B" ∧
    (emptyHub.run [HubEvent.connect "A" 3, HubEvent.connect "B" 1, HubEvent.connect "B" 2,
      HubEvent.closed 1, HubEvent.message 3 (some quadroParaB)]).written = [] := by
  decide

/-! ## Capture trigger, `GetPending` and `registerNode`: the claims -/

theorem changeCondition_unchanged {checks : List String} {old new : Row} (hne : checks ≠ [])
    (hsame : ∀ c ∈ checks, cell old c = cell new c) : changeCondition checks old new = false := by
  unfold changeCondition
  have hemp : checks.isEmpty = false := by
    cases checks with
    | nil => exact absurd rfl hne
    | cons a l => rfl
  simp only [hemp, Bool.false_eq_true, if_false]
  rw [List.any_eq_false]
  intro c hc
  simp [hsame c hc]

/-- C24 (the code at the failing input): `CARIMBO` has the columns `VERSION` and
`SYNC_TS`, both in the ignore set, so `InstallTriggers` finds no column to
compare and writes the guard `1=1` into the trigger; an UPDATE that changes only
`SYNC_TS`, a column the ignore set names, inserts an outbox row, both when the
trigger is run on the row change and when the UPDATE is run through the
engine. -/
theorem capture_all_ignored_update :
    changeChecksOf carimboTable.cols = [] ∧
    ((triggerFor carimboTable).capture "0b7e3c1a-5d2f-4e8a-9c41-6f0d2b9a7e13" 7
        (Change.upd carimboOld carimboNew)).map (fun r => (r.Tabela, r.Operacao, r.Status)) =
      some ("CARIMBO", "U", "P") ∧
    ((execStmt quietRecv.other quietRecv.uuid 7
        (Stmt.upsert "CARIMBO" ["VERSION", "SYNC_TS"] [Value.str "1", Value.str "2024-01-02"]
          ["VERSION"])
        { lojaDB with tables := lojaDB.tables.map (fun t =>
            if t.name = "CARIMBO" then { t with rows := [carimboOld] } else t) }).map
      (fun s => s.fila.map (fun r => (r.Tabela, r.Operacao, r.Origem)))) =
      some [("CARIMBO", "U", "TRIGGER")] := by
  decide

/-- The UPDATE guard of the trigger `InstallTriggers` generates: for a table with
at least one column outside the ignore set the trigger exits without inserting
an outbox row when no such column has a new value distinct from its old value
(NULL-safe: NULL equals NULL); for a table whose columns are all in the ignore
set it inserts an outbox row on every UPDATE. -/
theorem capture_update_guard (t : Table) (eventID : String) (now : Nat) (old new : Row) :
    (changeChecksOf t.cols ≠ [] →
      (∀ c ∈ t.cols, ignoreFields.contains (toUpper c) = false → cell old c = cell new c) →
      (triggerFor t).capture eventID now (Change.upd old new) = none) ∧
    (changeChecksOf t.cols = [] →
      ∃ r, (triggerFor t).capture eventID now (Change.upd old new) = some r ∧
        r.Operacao = "U" ∧ r.Tabela = t.name) := by
  constructor
  · intro hne hsame
    have hc : changeCondition (changeChecksOf t.cols) old new = false := by
      apply changeCondition_unchanged hne
      intro c hc
      simp only [changeChecksOf, List.mem_filter, Bool.not_eq_true'] at hc
      exact hsame c hc.1 hc.2
    simp [Trigger.capture, triggerFor, hc]
  · intro hemp
    simp [Trigger.capture, triggerFor, hemp, changeCondition]

/-- C25 (counterexample): the outbox holds event 1 in status `R` and event 2 in
status `P`; `GetPending(10)` returns both, the Retry row first. -/
theorem GetPending_returns_retry :
    (GetPending false 10 retryDB).toOption.map
      (fun items => items.map (fun r => (r.ID, r.Status))) = some [(1, "R"), (2, "P")] := by
  decide

/-- C25 (amended): when the query works, the limit `N` is not negative and no
selected row has a NULL payload, `GetPending(N)` returns at most `N` events,
every one of them an outbox row in status Pending or Retry, in ascending
local-id order, as many as there are such rows up to `N`, and every Pending or
Retry row that is not returned has a local id at least as high as each returned
one. -/
theorem GetPending_oldest (limit : Int) (s : DB) (hN : 0 ≤ limit)
    (hpl : ∀ r ∈ s.fila, pendingStatus r.Status = true → r.PayloadJSON.isSome = true) :
    ∃ items, GetPending false limit s = Except.ok items ∧
      (items.length : Int) ≤ limit ∧
      (∀ it ∈ items, it ∈ s.fila ∧ (it.Status = "P" ∨ it.Status = "R")) ∧
      (items.map (fun r => r.ID)).Pairwise (· ≤ ·) ∧
      items.length = min limit.toNat (s.fila.filter (fun r => pendingStatus r.Status)).length ∧
      ∀ r ∈ s.fila, pendingStatus r.Status = true → r ∉ items →
        ∀ it ∈ items, it.ID ≤ r.ID := by
  haveI : IsTotal FilaItem (fun a b => a.ID ≤ b.ID) := ⟨fun a b => le_total a.ID b.ID⟩
  haveI : IsTrans FilaItem (fun a b => a.ID ≤ b.ID) := ⟨fun _ _ _ h1 h2 => le_trans h1 h2⟩
  have hperm := List.perm_insertionSort (fun a b : FilaItem => a.ID ≤ b.ID)
    (s.fila.filter (fun r => pendingStatus r.Status))
  have hsorted := List.sorted_insertionSort (fun a b : FilaItem => a.ID ≤ b.ID)
    (s.fila.filter (fun r => pendingStatus r.Status))
  have hmem : ∀ it ∈ ((s.fila.filter (fun r => pendingStatus r.Status)).insertionSort
      (fun a b => a.ID ≤ b.ID)).take limit.toNat,
      it ∈ s.fila ∧ pendingStatus it.Status = true := by
    intro it hit
    have h2 := hperm.mem_iff.mp (List.mem_of_mem_take hit)
    simpa using h2
  refine ⟨((s.fila.filter (fun r => pendingStatus r.Status)).insertionSort
      (fun a b => a.ID ≤ b.ID)).take limit.toNat, ?_, ?_, ?_, ?_, ?_, ?_⟩
  · unfold GetPending
    have hlim : ¬ (false = true ∨ limit < 0) := by
      intro h
      rcases h with h | h
      · cases h
      · omega
    simp only [hlim, if_false]
    rw [if_pos]
    rw [List.all_eq_true]
    intro it hit
    exact hpl it (hmem it hit).1 (hmem it hit).2
  · have h1 := List.length_take_le limit.toNat
      ((s.fila.filter (fun r => pendingStatus r.Status)).insertionSort (fun a b => a.ID ≤ b.ID))
    have h2 := Int.toNat_of_nonneg hN
    omega
  · intro it hit
    refine ⟨(hmem it hit).1, ?_⟩
    have := (hmem it hit).2
    simpa [pendingStatus] using this
  · exact List.pairwise_map.mpr (hsorted.sublist (List.take_sublist _ _))
  · rw [List.length_take, hperm.length_eq]
  · intro r hr hpend hnot it hit
    have hin : r ∈ (s.fila.filter (fun r => pendingStatus r.Status)).insertionSort
        (fun a b => a.ID ≤ b.ID) :=
      hperm.mem_iff.mpr (List.mem_filter.mpr ⟨hr, hpend⟩)
    rw [← List.take_append_drop limit.toNat
      ((s.fila.filter (fun r => pendingStatus r.Status)).insertionSort
        (fun a b => a.ID ≤ b.ID))] at hin hsorted
    rcases List.mem_append.mp hin with h | h
    · exact absurd h hnot
    · exact (List.pairwise_append.mp hsorted).2.2 it hit r h

/-- C25 (amended) at a concrete input: the outbox of the counterexample with
limit 1 returns the lowest id alone. -/
theorem GetPending_oldest_witness :
    (0 : Int) ≤ 1 ∧
    (∃ items, GetPending false 1 retryDB = Except.ok items ∧ (items.length : Int) ≤ 1) ∧
    (GetPending false 1 retryDB).toOption.map (fun items => items.map (fun r => r.ID)) =
      some [1] :=
  ⟨by decide,
   (GetPending_oldest 1 retryDB (by decide) (by decide)).imp (fun _ h => ⟨h.1, h.2.1⟩),
   by decide⟩

theorem cutLast_none (sep : Char) (l : List Char) (h : sep ∉ l) : cutLast sep l = none := by
  induction l with
  | nil => rfl
  | cons c cs ih =>
    simp only [List.mem_cons, not_or] at h
    have hc : ¬ c = sep := fun e => h.1 e.symm
    simp [cutLast, ih h.2, hc]

theorem cutLast_split (sep : Char) (pre post : List Char) (h : sep ∉ post) :
    cutLast sep (pre ++ sep :: post) = some pre := by
  induction pre with
  | nil => simp [cutLast, cutLast_none sep post h]
  | cons c cs ih => simp [cutLast, ih]

theorem inferURL_host_port (host port : String) (hport : ':' ∉ port.data) :
    inferURL (host ++ ":" ++ port) = "http://" ++ host ++ ":8080/sync" := by
  unfold inferURL
  have hd : (host ++ ":" ++ port).data = host.data ++ ':' :: port.data := by
    simp [String.data_append]
  rw [hd, cutLast_split ':' host.data port.data hport]

theorem inferURL_no_port (addr : String) (h : ':' ∉ addr.data) :
    inferURL addr = "http://" ++ addr ++ ":8080/sync" := by
  unfold inferURL
  rw [cutLast_none ':' addr.data h]

/-- C28: for an envelope whose `source_node` is neither empty nor `TRIGGER`,
received from the TCP peer address `host:port`, `registerNode` runs the upsert of
the peer with the URL `http://host:8080/sync`, `host` being the address
without its last `:` and what follows it; when the upsert is accepted the peer
registry holds exactly one kind of row for that node id: the URL, `LAST_SEEN`
now and `ACTIVE = 'S'`; the other peers are as before.  An address without `:`
is used whole. -/
theorem registerNode_infers_url (env : RecvEnv) (p : SyncPayload) (s : DB) (host port : String)
    (h1 : p.Origem ≠ "") (h2 : p.Origem ≠ "TRIGGER")
    (haddr : p.RemoteAddr = host ++ ":" ++ port) (hport : ':' ∉ port.data)
    (hq : env.registerFails = false)
    (hlen : p.Origem.length ≤ 20) (hurl : ("http://" ++ host ++ ":8080/sync").length ≤ 255) :
    inferURL p.RemoteAddr = "http://" ++ host ++ ":8080/sync" ∧
    upsertNode env.now p.Origem ("http://" ++ host ++ ":8080/sync") s =
      some (registerNode env p s) ∧
    (∃ n ∈ (registerNode env p s).nodes, n.NodeID = p.Origem) ∧
    (∀ n ∈ (registerNode env p s).nodes, n.NodeID = p.Origem →
      n = { NodeID := p.Origem, RemoteURL := "http://" ++ host ++ ":8080/sync",
            LastSeen := some env.now, Active := "S" }) ∧
    (∀ n ∈ (registerNode env p s).nodes, n.NodeID ≠ p.Origem → n ∈ s.nodes) ∧
    (∀ addr : String, ':' ∉ addr.data → inferURL addr = "http://" ++ addr ++ ":8080/sync") := by
  have hinf : inferURL p.RemoteAddr = "http://" ++ host ++ ":8080/sync" := by
    rw [haddr]
    exact inferURL_host_port host port hport
  have hno : ¬ (p.Origem = "" ∨ p.Origem = "TRIGGER") := fun h => h.elim h1 h2
  have hreg : registerNode env p s =
      ({ s with nodes :=
          if s.nodes.any (fun n => decide (n.NodeID = p.Origem)) then
            s.nodes.map (fun n => if n.NodeID = p.Origem then
              { NodeID := p.Origem, RemoteURL := "http://" ++ host ++ ":8080/sync",
                LastSeen := some env.now, Active := "S" } else n)
          else s.nodes ++ [{ NodeID := p.Origem, RemoteURL := "http://" ++ host ++ ":8080/sync",
                             LastSeen := some env.now, Active := "S" }] } : DB) := by
    unfold registerNode upsertNode
    by_cases hany : s.nodes.any (fun n => decide (n.NodeID = p.Origem)) = true
    · simp only [hno, hq, hinf, hlen, hurl, hany, and_self, if_true, if_false,
        Bool.false_eq_true]
    · simp only [hno, hq, hinf, hlen, hurl, hany, and_self, if_true, if_false,
        Bool.false_eq_true]
  have hups : upsertNode env.now p.Origem ("http://" ++ host ++ ":8080/sync") s =
      some (registerNode env p s) := by
    rw [hreg]
    unfold upsertNode
    by_cases hany : s.nodes.any (fun n => decide (n.NodeID = p.Origem)) = true
    · simp only [hlen, hurl, hany, and_self, if_true]
    · simp only [hlen, hurl, hany, and_self, if_true, if_false, Bool.false_eq_true]
  refine ⟨hinf, hups, ?_, ?_, ?_, inferURL_no_port⟩
  · rw [hreg]
    by_cases hany : s.nodes.any (fun n => decide (n.NodeID = p.Origem)) = true
    · simp only [hany, if_true]
      obtain ⟨n0, hn0, hk⟩ := List.any_eq_true.mp hany
      have hk' : n0.NodeID = p.Origem := by simpa using hk
      exact ⟨_, List.mem_map.mpr ⟨n0, hn0, rfl⟩, by simp [hk']⟩
    · simp only [hany, Bool.false_eq_true, if_false]
      exact ⟨{ NodeID := p.Origem, RemoteURL := "http://" ++ host ++ ":8080/sync",
               LastSeen := some env.now, Active := "S" }, by simp, rfl⟩
  · rw [hreg]
    intro n hn hid
    by_cases hany : s.nodes.any (fun n => decide (n.NodeID = p.Origem)) = true
    · simp only [hany, if_true, List.mem_map] at hn
      obtain ⟨n0, _, he⟩ := hn
      by_cases hk : n0.NodeID = p.Origem
      · simp only [hk, if_true] at he
        exact he.symm
      · simp only [hk, if_false] at he
        exact absurd (he ▸ hid) hk
    · simp only [hany, Bool.false_eq_true, if_false, List.mem_append, List.mem_singleton] at hn
      rcases hn with hn | hn
      · exfalso
        exact hany (List.any_eq_true.mpr ⟨n, hn, by simp [hid]⟩)
      · exact hn
  · rw [hreg]
    intro n hn hid
    by_cases hany : s.nodes.any (fun n => decide (n.NodeID = p.Origem)) = true
    · simp only [hany, if_true, List.mem_map] at hn
      obtain ⟨n0, hn0, he⟩ := hn
      by_cases hk : n0.NodeID = p.Origem
      · simp only [hk, if_true] at he
        exact absurd (he ▸ rfl) hid
      · simp only [hk, if_false] at he
        exact he ▸ hn0
    · simp only [hany, Bool.false_eq_true, if_false, List.mem_append, List.mem_singleton] at hn
      rcases hn with hn | hn
      · exact hn
      · exact absurd (hn ▸ rfl) hid

/-- C28 at a concrete input: the envelope of `CENTRAL` received from
`10.0.0.2:51234` registers `http://10.0.0.2:8080/sync`. -/
theorem registerNode_infers_url_witness :
    insertCliente.RemoteAddr = "10.0.0.2" ++ ":" ++ "51234" ∧
    inferURL insertCliente.RemoteAddr = "http://10.0.0.2:8080/sync" ∧
    (registerNode quietRecv insertCliente lojaDB).nodes =
      [{ NodeID := "CENTRAL", RemoteURL := "http://10.0.0.2:8080/sync", LastSeen := some 7,
         Active := "S" }] :=
  ⟨by decide,
   (registerNode_infers_url quietRecv insertCliente lojaDB "10.0.0.2" "51234"
     (by decide) (by decide) (by decide) (by decide) rfl (by decide) (by decide)).1.trans
       (by decide),
   by decide⟩

/-! ## The outbox under every action -/

theorem withIDs_ids (g : Int) (rs : List FilaItem) :
    ∀ r ∈ withIDs g rs, g < r.ID ∧ r.ID ≤ g + rs.length := by
  induction rs generalizing g with
  | nil => simp [withIDs]
  | cons x xs ih =>
    intro r hr
    simp only [withIDs, List.mem_cons] at hr
    rcases hr with rfl | hr
    · simp only [List.length_cons, Nat.cast_add, Nat.cast_one]
      constructor <;> omega
    · have := ih (g + 1) r hr
      simp only [List.length_cons, Nat.cast_add, Nat.cast_one]
      constructor <;> omega

theorem withIDs_nodup (g : Int) (rs : List FilaItem) :
    ((withIDs g rs).map (fun r => r.ID)).Nodup := by
  induction rs generalizing g with
  | nil => simp [withIDs]
  | cons x xs ih =>
    simp only [withIDs, List.map_cons, List.nodup_cons, List.mem_map, not_exists, not_and]
    refine ⟨?_, ih (g + 1)⟩
    intro r hr he
    have := (withIDs_ids (g + 1) xs r hr).1
    omega

theorem insertFilaAll_genFila {rs : List FilaItem} {s s1 : DB}
    (h : insertFilaAll rs s = some s1) : s1.genFila = s.genFila + rs.length := by
  induction rs generalizing s with
  | nil => simp [insertFilaAll] at h; subst h; simp
  | cons r rs ih =>
    simp only [insertFilaAll] at h
    split at h
    · next s2 h2 =>
      obtain ⟨_, hg, _, _, _⟩ := insertFila_spec h2
      rw [ih h, hg]
      simp only [List.length_cons, Nat.cast_add, Nat.cast_one]
      omega
    · cases h

theorem execUser_genFila {uuid : Nat → String} {now : Nat} {st : Stmt} {s s1 : DB}
    (h : execUser uuid now st s = some s1) :
    s1.genFila = s.genFila + (capturedBy uuid now st s).length := by
  unfold execUser at h
  unfold capturedBy
  cases ht : s.tables.find? (fun t => decide (t.name = st.table)) with
  | none => simp [ht] at h
  | some t =>
    simp only [ht] at h ⊢
    cases hr : execRows t st with
    | none => simp [hr] at h
    | some rc =>
      obtain ⟨rows, changes⟩ := rc
      simp only [hr] at h ⊢
      cases htr : t.trigger with
      | none =>
        simp only [htr] at h ⊢
        cases h
        simp
      | some tr =>
        simp only [htr] at h ⊢
        exact (insertFilaAll_genFila h).trans rfl

theorem writeHistory_genFila (env : RecvEnv) (p : SyncPayload) (tx : DB) :
    writeHistory env p tx = tx ∨
    ((writeHistory env p tx).fila = tx.fila ++ withIDs tx.genFila [historyRow env.now p] ∧
      (writeHistory env p tx).genFila = tx.genFila + 1) := by
  unfold writeHistory
  split
  · exact Or.inl rfl
  · split
    · next tx1 h =>
      obtain ⟨hf, hg, _, _, _⟩ := insertFila_spec h
      exact Or.inr ⟨hf, hg⟩
    · exact Or.inl rfl

/-- Rows appended with fresh generator values keep the key constraint of the
outbox. -/
theorem filaKeysOK_grow {s s1 : DB} {rs : List FilaItem} (hk : filaKeysOK s)
    (hf : s1.fila = s.fila ++ withIDs s.genFila rs)
    (hg : s1.genFila = s.genFila + rs.length) : filaKeysOK s1 := by
  obtain ⟨k1, k2⟩ := hk
  constructor
  · rw [hf, List.map_append]
    refine List.Nodup.append k1 (withIDs_nodup _ _) ?_
    simp only [List.disjoint_left, List.mem_map, not_exists, not_and]
    rintro i ⟨r, hr, rfl⟩ r' hr' he
    have h1 := k2 r hr
    have h2 := (withIDs_ids _ _ r' hr').1
    omega
  · intro r hr
    rw [hf] at hr
    rw [hg]
    rcases List.mem_append.mp hr with h | h
    · have := k2 r h
      omega
    · exact (withIDs_ids _ _ r h).2

/-- A delivery of an envelope that addresses a replicated user table keeps the
key constraint of the outbox, keeps every outbox row that was there, and leaves
the destination table as it was. -/
theorem ProcessPayload_keeps (env : RecvEnv) (p : SyncPayload) (s : DB) (hk : filaKeysOK s)
    (hu : targetsUserTable p s = true) :
    filaKeysOK (ProcessPayload env p s).1 ∧
    (∀ r ∈ s.fila, r ∈ (ProcessPayload env p s).1.fila) ∧
    (ProcessPayload env p s).1.destinos = s.destinos := by
  obtain ⟨hf, _, hd, hg⟩ := registerNode_frame env p s
  have hk0 : filaKeysOK (registerNode env p s) := by
    unfold filaKeysOK
    rw [hf, hg]
    exact hk
  rcases ProcessPayload_cases_user env p s hu with h1 | ⟨st, tx1, _, _, hx, hpp⟩
  · rw [h1]
    exact ⟨hk0, fun r hr => by rw [hf]; exact hr, hd⟩
  · obtain ⟨hxf, hxd, _⟩ := execUser_spec hx
    have hxg := execUser_genFila hx
    have hk1 : filaKeysOK tx1 := filaKeysOK_grow hk0 hxf hxg
    have hin1 : ∀ r ∈ s.fila, r ∈ tx1.fila := by
      intro r hr
      rw [hxf, hf]
      exact List.mem_append_left _ hr
    have hwd := (writeHistory_spec env p tx1).2.2
    rw [hpp]
    simp only
    rcases writeHistory_genFila env p tx1 with hw | ⟨hwf, hwg⟩
    · rw [hw]
      exact ⟨hk1, hin1, by rw [hxd, hd]⟩
    · refine ⟨filaKeysOK_grow hk1 hwf (by simpa using hwg), ?_, by rw [hwd, hxd, hd]⟩
      intro r hr
      rw [hwf]
      exact List.mem_append_left _ (hin1 r hr)

theorem insertDestino_genFila {filaID : Int} {nodeID : String} {s s1 : DB}
    (h : insertDestino filaID nodeID s = some s1) : s1.genFila = s.genFila := by
  unfold insertDestino at h
  split at h
  · cases h; rfl
  · cases h

theorem createLoop_genFila {filaID : Int} {ignoreNode : String} {execFails : Nat → Bool}
    {nodes : List Node} {tx tx1 : DB}
    (h : createLoop filaID ignoreNode execFails nodes tx = some tx1) :
    tx1.genFila = tx.genFila := by
  induction nodes generalizing tx execFails with
  | nil => simp [createLoop] at h; subst h; rfl
  | cons n ns ih =>
    simp only [createLoop] at h
    by_cases hn : n.NodeID = ignoreNode
    · simp only [hn, if_true] at h
      exact ih h
    · simp only [hn, if_false] at h
      split at h
      · cases h
      · split at h
        · cases h
        · next tx2 h2 => rw [ih h, insertDestino_genFila h2]

theorem dispatchItem_genFila (now : Nat) (f : ItemFaults) (nodes : List Node) (it : FilaItem)
    (s : DB) : (dispatchItem now f nodes it s).genFila = s.genFila := by
  unfold dispatchItem
  cases hc : CreateDestinations f.create it.ID nodes it.Origem s with
  | error e => rfl
  | ok s1 =>
    have hg : s1.genFila = s.genFila := by
      unfold CreateDestinations at hc
      split at hc
      · cases hc
      · split at hc
        · cases hc
        · next tx hl =>
          split at hc
          · cases hc
          · cases hc
            exact createLoop_genFila hl
    unfold UpdateStatus
    by_cases hu : f.updateStatusFails = true
    · simp only [hu, if_true]
      exact hg
    · simp only [hu, Bool.false_eq_true, if_false]
      exact hg

theorem dispatchLoop_genFila (now : Nat) (nodes : List Node) (items : List FilaItem)
    (faults : Nat → ItemFaults) (s : DB) :
    (dispatchLoop now faults nodes items s).genFila = s.genFila := by
  induction items generalizing faults s with
  | nil => rfl
  | cons it rest ih =>
    simp only [dispatchLoop]
    rw [ih, dispatchItem_genFila]

/-- A dispatcher tick keeps the key constraint of the outbox, keeps every outbox
row that is neither Pending nor Retry, and appends destination rows only for
events that are Pending or Retry. -/
theorem dispatchEvents_outbox (env : DispatchEnv) (cfg : Config) (s : DB) (hk : filaKeysOK s) :
    filaKeysOK (dispatchEvents env cfg s) ∧
    (∀ r ∈ s.fila, pendingStatus r.Status = false → r ∈ (dispatchEvents env cfg s).fila) ∧
    ∃ added, (dispatchEvents env cfg s).destinos = s.destinos ++ added ∧
      ∀ d ∈ added, ∃ it ∈ s.fila, pendingStatus it.Status = true ∧ d.FilaID = it.ID := by
  rcases dispatchEvents_cases env cfg s with h | ⟨items, hget, _, h⟩
  · rw [h]
    exact ⟨hk, fun r hr _ => hr, [], by simp, by simp⟩
  · rw [h]
    obtain ⟨added, F, hadd, hfila, hid, hout, hin, _⟩ :=
      dispatchLoop_spec env.now (activeNodes s) items env.item s (GetPending_nodup hk.1 hget)
    have hmemI := GetPending_mem hget
    refine ⟨?_, ?_, added, hadd, ?_⟩
    · constructor
      · rw [hfila, List.map_map]
        have : s.fila.map ((fun r => r.ID) ∘ F) = s.fila.map (fun r => r.ID) := by
          apply List.map_congr_left
          intro r _
          exact hid r
        rw [this]
        exact hk.1
      · intro r hr
        rw [hfila] at hr
        obtain ⟨r0, hr0, rfl⟩ := List.mem_map.mp hr
        rw [dispatchLoop_genFila, hid]
        exact hk.2 r0 hr0
    · intro r hr hst
      rw [hfila]
      have hFr : F r = r := by
        apply hout
        intro hm
        obtain ⟨it, hit, he⟩ := List.mem_map.mp hm
        have hitr : it = r := List.inj_on_of_nodup_map hk.1 (hmemI it hit).1 hr he
        rw [← hitr, (hmemI it hit).2] at hst
        cases hst
      exact List.mem_map.mpr ⟨r, hr, hFr⟩
    · intro d hd
      obtain ⟨it, hit, he⟩ := List.mem_map.mp (hin d hd)
      exact ⟨it, (hmemI it hit).1, (hmemI it hit).2, he.symm⟩

theorem markDestino_genFila (env : SendEnv) (id : Int) (st msg : String) (s : DB) :
    (markDestino env id st msg s).genFila = s.genFila := by
  unfold markDestino UpdateDestinoStatus
  by_cases hf : env.updateFails id = true
  · simp [hf]
  · simp [hf]

theorem fold_outcome_genFila (env : SendEnv) (p : Poller) (H : List DestinoTask) (s : DB) :
    (H.foldl (outcome env p) s).genFila = s.genFila := by
  induction H generalizing s with
  | nil => rfl
  | cons a rest ih =>
    simp only [List.foldl_cons]
    rw [ih]
    unfold outcome
    split
    · exact markDestino_genFila _ _ _ _ _
    · split
      · exact markDestino_genFila _ _ _ _ _
      · exact markDestino_genFila _ _ _ _ _

theorem sendEvents_genFila (env : SendEnv) (p : Poller) (s : DB) :
    (sendEvents env p s).1.genFila = s.genFila := by
  cases hd : GetPendingDestinations env.getPendingDestinationsFails p.cfg.Integracao.BatchSize s with
  | error e => rw [sendEvents_fetch_failed env p s e hd]
  | ok dests =>
    rw [sendEvents_spec env p s dests hd]
    exact fold_outcome_genFila _ _ _ _

theorem filter_filaID_map (G : FilaDestino → FilaDestino) (hG : ∀ d, (G d).FilaID = d.FilaID)
    (hI : ∀ d, (G d).ID = d.ID) (i : Int) (l : List FilaDestino) :
    ((l.map G).filter (fun d => decide (d.FilaID = i))).map (fun d => d.ID) =
      (l.filter (fun d => decide (d.FilaID = i))).map (fun d => d.ID) := by
  induction l with
  | nil => rfl
  | cons a l ih =>
    by_cases h : a.FilaID = i
    · simp [List.filter_cons, hG, hI, h, ih]
    · simp [List.filter_cons, hG, h, ih]

/-- One action (a delivery addressing a replicated user table) keeps the key
constraint of the outbox, keeps every outbox row that is neither Pending nor
Retry, and creates no destination row for it. -/
theorem runAct_keeps (p : Poller) (a : Act) (s : DB) (r : FilaItem) (hk : filaKeysOK s)
    (hu : a.onUserTable s = true)
    (hr : r ∈ s.fila) (hst : pendingStatus r.Status = false) :
    filaKeysOK (runAct p a s) ∧ r ∈ (runAct p a s).fila ∧
    ((runAct p a s).destinos.filter (fun d => decide (d.FilaID = r.ID))).map (fun d => d.ID) =
      (s.destinos.filter (fun d => decide (d.FilaID = r.ID))).map (fun d => d.ID) := by
  cases a with
  | dispatch env =>
    obtain ⟨h1, h2, added, hadd, hprop⟩ := dispatchEvents_outbox env p.cfg s hk
    refine ⟨h1, h2 r hr hst, ?_⟩
    show ((dispatchEvents env p.cfg s).destinos.filter _).map _ = _
    rw [hadd, List.filter_append]
    have : added.filter (fun d => decide (d.FilaID = r.ID)) = [] := by
      rw [List.filter_eq_nil_iff]
      intro d hd
      simp only [decide_eq_true_eq]
      intro he
      obtain ⟨it, hit, hpend, hid⟩ := hprop d hd
      have hitr : it = r := List.inj_on_of_nodup_map hk.1 hit hr (hid.symm.trans he)
      rw [hitr, hst] at hpend
      cases hpend
    rw [this, List.append_nil]
  | send env =>
    obtain ⟨hf, _, _, _⟩ := sendEvents_frame env p s
    obtain ⟨G, hG, hstep⟩ := sendEvents_steps true env p s (fun h => by cases h)
    refine ⟨?_, ?_, ?_⟩
    · show filaKeysOK (sendEvents env p s).1
      unfold filaKeysOK
      rw [hf, sendEvents_genFila]
      exact hk
    · show r ∈ (sendEvents env p s).1.fila
      rw [hf]
      exact hr
    · show ((sendEvents env p s).1.destinos.filter _).map _ = _
      rw [hG]
      exact filter_filaID_map G (fun d => (hstep d).2.1) (fun d => (hstep d).1) r.ID s.destinos
  | deliver env payload =>
    obtain ⟨h1, h2, h3⟩ := ProcessPayload_keeps env payload s hk hu
    refine ⟨h1, h2 r hr, ?_⟩
    show ((ProcessPayload env payload s).1.destinos.filter _).map _ = _
    rw [h3]

/-- C26 (counterexample): an envelope may name the outbox table itself, because
`applyToDBTx` writes `p.Table` into the SQL text unchecked.  The delivery of
`reabreEvento` to `lojaAplicada` runs `UPDATE OR INSERT INTO FILA_INTEGRACAO
(ID, STATUS) VALUES (2, P) MATCHING (ID)`, is answered with success, and the
row with ID 2, which had status `A`, has status `P` afterwards. -/
theorem applied_row_reopened :
    filaKeysOK lojaAplicada ∧ linhaAplicada ∈ lojaAplicada.fila ∧ linhaAplicada.Status = "A" ∧
    linhaAplicada.ID = 2 ∧
    (ProcessPayload outboxRecv reabreEvento lojaAplicada).2 = Except.ok () ∧
    (runActs pollerA [Act.deliver outboxRecv reabreEvento] lojaAplicada).fila.filter
        (fun x => decide (x.ID = linhaAplicada.ID)) = [{ linhaAplicada with Status := "P" }] ∧
    (runActs pollerA [Act.deliver outboxRecv reabreEvento] lojaAplicada).fila.filter
        (fun x => decide (x.ID = linhaAplicada.ID)) ≠ [linhaAplicada] := by
  refine ⟨?_, ?_⟩
  · unfold filaKeysOK
    decide
  · decide

/-- C26 (amended): with the key constraint of the outbox in place, an outbox row
in status Applied is, after every sequence of dispatcher ticks, sender ticks and
receiver deliveries of envelopes that address replicated user tables, still the
one row with its ID, unchanged in every field, and the destination rows that
reference it are the ones that were there before: none is created for it. -/
theorem applied_row_is_final (p : Poller) (acts : List Act) (s : DB) (r : FilaItem)
    (hk : filaKeysOK s) (hu : actsOnUserTables p acts s) (hr : r ∈ s.fila)
    (hA : r.Status = "A") :
    (runActs p acts s).fila.filter (fun x => decide (x.ID = r.ID)) = [r] ∧
    ((runActs p acts s).destinos.filter (fun d => decide (d.FilaID = r.ID))).map
        (fun d => d.ID) =
      (s.destinos.filter (fun d => decide (d.FilaID = r.ID))).map (fun d => d.ID) := by
  have hst : pendingStatus r.Status = false := by
    rw [hA]
    decide
  induction acts generalizing s with
  | nil => exact ⟨filter_id_of_nodup hk.1 hr, rfl⟩
  | cons a rest ih =>
    simp only [runActs]
    obtain ⟨h1, h2, h3⟩ := runAct_keeps p a s r hk hu.1 hr hst
    obtain ⟨i1, i2⟩ := ih (runAct p a s) h1 hu.2 h2
    exact ⟨i1, i2.trans h3⟩

/-- C26 (amended) at a concrete input: the Applied row of a node after a further
delivery, a dispatcher tick and a sender tick. -/
theorem applied_row_is_final_witness :
    filaKeysOK lojaAplicada ∧
    actsOnUserTables pollerA [Act.deliver outboxRecv upsertCarimboCentral,
      Act.dispatch quietDispatch, Act.send quietSend] lojaAplicada ∧
    linhaAplicada ∈ lojaAplicada.fila ∧ linhaAplicada.Status = "A" ∧
    (runActs pollerA [Act.deliver outboxRecv upsertCarimboCentral, Act.dispatch quietDispatch,
      Act.send quietSend] lojaAplicada).fila.filter
        (fun x => decide (x.ID = linhaAplicada.ID)) = [linhaAplicada] :=
  ⟨by unfold filaKeysOK; decide, by simp only [actsOnUserTables]; decide, by decide, rfl,
   (applied_row_is_final pollerA [Act.deliver outboxRecv upsertCarimboCentral,
      Act.dispatch quietDispatch, Act.send quietSend] lojaAplicada linhaAplicada
      (by unfold filaKeysOK; decide) (by simp only [actsOnUserTables]; decide) (by decide) rfl).1⟩

/-! ## Dispatcher: the pairs of the destination rows -/

theorem destRows_pairs (g filaID : Int) (ns : List Node) :
    (destRows g filaID ns).map (fun d => (d.FilaID, d.NodeID)) =
      ns.map (fun n => (filaID, n.NodeID)) := by
  induction ns generalizing g with
  | nil => simp [destRows]
  | cons n ns ih => simp [destRows, ih]

/-- The loop body on a Pending event without destination rows, when its status
update does not fail: the pairs stay pairwise distinct and the event, when it
got destination rows, is no longer Pending. -/
theorem dispatchItem_fanout (now : Nat) (f : ItemFaults) (nodes : List Node) (it : FilaItem)
    (s : DB) (hf : f.updateStatusFails = false)
    (hnodes : (nodes.map (fun n => n.NodeID)).Nodup)
    (hp : (destPairs s).Nodup) (hk : (s.fila.map (fun r => r.ID)).Nodup)
    (hres : ∀ d ∈ s.destinos, ∀ r ∈ s.fila, r.ID = d.FilaID → pendingStatus r.Status = false)
    (hit : it ∈ s.fila) (hpend : pendingStatus it.Status = true) :
    (destPairs (dispatchItem now f nodes it s)).Nodup ∧
    ((dispatchItem now f nodes it s).fila.map (fun r => r.ID)).Nodup ∧
    (∀ d ∈ (dispatchItem now f nodes it s).destinos, ∀ r ∈ (dispatchItem now f nodes it s).fila,
      r.ID = d.FilaID → pendingStatus r.Status = false) ∧
    (∀ r ∈ s.fila, r.ID ≠ it.ID → r ∈ (dispatchItem now f nodes it s).fila) ∧
    (dispatchItem now f nodes it s).nodes = s.nodes := by
  rcases dispatchItem_spec now f nodes it s with h0 | ⟨hd, hn, _, hcase⟩
  · rw [h0]
    exact ⟨hp, hk, hres, fun r hr _ => hr, rfl⟩
  · rcases hcase with ⟨_, hfail⟩ | ⟨hfila, _⟩
    · rw [hf] at hfail
      cases hfail
    · have hold : ∀ d ∈ s.destinos, d.FilaID ≠ it.ID := by
        intro d hdm he
        have := hres d hdm it hit he.symm
        rw [hpend] at this
        cases this
      have htn : ((targets nodes it.Origem).map (fun n => n.NodeID)).Nodup :=
        hnodes.sublist ((List.filter_sublist _).map _)
      refine ⟨?_, ?_, ?_, ?_, hn⟩
      · unfold destPairs
        rw [hd, List.map_append, destRows_pairs]
        refine List.Nodup.append hp ?_ ?_
        · have : (targets nodes it.Origem).map (fun n => (it.ID, n.NodeID)) =
              ((targets nodes it.Origem).map (fun n => n.NodeID)).map (fun k => (it.ID, k)) := by
            rw [List.map_map]
            rfl
          rw [this]
          exact htn.map (fun a b h => (Prod.mk.injEq _ _ _ _ ▸ h).2)
        · simp only [List.disjoint_left, List.mem_map, not_exists, not_and]
          rintro pr ⟨d, hdm, rfl⟩ n _ he
          exact hold d hdm (Prod.mk.injEq _ _ _ _ ▸ he).1.symm
      · rw [hfila, List.map_map]
        have : s.fila.map ((fun r : FilaItem => r.ID) ∘ fun r =>
            if r.ID = it.ID then
              { r with Status := "D", ERROMsg := some "Evento despachado para nós ativos",
                       DTUltEnvio := some now, Tentativas := r.Tentativas + 1 }
            else r) = s.fila.map (fun r => r.ID) := by
          apply List.map_congr_left
          intro r _
          simp only [Function.comp]
          split <;> rfl
        rw [this]
        exact hk
      · intro d hdm r hr he
        rw [hfila] at hr
        obtain ⟨r0, hr0, rfl⟩ := List.mem_map.mp hr
        by_cases hid : r0.ID = it.ID
        · simp only [hid, if_true]
          decide
        · simp only [hid, if_false] at he ⊢
          rw [hd] at hdm
          rcases List.mem_append.mp hdm with h | h
          · exact hres d h r0 hr0 he
          · exact absurd (he.trans (destRows_mem h).1) hid
      · intro r hr hne
        rw [hfila]
        exact List.mem_map.mpr ⟨r, hr, by simp [hne]⟩

theorem dispatchLoop_fanout (now : Nat) (nodes : List Node) (items : List FilaItem)
    (faults : Nat → ItemFaults) (s : DB)
    (hupd : ∀ k, (faults k).updateStatusFails = false)
    (hnodes : (nodes.map (fun n => n.NodeID)).Nodup)
    (hp : (destPairs s).Nodup) (hk : (s.fila.map (fun r => r.ID)).Nodup)
    (hres : ∀ d ∈ s.destinos, ∀ r ∈ s.fila, r.ID = d.FilaID → pendingStatus r.Status = false)
    (hitems : ∀ it ∈ items, it ∈ s.fila ∧ pendingStatus it.Status = true)
    (hnd : (items.map (fun r => r.ID)).Nodup) :
    (destPairs (dispatchLoop now faults nodes items s)).Nodup ∧
    ((dispatchLoop now faults nodes items s).fila.map (fun r => r.ID)).Nodup ∧
    (∀ d ∈ (dispatchLoop now faults nodes items s).destinos,
      ∀ r ∈ (dispatchLoop now faults nodes items s).fila,
      r.ID = d.FilaID → pendingStatus r.Status = false) ∧
    (dispatchLoop now faults nodes items s).nodes = s.nodes := by
  induction items generalizing faults s with
  | nil => exact ⟨hp, hk, hres, rfl⟩
  | cons it rest ih =>
    simp only [List.map_cons, List.nodup_cons, List.mem_map, not_exists, not_and] at hnd
    simp only [dispatchLoop]
    obtain ⟨h1, h2, h3, h4, h5⟩ := dispatchItem_fanout now (faults 0) nodes it s (hupd 0) hnodes
      hp hk hres (hitems it (by simp)).1 (hitems it (by simp)).2
    obtain ⟨i1, i2, i3, i4⟩ := ih (fun k => faults (k + 1))
      (dispatchItem now (faults 0) nodes it s) (fun k => hupd (k + 1)) h1 h2 h3
      (fun it' hit' => ⟨h4 it' (hitems it' (by simp [hit'])).1
          (fun he => hnd.1 it' hit' he), (hitems it' (by simp [hit'])).2⟩)
      hnd.2
    exact ⟨i1, i2, i3, i4.trans h5⟩

/-- A dispatcher tick in which no status update fails keeps the fan-out
consistent. -/
theorem dispatchEvents_fanout (env : DispatchEnv) (cfg : Config) (s : DB)
    (hupd : ∀ k, (env.item k).updateStatusFails = false) (h : fanoutOK s) :
    fanoutOK (dispatchEvents env cfg s) := by
  obtain ⟨hp, hk, hn, hres⟩ := h
  rcases dispatchEvents_cases env cfg s with h0 | ⟨items, hget, _, h1⟩
  · rw [h0]
    exact ⟨hp, hk, hn, hres⟩
  · rw [h1]
    have hact : ((activeNodes s).map (fun n => n.NodeID)).Nodup := by
      unfold activeNodes
      rw [List.map_map]
      exact hn.sublist ((List.filter_sublist _).map _)
    obtain ⟨i1, i2, i3, i4⟩ := dispatchLoop_fanout env.now (activeNodes s) items env.item s hupd
      hact hp hk hres (GetPending_mem hget) (GetPending_nodup hk hget)
    exact ⟨i1, i2, by rw [i4]; exact hn, i3⟩

/-- C27 (counterexample): one Pending event and the peers `A`, `B`, `C`, no
destination row yet.  In the first tick the destinations of the event are
committed and its status update fails, so the event stays Pending; the second
tick inserts the destinations again: the pairs (1, B) and (1, C) occur twice. -/
theorem dispatchTicks_duplicates_pairs :
    fanoutOK fanoutDB ∧
    destPairs (dispatchTicks cfgA [statusUpdateFails, quietDispatch] fanoutDB) =
      [(1, "B"), (1, "C"), (1, "B"), (1, "C")] ∧
    ¬ (destPairs (dispatchTicks cfgA [statusUpdateFails, quietDispatch] fanoutDB)).Nodup :=
  ⟨by unfold fanoutOK; decide, by decide, by decide⟩

/-- C27 (amended): starting from a state in which the pairs (event local id,
target node id) of the destination rows are pairwise distinct, outbox IDs and
peer node ids are pairwise distinct and no Pending or Retry event has a
destination row, every sequence of dispatcher ticks in which no status update
fails keeps all of that, whatever else fails: the pairs stay pairwise distinct. -/
theorem dispatchTicks_pairs_unique (cfg : Config) (envs : List DispatchEnv) (s : DB)
    (hupd : ∀ env ∈ envs, ∀ k, (env.item k).updateStatusFails = false) (h0 : fanoutOK s) :
    fanoutOK (dispatchTicks cfg envs s) ∧ (destPairs (dispatchTicks cfg envs s)).Nodup := by
  have hall : fanoutOK (dispatchTicks cfg envs s) := by
    induction envs generalizing s with
    | nil => exact h0
    | cons env rest ih =>
      simp only [dispatchTicks]
      exact ih (dispatchEvents env cfg s) (fun e he => hupd e (by simp [he]))
        (dispatchEvents_fanout env cfg s (hupd env (by simp)) h0)
  exact ⟨hall, hall.1⟩

/-- C27 (amended) at a concrete input: two ticks without faults on the Pending
event with three peers. -/
theorem dispatchTicks_pairs_unique_witness :
    fanoutOK fanoutDB ∧
    (destPairs (dispatchTicks cfgA [quietDispatch, quietDispatch] fanoutDB)).Nodup ∧
    destPairs (dispatchTicks cfgA [quietDispatch, quietDispatch] fanoutDB) =
      [(1, "B"), (1, "C")] :=
  ⟨by unfold fanoutOK; decide,
   (dispatchTicks_pairs_unique cfgA [quietDispatch, quietDispatch] fanoutDB
     (by simp [quietDispatch, noItemFaults]) (by unfold fanoutOK; decide)).2,
   by decide⟩

end Integrador
